import Mathlib

/-!
Verification of the mini-redis specification against its Go sources.

Each subsystem named by the claims is shallowly embedded: the Go functions
become Lean functions over explicit state (association lists stand in for Go
maps, integer instants stand in for wall-clock time), and the claims become
theorems about those functions.  Every definition is transcribed from the
corresponding source file, named after the Go identifier it embeds.
-/

set_option maxHeartbeats 1000000
set_option maxRecDepth 8000

namespace MiniRedis

/-! ## RESP codec (internal/resp/resp.go) -/

/-- Error kinds of the RESP decoder, one per error variable in resp.go. -/
inductive PErr where
  | invalidType
  | invalidFormat
  | invalidLength
  | unexpectedEOF
  | invalidInteger
deriving DecidableEq, Repr

/-- Go struct resp.Value: a type tag plus one field per payload kind.  All five
fields are always present, as in the Go struct. -/
inductive RValue where
  | mk (vtype : Char) (str : List Char) (num : Int) (array : List RValue) (null : Bool)

mutual

/-- Decidable equality on RESP values. -/
def decEqRValue : (v w : RValue) → Decidable (v = w)
  | .mk t1 s1 n1 a1 b1, .mk t2 s2 n2 a2 b2 =>
    if h1 : t1 = t2 then
      if h2 : s1 = s2 then
        if h3 : n1 = n2 then
          match decEqRValueList a1 a2 with
          | isTrue h4 =>
            if h5 : b1 = b2 then isTrue (by rw [h1, h2, h3, h4, h5])
            else isFalse (by intro h; injection h; contradiction)
          | isFalse h4 => isFalse (by intro h; injection h; contradiction)
        else isFalse (by intro h; injection h; contradiction)
      else isFalse (by intro h; injection h; contradiction)
    else isFalse (by intro h; injection h; contradiction)

/-- Decidable equality on lists of RESP values. -/
def decEqRValueList : (a b : List RValue) → Decidable (a = b)
  | [], [] => isTrue rfl
  | [], _ :: _ => isFalse (by intro h; injection h)
  | _ :: _, [] => isFalse (by intro h; injection h)
  | v :: vs, w :: ws =>
    match decEqRValue v w, decEqRValueList vs ws with
    | isTrue h1, isTrue h2 => isTrue (by rw [h1, h2])
    | isFalse h1, _ => isFalse (by intro h; injection h; contradiction)
    | isTrue _, isFalse h2 => isFalse (by intro h; injection h; contradiction)

end

instance : DecidableEq RValue := decEqRValue

instance decEqExcept {e a : Type} [DecidableEq e] [DecidableEq a] :
    DecidableEq (Except e a) := fun x y =>
  match x, y with
  | .ok v, .ok w =>
    if h : v = w then isTrue (by rw [h]) else isFalse (by intro hh; injection hh; contradiction)
  | .error v, .error w =>
    if h : v = w then isTrue (by rw [h]) else isFalse (by intro hh; injection hh; contradiction)
  | .ok _, .error _ => isFalse (by intro hh; injection hh)
  | .error _, .ok _ => isFalse (by intro hh; injection hh)

/-- Field accessor for the type tag. -/
def RValue.vtype : RValue → Char
  | .mk t _ _ _ _ => t

/-- Field accessor for the string payload. -/
def RValue.str : RValue → List Char
  | .mk _ s _ _ _ => s

/-- Field accessor for the integer payload. -/
def RValue.num : RValue → Int
  | .mk _ _ n _ _ => n

/-- Field accessor for the array payload. -/
def RValue.array : RValue → List RValue
  | .mk _ _ _ a _ => a

/-- Field accessor for the null flag. -/
def RValue.null : RValue → Bool
  | .mk _ _ _ _ b => b

/-- Decimal digit to character. -/
def digitChar (d : Nat) : Char := Char.ofNat (48 + d)

/-- Accumulate the decimal digits of a natural number, most significant first,
in front of a given tail.  The first argument is structural fuel; any fuel at
least the number itself suffices. -/
def natCharsAux : Nat → Nat → List Char → List Char
  | 0, _, acc => acc
  | _ + 1, 0, acc => acc
  | fuel + 1, n + 1, acc =>
    natCharsAux fuel ((n + 1) / 10) (digitChar ((n + 1) % 10) :: acc)

/-- Canonical decimal rendering of a natural number, as Go fmt with verb d
produces it. -/
def natChars (n : Nat) : List Char :=
  if n = 0 then ['0'] else natCharsAux n n []

/-- Canonical decimal rendering of an integer, as Go fmt with verb d produces
it. -/
def intChars (n : Int) : List Char :=
  if n < 0 then '-' :: natChars n.natAbs else natChars n.toNat

/-- Fold a digit-character list onto an accumulator; fails on any non-digit.
This is the digit loop inside strconv.Atoi. -/
def digitsVal : List Char → Nat → Option Nat
  | [], acc => some acc
  | c :: cs, acc =>
    if c.isDigit then digitsVal cs (acc * 10 + (c.toNat - 48)) else none

/-- Model of strconv.Atoi: an optional sign followed by at least one decimal
digit.  (Go additionally rejects values outside the 64-bit range; none of the
verified claims exercises that bound, so the model keeps integers unbounded.) -/
def goAtoi (s : List Char) : Option Int :=
  match s with
  | [] => none
  | c :: rest =>
    if c = '-' then
      match rest with
      | [] => none
      | _ :: _ => (digitsVal rest 0).map (fun n => -(n : Int))
    else if c = '+' then
      match rest with
      | [] => none
      | _ :: _ => (digitsVal rest 0).map (fun n => (n : Int))
    else (digitsVal (c :: rest) 0).map (fun n => (n : Int))

mutual

/-- Value.Serialize from resp.go, rendering a value to its wire bytes. -/
def serializeRESP : RValue → List Char
  | .mk t s n arr nul =>
    if t = '+' then '+' :: s ++ ['\r', '\n']
    else if t = '-' then '-' :: s ++ ['\r', '\n']
    else if t = ':' then ':' :: intChars n ++ ['\r', '\n']
    else if t = '$' then
      if nul then ['$', '-', '1', '\r', '\n']
      else '$' :: natChars s.length ++ ['\r', '\n'] ++ s ++ ['\r', '\n']
    else if t = '*' then
      if nul then ['*', '-', '1', '\r', '\n']
      else '*' :: natChars arr.length ++ ['\r', '\n'] ++ serializeList arr
    else []

/-- Serialization of the elements of an array value, in order. -/
def serializeList : List RValue → List Char
  | [] => []
  | v :: vs => serializeRESP v ++ serializeList vs

end

/-- The readLine helper of resp.go over a buffered reader: consume through the
first LF and require the line to end in CRLF; report EOF when no LF arrives. -/
def readLine : List Char → Except PErr (List Char × List Char)
  | [] => .error .unexpectedEOF
  | c :: rest =>
    if c = '\n' then .error .invalidFormat
    else if c = '\r' then
      match rest with
      | '\n' :: rest2 => .ok ([], rest2)
      | _ => do
        let (l, r) ← readLine rest
        .ok ('\r' :: l, r)
    else do
      let (l, r) ← readLine rest
      .ok (c :: l, r)

/-- The element loop of parseArray: parse a fixed count of values with the
supplied parser, accumulating them in reverse. -/
def parseElems (p : List Char → Except PErr (RValue × List Char)) :
    Nat → List Char → List RValue → Except PErr (RValue × List Char)
  | 0, r, acc => .ok (.mk '*' [] 0 acc.reverse false, r)
  | k + 1, r, acc => do
    let (v, r2) ← p r
    parseElems p k r2 (v :: acc)

/-- resp.Parse, fuel-indexed.  The fuel only bounds recursion depth; the
top-level entry point passes the input length, which always suffices because
every recursive call first consumes the one-byte type tag. -/
def parseF : Nat → List Char → Except PErr (RValue × List Char)
  | 0, _ => .error .unexpectedEOF
  | _ + 1, [] => .error .unexpectedEOF
  | fuel + 1, t :: rest =>
    if t = '+' then do
      let (line, r) ← readLine rest
      .ok (.mk '+' line 0 [] false, r)
    else if t = '-' then do
      let (line, r) ← readLine rest
      .ok (.mk '-' line 0 [] false, r)
    else if t = ':' then do
      let (line, r) ← readLine rest
      match goAtoi line with
      | none => .error .invalidInteger
      | some n => .ok (.mk ':' [] n [] false, r)
    else if t = '$' then do
      let (line, r) ← readLine rest
      match goAtoi line with
      | none => .error .invalidLength
      | some len =>
        if len = -1 then .ok (.mk '$' [] 0 [] true, r)
        else if len < 0 then .error .invalidLength
        else
          let n := len.toNat
          if r.length < n + 2 then .error .unexpectedEOF
          else if r.get? n = some '\r' ∧ r.get? (n + 1) = some '\n' then
            .ok (.mk '$' (r.take n) 0 [] false, r.drop (n + 2))
          else .error .invalidFormat
    else if t = '*' then do
      let (line, r) ← readLine rest
      match goAtoi line with
      | none => .error .invalidLength
      | some cnt =>
        if cnt = -1 then .ok (.mk '*' [] 0 [] true, r)
        else if cnt < 0 then .error .invalidLength
        else parseElems (parseF fuel) cnt.toNat r []
    else .error .invalidType

/-- resp.Parse on a finite input: the fuel is the input length. -/
def parseRESP (input : List Char) : Except PErr (RValue × List Char) :=
  parseF input.length input

example :
    parseRESP ['+', 'O', 'K', '\r', '\n'] = .ok (.mk '+' ['O', 'K'] 0 [] false, []) := by decide
example :
    parseRESP [':', '-', '4', '2', '\r', '\n'] = .ok (.mk ':' [] (-42) [] false, []) := by decide
example :
    parseRESP ['$', '2', '\r', '\n', 'h', 'i', '\r', '\n'] =
      .ok (.mk '$' ['h', 'i'] 0 [] false, []) := by decide
example : parseRESP ['$', '-', '1', '\r', '\n'] = .ok (.mk '$' [] 0 [] true, []) := by decide
example :
    parseRESP ['*', '2', '\r', '\n', '$', '1', '\r', '\n', 'a', '\r', '\n', ':', '5', '\r', '\n'] =
      .ok (.mk '*' [] 0 [.mk '$' ['a'] 0 [] false, .mk ':' [] 5 [] false] false, []) := by
  decide
example :
    serializeRESP (.mk '$' ['h', 'i'] 0 [] false) =
      ['$', '2', '\r', '\n', 'h', 'i', '\r', '\n'] := by decide

mutual

/-- A value is canonical when its unused struct fields hold their zero values
for its tag, its null flag carries no payload, and line-framed payloads
(simple strings and errors) contain no LF byte. -/
def canonV : RValue → Bool
  | .mk t s n arr nul =>
    if t = '+' ∨ t = '-' then !(s.contains '\n') && (n == 0) && arr.isEmpty && !nul
    else if t = ':' then s.isEmpty && arr.isEmpty && !nul
    else if t = '$' then (n == 0) && arr.isEmpty && (!nul || s.isEmpty)
    else if t = '*' then
      s.isEmpty && (n == 0) && (if nul then arr.isEmpty else canonL arr)
    else false

/-- All values of a list are canonical. -/
def canonL : List RValue → Bool
  | [] => true
  | v :: vs => canonV v && canonL vs

end

/-- Characters produced for decimal digits are digits. -/
theorem digitChar_isDigit (d : Nat) (h : d < 10) : (digitChar d).isDigit = true := by
  interval_cases d <;> decide

/-- A decimal digit character is not the minus sign. -/
theorem digitChar_ne_dash (d : Nat) (h : d < 10) : digitChar d ≠ '-' := by
  interval_cases d <;> decide

/-- A decimal digit character is not the plus sign. -/
theorem digitChar_ne_plus (d : Nat) (h : d < 10) : digitChar d ≠ '+' := by
  interval_cases d <;> decide

/-- A decimal digit character is not a line feed. -/
theorem digitChar_ne_lf (d : Nat) (h : d < 10) : digitChar d ≠ '\n' := by
  interval_cases d <;> decide

/-- Numeric value of a digit character. -/
theorem digitChar_toNat (d : Nat) (h : d < 10) : (digitChar d).toNat - 48 = d := by
  interval_cases d <;> decide

/-- Every character the digit accumulator emits is a digit or comes from the
tail. -/
theorem natCharsAux_mem :
    ∀ fuel n tail c, c ∈ natCharsAux fuel n tail → c.isDigit = true ∨ c ∈ tail := by
  intro fuel
  induction fuel with
  | zero => intro n tail c hc; exact Or.inr hc
  | succ f ih =>
    intro n tail c hc
    match n with
    | 0 => exact Or.inr hc
    | m + 1 =>
      rcases ih ((m + 1) / 10) (digitChar ((m + 1) % 10) :: tail) c hc with h | h
      · exact Or.inl h
      · rcases List.mem_cons.mp h with h | h
        · exact Or.inl (h ▸ digitChar_isDigit _ (Nat.mod_lt _ (by norm_num)))
        · exact Or.inr h

/-- Reading back the digits the accumulator emits recovers the number and
continues with the tail. -/
theorem digitsVal_natCharsAux :
    ∀ fuel n tail, n ≤ fuel → digitsVal (natCharsAux fuel n tail) 0 = digitsVal tail n := by
  intro fuel
  induction fuel with
  | zero => intro n tail h; interval_cases n; rfl
  | succ f ih =>
    intro n tail h
    match n with
    | 0 => rfl
    | m + 1 =>
      have hle : (m + 1) / 10 ≤ f := by
        have := Nat.div_lt_self (Nat.succ_pos m) (by norm_num : 1 < 10)
        omega
      have hmod : (m + 1) % 10 < 10 := Nat.mod_lt _ (by norm_num)
      show digitsVal (natCharsAux f ((m + 1) / 10) (digitChar ((m + 1) % 10) :: tail)) 0 = _
      rw [ih _ _ hle]
      show (if (digitChar ((m + 1) % 10)).isDigit = true then
          digitsVal tail ((m + 1) / 10 * 10 + ((digitChar ((m + 1) % 10)).toNat - 48))
        else none) = digitsVal tail (m + 1)
      rw [if_pos (digitChar_isDigit _ hmod), digitChar_toNat _ hmod]
      congr 1
      omega

/-- A positive number renders to a digit character followed by more
characters. -/
theorem natCharsAux_shape :
    ∀ fuel n tail, 0 < n → n ≤ fuel →
      ∃ d cs, natCharsAux fuel n tail = digitChar d :: cs ∧ d < 10 := by
  intro fuel
  induction fuel with
  | zero => intro n tail h h2; omega
  | succ f ih =>
    intro n tail h h2
    match n with
    | m + 1 =>
      show ∃ d cs, natCharsAux f ((m + 1) / 10) (digitChar ((m + 1) % 10) :: tail) = _ ∧ _
      rcases Nat.eq_zero_or_pos ((m + 1) / 10) with h0 | h0
      · refine ⟨(m + 1) % 10, tail, ?_, Nat.mod_lt _ (by norm_num)⟩
        rw [h0]
        match f with
        | 0 => rfl
        | _ + 1 => rfl
      · have hle : (m + 1) / 10 ≤ f := by
          have := Nat.div_lt_self (Nat.succ_pos m) (by norm_num : 1 < 10)
          omega
        exact ih _ _ h0 hle

/-- Every character of a rendered natural number is a digit. -/
theorem natChars_all_digit (n : Nat) (c : Char) (hc : c ∈ natChars n) : c.isDigit = true := by
  unfold natChars at hc
  split at hc
  · simp only [List.mem_singleton] at hc
    exact hc ▸ (by decide)
  · rcases natCharsAux_mem n n [] c hc with h | h
    · exact h
    · exact absurd h (List.not_mem_nil c)

/-- Reading back a rendered natural number recovers it. -/
theorem digitsVal_natChars (n : Nat) : digitsVal (natChars n) 0 = some n := by
  unfold natChars
  split
  · subst n; rfl
  · rw [digitsVal_natCharsAux n n [] le_rfl]
    rfl

/-- A rendered natural number starts with a digit character. -/
theorem natChars_head (n : Nat) : ∃ d cs, natChars n = digitChar d :: cs ∧ d < 10 := by
  unfold natChars
  split
  · exact ⟨0, [], by decide, by norm_num⟩
  · exact natCharsAux_shape n n [] (by omega) le_rfl

/-- Unfolding equation of Atoi on a nonempty input. -/
theorem goAtoi_cons (c : Char) (cs : List Char) :
    goAtoi (c :: cs) =
      if c = '-' then
        match cs with
        | [] => none
        | _ :: _ => (digitsVal cs 0).map (fun n => -(n : Int))
      else if c = '+' then
        match cs with
        | [] => none
        | _ :: _ => (digitsVal cs 0).map (fun n => (n : Int))
      else (digitsVal (c :: cs) 0).map (fun n => (n : Int)) := rfl

/-- Go Atoi on a leading minus sign and a nonempty remainder parses the
remainder as digits and negates. -/
theorem goAtoi_cons_neg (c : Char) (cs : List Char) :
    goAtoi ('-' :: c :: cs) = (digitsVal (c :: cs) 0).map (fun k => -(k : Int)) := rfl

/-- Atoi parses a rendered natural number back to itself. -/
theorem goAtoi_natChars (n : Nat) : goAtoi (natChars n) = some (n : Int) := by
  obtain ⟨d, cs, heq, hd⟩ := natChars_head n
  have hv : digitsVal (natChars n) 0 = some n := digitsVal_natChars n
  rw [heq] at hv ⊢
  show goAtoi (digitChar d :: cs) = some (n : Int)
  rw [goAtoi_cons, if_neg (digitChar_ne_dash d hd), if_neg (digitChar_ne_plus d hd), hv]
  rfl

/-- Atoi parses a rendered integer back to itself. -/
theorem goAtoi_intChars (n : Int) : goAtoi (intChars n) = some n := by
  unfold intChars
  split
  · obtain ⟨d, cs, heq, hd⟩ := natChars_head n.natAbs
    have hv : digitsVal (natChars n.natAbs) 0 = some n.natAbs := digitsVal_natChars _
    rw [heq] at hv
    show goAtoi ('-' :: natChars n.natAbs) = some n
    rw [heq, goAtoi_cons_neg, hv]
    show some (-(n.natAbs : Int)) = some n
    congr 1
    omega
  · rw [goAtoi_natChars]
    congr 1
    omega

/-- The rendering of a natural number contains no line feed. -/
theorem natChars_no_lf (n : Nat) : '\n' ∉ natChars n := by
  intro h
  have := natChars_all_digit n _ h
  exact absurd this (by decide)

/-- The rendering of an integer contains no line feed. -/
theorem intChars_no_lf (n : Int) : '\n' ∉ intChars n := by
  unfold intChars
  split
  · intro h
    rcases List.mem_cons.mp h with h | h
    · exact absurd h (by decide)
    · exact natChars_no_lf _ h
  · exact natChars_no_lf _

/-- List.contains is membership, specialized to characters. -/
theorem char_contains_eq_false_iff (s : List Char) (c : Char) :
    s.contains c = false ↔ c ∉ s := by
  induction s with
  | nil => simp
  | cons d s ih =>
    simp only [List.contains_cons, Bool.or_eq_false_iff, beq_eq_false_iff_ne, ne_eq,
      List.mem_cons, ih]
    constructor
    · rintro ⟨h1, h2⟩ (h | h)
      · exact h1 h
      · exact h2 h
    · intro h
      exact ⟨fun hh => h (Or.inl hh), fun hm => h (Or.inr hm)⟩

/-- readLine over a LF-free line followed by CRLF yields the line and leaves
the rest of the stream. -/
theorem readLine_append (s rest : List Char) (h : '\n' ∉ s) :
    readLine (s ++ '\r' :: '\n' :: rest) = .ok (s, rest) := by
  induction s with
  | nil => rfl
  | cons c s ih =>
    have hc : c ≠ '\n' := fun hh => h (hh ▸ List.mem_cons_self c s)
    have hs : '\n' ∉ s := fun hh => h (List.mem_cons_of_mem c hh)
    show readLine (c :: (s ++ '\r' :: '\n' :: rest)) = .ok (c :: s, rest)
    unfold readLine
    rw [if_neg hc]
    by_cases hr : c = '\r'
    · subst hr
      rw [if_pos rfl]
      cases s with
      | nil =>
        show (match ('\r' :: '\n' :: rest : List Char) with
          | '\n' :: rest2 => Except.ok (([] : List Char), rest2)
          | r => do
            let (l, r2) ← readLine r
            Except.ok ('\r' :: l, r2)) = Except.ok (['\r'], rest)
        rfl
      | cons d s2 =>
        have hd : d ≠ '\n' := fun hh => hs (hh ▸ List.mem_cons_self d s2)
        split
        · next rest2 heq =>
          exact absurd (List.head_eq_of_cons_eq heq) hd
        · rw [ih hs]
          rfl
    · rw [if_neg hr, ih hs]
      rfl

/-- Members of a canonical list are canonical. -/
theorem canonL_mem {arr : List RValue} (h : canonL arr = true) {v : RValue} (hv : v ∈ arr) :
    canonV v = true := by
  induction arr with
  | nil => exact absurd hv (List.not_mem_nil v)
  | cons w ws ih =>
    rw [canonL, Bool.and_eq_true] at h
    rcases List.mem_cons.mp hv with hh | hh
    · exact hh ▸ h.1
    · exact ih h.2 hh

/-- An element of an array serializes into no more bytes than the whole
element list. -/
theorem serializeRESP_length_le_of_mem {arr : List RValue} {v : RValue} (hv : v ∈ arr) :
    (serializeRESP v).length ≤ (serializeList arr).length := by
  induction arr with
  | nil => exact absurd hv (List.not_mem_nil v)
  | cons w ws ih =>
    rw [serializeList, List.length_append]
    rcases List.mem_cons.mp hv with hh | hh
    · subst hh; omega
    · have := ih hh; omega

/-- The element loop succeeds on the serialized elements when the supplied
parser round-trips each element. -/
theorem parseElems_ok (p : List Char → Except PErr (RValue × List Char)) :
    ∀ (arr : List RValue),
      (∀ v ∈ arr, ∀ r, p (serializeRESP v ++ r) = .ok (v, r)) →
      ∀ acc rest,
        parseElems p arr.length (serializeList arr ++ rest) acc =
          .ok (.mk '*' [] 0 (acc.reverse ++ arr) false, rest) := by
  intro arr
  induction arr with
  | nil =>
    intro _ acc rest
    show Except.ok (RValue.mk '*' [] 0 acc.reverse false, [] ++ rest) = _
    rw [List.nil_append, List.append_nil]
  | cons v vs ih =>
    intro hp acc rest
    show (do
        let (w, r2) ← p (serializeRESP v ++ serializeList vs ++ rest)
        parseElems p vs.length r2 (w :: acc) : Except PErr _) = _
    rw [List.append_assoc, hp v (List.mem_cons_self v vs) (serializeList vs ++ rest)]
    show parseElems p vs.length (serializeList vs ++ rest) (v :: acc) = _
    rw [ih (fun w hw r => hp w (List.mem_cons_of_mem v hw) r) (v :: acc) rest]
    simp

/-- Parsing a serialized simple string. -/
theorem parseF_simple (f : Nat) (s rest : List Char) (hn : '\n' ∉ s) :
    parseF (f + 1) ('+' :: (s ++ '\r' :: '\n' :: rest)) = .ok (.mk '+' s 0 [] false, rest) := by
  show (do
      let (line, r) ← readLine (s ++ '\r' :: '\n' :: rest)
      Except.ok (RValue.mk '+' line 0 [] false, r) : Except PErr _) = _
  rw [readLine_append s rest hn]
  rfl

/-- Parsing a serialized error value. -/
theorem parseF_err (f : Nat) (s rest : List Char) (hn : '\n' ∉ s) :
    parseF (f + 1) ('-' :: (s ++ '\r' :: '\n' :: rest)) = .ok (.mk '-' s 0 [] false, rest) := by
  show (do
      let (line, r) ← readLine (s ++ '\r' :: '\n' :: rest)
      Except.ok (RValue.mk '-' line 0 [] false, r) : Except PErr _) = _
  rw [readLine_append s rest hn]
  rfl

/-- Parsing a serialized integer value. -/
theorem parseF_int (f : Nat) (n : Int) (rest : List Char) :
    parseF (f + 1) (':' :: (intChars n ++ '\r' :: '\n' :: rest)) =
      .ok (.mk ':' [] n [] false, rest) := by
  show (do
      let (line, r) ← readLine (intChars n ++ '\r' :: '\n' :: rest)
      match goAtoi line with
      | none => Except.error PErr.invalidInteger
      | some k => Except.ok (RValue.mk ':' [] k [] false, r) : Except PErr _) = _
  rw [readLine_append _ rest (intChars_no_lf n)]
  show (match goAtoi (intChars n) with
      | none => Except.error PErr.invalidInteger
      | some k => Except.ok (RValue.mk ':' [] k [] false, rest) : Except PErr _) = _
  rw [goAtoi_intChars n]

/-- Parsing a serialized non-null bulk string. -/
theorem parseF_bulk (f : Nat) (s rest : List Char) :
    parseF (f + 1) ('$' :: (natChars s.length ++ '\r' :: '\n' :: (s ++ '\r' :: '\n' :: rest))) =
      .ok (.mk '$' s 0 [] false, rest) := by
  show (do
      let (line, r) ← readLine (natChars s.length ++ '\r' :: '\n' :: (s ++ '\r' :: '\n' :: rest))
      match goAtoi line with
      | none => Except.error PErr.invalidLength
      | some len =>
        if len = -1 then Except.ok (RValue.mk '$' [] 0 [] true, r)
        else if len < 0 then Except.error PErr.invalidLength
        else
          if r.length < len.toNat + 2 then Except.error PErr.unexpectedEOF
          else if r.get? len.toNat = some '\r' ∧ r.get? (len.toNat + 1) = some '\n' then
            Except.ok (RValue.mk '$' (r.take len.toNat) 0 [] false, r.drop (len.toNat + 2))
          else Except.error PErr.invalidFormat : Except PErr _) = _
  rw [readLine_append _ _ (natChars_no_lf _)]
  show (match goAtoi (natChars s.length) with
      | none => Except.error PErr.invalidLength
      | some len =>
        if len = -1 then
          Except.ok (RValue.mk '$' [] 0 [] true, s ++ '\r' :: '\n' :: rest)
        else if len < 0 then Except.error PErr.invalidLength
        else
          if (s ++ '\r' :: '\n' :: rest).length < len.toNat + 2 then
            Except.error PErr.unexpectedEOF
          else if (s ++ '\r' :: '\n' :: rest).get? len.toNat = some '\r' ∧
              (s ++ '\r' :: '\n' :: rest).get? (len.toNat + 1) = some '\n' then
            Except.ok (RValue.mk '$' ((s ++ '\r' :: '\n' :: rest).take len.toNat) 0 [] false,
              (s ++ '\r' :: '\n' :: rest).drop (len.toNat + 2))
          else Except.error PErr.invalidFormat : Except PErr _) = _
  rw [goAtoi_natChars]
  show (if (s.length : Int) = -1 then
        (Except.ok (RValue.mk '$' [] 0 [] true, s ++ '\r' :: '\n' :: rest) : Except PErr _)
      else if (s.length : Int) < 0 then Except.error PErr.invalidLength
      else
        if (s ++ '\r' :: '\n' :: rest).length < (s.length : Int).toNat + 2 then
          Except.error PErr.unexpectedEOF
        else if (s ++ '\r' :: '\n' :: rest).get? (s.length : Int).toNat = some '\r' ∧
            (s ++ '\r' :: '\n' :: rest).get? ((s.length : Int).toNat + 1) = some '\n' then
          Except.ok (RValue.mk '$' ((s ++ '\r' :: '\n' :: rest).take (s.length : Int).toNat)
            0 [] false, (s ++ '\r' :: '\n' :: rest).drop ((s.length : Int).toNat + 2))
        else Except.error PErr.invalidFormat) = _
  rw [if_neg (by omega), if_neg (by omega)]
  have htn : (s.length : Int).toNat = s.length := Int.toNat_natCast s.length
  rw [htn]
  have hlen : ¬((s ++ '\r' :: '\n' :: rest).length < s.length + 2) := by
    simp only [List.length_append, List.length_cons]
    omega
  rw [if_neg hlen]
  have hr1 : (s ++ '\r' :: '\n' :: rest).get? s.length = some '\r' := by
    rw [List.get?_append_right le_rfl, Nat.sub_self]
    rfl
  have hr2 : (s ++ '\r' :: '\n' :: rest).get? (s.length + 1) = some '\n' := by
    rw [List.get?_append_right (by omega)]
    have : s.length + 1 - s.length = 1 := by omega
    rw [this]
    rfl
  rw [if_pos ⟨hr1, hr2⟩]
  have hteq : s ++ '\r' :: '\n' :: rest = (s ++ ['\r', '\n']) ++ rest := by simp
  have htake : (s ++ '\r' :: '\n' :: rest).take s.length = s := List.take_left' rfl
  have hdrop : (s ++ '\r' :: '\n' :: rest).drop (s.length + 2) = rest := by
    rw [hteq]
    exact List.drop_left' (by simp)
  rw [htake, hdrop]

/-- Parsing a serialized null bulk string. -/
theorem parseF_bulk_null (f : Nat) (rest : List Char) :
    parseF (f + 1) ('$' :: '-' :: '1' :: '\r' :: '\n' :: rest) =
      .ok (.mk '$' [] 0 [] true, rest) := by
  show (do
      let (line, r) ← readLine ('-' :: '1' :: '\r' :: '\n' :: rest)
      match goAtoi line with
      | none => Except.error PErr.invalidLength
      | some len =>
        if len = -1 then Except.ok (RValue.mk '$' [] 0 [] true, r)
        else if len < 0 then Except.error PErr.invalidLength
        else
          if r.length < len.toNat + 2 then Except.error PErr.unexpectedEOF
          else if r.get? len.toNat = some '\r' ∧ r.get? (len.toNat + 1) = some '\n' then
            Except.ok (RValue.mk '$' (r.take len.toNat) 0 [] false, r.drop (len.toNat + 2))
          else Except.error PErr.invalidFormat : Except PErr _) = _
  have h := readLine_append ['-', '1'] rest (by decide)
  rw [show (['-', '1'] ++ '\r' :: '\n' :: rest) = '-' :: '1' :: '\r' :: '\n' :: rest from rfl] at h
  rw [h]
  rfl

/-- Parsing a serialized null array. -/
theorem parseF_array_null (f : Nat) (rest : List Char) :
    parseF (f + 1) ('*' :: '-' :: '1' :: '\r' :: '\n' :: rest) =
      .ok (.mk '*' [] 0 [] true, rest) := by
  show (do
      let (line, r) ← readLine ('-' :: '1' :: '\r' :: '\n' :: rest)
      match goAtoi line with
      | none => Except.error PErr.invalidLength
      | some cnt =>
        if cnt = -1 then Except.ok (RValue.mk '*' [] 0 [] true, r)
        else if cnt < 0 then Except.error PErr.invalidLength
        else parseElems (parseF f) cnt.toNat r [] : Except PErr _) = _
  have h := readLine_append ['-', '1'] rest (by decide)
  rw [show (['-', '1'] ++ '\r' :: '\n' :: rest) = '-' :: '1' :: '\r' :: '\n' :: rest from rfl] at h
  rw [h]
  rfl

/-- Parsing a serialized non-null array whose elements all round-trip. -/
theorem parseF_array (f : Nat) (arr : List RValue) (rest : List Char)
    (hp : ∀ v ∈ arr, ∀ r, parseF f (serializeRESP v ++ r) = .ok (v, r)) :
    parseF (f + 1)
        ('*' :: (natChars arr.length ++ '\r' :: '\n' :: (serializeList arr ++ rest))) =
      .ok (.mk '*' [] 0 arr false, rest) := by
  show (do
      let (line, r) ← readLine (natChars arr.length ++ '\r' :: '\n' :: (serializeList arr ++ rest))
      match goAtoi line with
      | none => Except.error PErr.invalidLength
      | some cnt =>
        if cnt = -1 then Except.ok (RValue.mk '*' [] 0 [] true, r)
        else if cnt < 0 then Except.error PErr.invalidLength
        else parseElems (parseF f) cnt.toNat r [] : Except PErr _) = _
  rw [readLine_append _ _ (natChars_no_lf _)]
  show (match goAtoi (natChars arr.length) with
      | none => Except.error PErr.invalidLength
      | some cnt =>
        if cnt = -1 then
          Except.ok (RValue.mk '*' [] 0 [] true, serializeList arr ++ rest)
        else if cnt < 0 then Except.error PErr.invalidLength
        else parseElems (parseF f) cnt.toNat (serializeList arr ++ rest) [] : Except PErr _) = _
  rw [goAtoi_natChars]
  show (if (arr.length : Int) = -1 then
        (Except.ok (RValue.mk '*' [] 0 [] true, serializeList arr ++ rest) : Except PErr _)
      else if (arr.length : Int) < 0 then Except.error PErr.invalidLength
      else parseElems (parseF f) (arr.length : Int).toNat (serializeList arr ++ rest) []) = _
  rw [if_neg (by omega), if_neg (by omega), Int.toNat_natCast]
  rw [parseElems_ok (parseF f) arr hp [] rest]
  rfl

/-- Rendered numbers are nonempty. -/
theorem natChars_length_pos (n : Nat) : 0 < (natChars n).length := by
  obtain ⟨d, cs, heq, _⟩ := natChars_head n
  rw [heq]
  simp

/-- Round-trip workhorse: parsing the serialization of a canonical value with
enough fuel returns the value and leaves the trailing bytes. -/
theorem parseF_serializeRESP :
    ∀ fuel (v : RValue) (rest : List Char), canonV v = true →
      (serializeRESP v).length ≤ fuel →
      parseF fuel (serializeRESP v ++ rest) = .ok (v, rest) := by
  intro fuel
  induction fuel using Nat.strong_induction_on with
  | _ fuel ih =>
    intro v rest hc hl
    obtain ⟨t, s, n, arr, nul⟩ := v
    by_cases h1 : t = '+'
    · subst h1
      rw [canonV, if_pos (Or.inl rfl)] at hc
      simp only [Bool.and_eq_true, Bool.not_eq_true', beq_iff_eq, List.isEmpty_iff] at hc
      obtain ⟨⟨⟨hcn, hn⟩, harr⟩, hnul⟩ := hc
      subst hn; subst harr; subst hnul
      rw [serializeRESP, if_pos rfl] at hl ⊢
      simp only [List.length_append, List.length_cons, List.length_nil] at hl
      match fuel, hl with
      | f + 1, _ =>
        rw [show ('+' :: s ++ ['\r', '\n']) ++ rest = '+' :: (s ++ '\r' :: '\n' :: rest) by simp]
        exact parseF_simple f s rest ((char_contains_eq_false_iff s '\n').mp hcn)
    · by_cases h2 : t = '-'
      · subst h2
        rw [canonV, if_pos (Or.inr rfl)] at hc
        simp only [Bool.and_eq_true, Bool.not_eq_true', beq_iff_eq, List.isEmpty_iff] at hc
        obtain ⟨⟨⟨hcn, hn⟩, harr⟩, hnul⟩ := hc
        subst hn; subst harr; subst hnul
        rw [serializeRESP, if_neg (by simp), if_pos rfl] at hl ⊢
        simp only [List.length_append, List.length_cons, List.length_nil] at hl
        match fuel, hl with
        | f + 1, _ =>
          rw [show ('-' :: s ++ ['\r', '\n']) ++ rest = '-' :: (s ++ '\r' :: '\n' :: rest) by
            simp]
          exact parseF_err f s rest ((char_contains_eq_false_iff s '\n').mp hcn)
      · have hpm : ¬(t = '+' ∨ t = '-') := by
          rintro (h | h) <;> contradiction
        by_cases h3 : t = ':'
        · subst h3
          rw [canonV, if_neg (by simp), if_pos rfl] at hc
          simp only [Bool.and_eq_true, Bool.not_eq_true', List.isEmpty_iff] at hc
          obtain ⟨⟨hs, harr⟩, hnul⟩ := hc
          subst hs; subst harr; subst hnul
          rw [serializeRESP, if_neg (by simp), if_neg (by simp), if_pos rfl] at hl ⊢
          simp only [List.length_append, List.length_cons, List.length_nil] at hl
          match fuel, hl with
          | f + 1, _ =>
            rw [show (':' :: intChars n ++ ['\r', '\n']) ++ rest =
                ':' :: (intChars n ++ '\r' :: '\n' :: rest) by simp]
            exact parseF_int f n rest
        · by_cases h4 : t = '$'
          · subst h4
            rw [canonV, if_neg (by simp), if_neg (by simp), if_pos rfl] at hc
            simp only [Bool.and_eq_true, beq_iff_eq, List.isEmpty_iff, Bool.or_eq_true,
              Bool.not_eq_true'] at hc
            obtain ⟨⟨hn, harr⟩, hns⟩ := hc
            subst hn; subst harr
            rw [serializeRESP, if_neg (by simp), if_neg (by simp), if_neg (by simp),
              if_pos rfl] at hl ⊢
            cases nul with
            | true =>
              have hs : s = [] := by
                rcases hns with h | h
                · exact absurd h (by simp)
                · exact h
              subst hs
              simp only [if_pos] at hl ⊢
              simp only [List.length_cons, List.length_nil] at hl
              match fuel, hl with
              | f + 1, _ =>
                rw [show (['$', '-', '1', '\r', '\n'] : List Char) ++ rest =
                    '$' :: '-' :: '1' :: '\r' :: '\n' :: rest from rfl]
                exact parseF_bulk_null f rest
            | false =>
              simp only [Bool.false_eq_true, if_false] at hl ⊢
              simp only [List.length_append, List.length_cons, List.length_nil] at hl
              match fuel, hl with
              | f + 1, _ =>
                rw [show ('$' :: natChars s.length ++ ['\r', '\n'] ++ s ++ ['\r', '\n']) ++ rest =
                    '$' :: (natChars s.length ++ '\r' :: '\n' :: (s ++ '\r' :: '\n' :: rest)) by
                  simp]
                exact parseF_bulk f s rest
          · by_cases h5 : t = '*'
            · subst h5
              rw [canonV, if_neg (by simp), if_neg (by simp), if_neg (by simp),
                if_pos rfl] at hc
              simp only [Bool.and_eq_true, beq_iff_eq, List.isEmpty_iff] at hc
              obtain ⟨⟨hs, hn⟩, hrest⟩ := hc
              subst hs; subst hn
              rw [serializeRESP, if_neg (by simp), if_neg (by simp), if_neg (by simp),
                if_neg (by simp), if_pos rfl] at hl ⊢
              cases nul with
              | true =>
                have harr : arr = [] := by simpa using hrest
                subst harr
                simp only [if_pos] at hl ⊢
                simp only [List.length_cons, List.length_nil] at hl
                match fuel, hl with
                | f + 1, _ =>
                  rw [show (['*', '-', '1', '\r', '\n'] : List Char) ++ rest =
                      '*' :: '-' :: '1' :: '\r' :: '\n' :: rest from rfl]
                  exact parseF_array_null f rest
              | false =>
                simp only [if_pos, Bool.false_eq_true, if_false] at hl hrest ⊢
                have hlen4 : 4 ≤ (('*' :: natChars arr.length ++ ['\r', '\n'] ++
                    serializeList arr)).length := by
                  have := natChars_length_pos arr.length
                  simp only [List.length_append, List.length_cons, List.length_nil]
                  omega
                match fuel, hl with
                | f + 1, hl =>
                  rw [show ('*' :: natChars arr.length ++ ['\r', '\n'] ++ serializeList arr)
                        ++ rest =
                      '*' :: (natChars arr.length ++ '\r' :: '\n' :: (serializeList arr ++ rest))
                      by simp]
                  refine parseF_array f arr rest ?_
                  intro v hv r
                  have hcv : canonV v = true := canonL_mem hrest hv
                  have hlv : (serializeRESP v).length ≤ f := by
                    have h5 := serializeRESP_length_le_of_mem hv
                    have h6 := natChars_length_pos arr.length
                    simp only [List.length_append, List.length_cons, List.length_nil] at hl
                    omega
                  exact ih f (by omega) v r hcv hlv
            · rw [canonV, if_neg (by simp [hpm]), if_neg h3, if_neg h4, if_neg h5] at hc
              exact absurd hc (by simp)

/-- C2 counterexample: the claim quantifies over every constructible resp.Value,
but the Go struct admits a simple string whose payload contains a line feed;
Value.Serialize renders it and Parse then fails with ErrInvalidFormat instead
of returning the value, so Parse(Serialize(v)) = v does not hold for every
constructible v. -/
theorem C2_resp_roundtrip_cex :
    parseRESP (serializeRESP (RValue.mk '+' ['a', '\n', 'b'] 0 [] false)) =
      .error .invalidFormat := by decide

/-- C2 (amended): for every canonical resp.Value — one whose unused struct
fields are zero for its tag, whose null flag carries no payload, and whose
simple-string or error payload contains no line feed — Parse(Serialize(v))
returns v exactly, consuming precisely the serialized bytes; consequently
every byte stream in the image of Serialize on canonical values re-serializes
byte-identically after parsing. -/
theorem C2_resp_roundtrip (v : RValue) (hv : canonV v = true) (rest : List Char) :
    parseRESP (serializeRESP v ++ rest) = .ok (v, rest) ∧
    (∀ b : List Char, b = serializeRESP v →
      ∃ w tail, parseRESP b = .ok (w, tail) ∧ serializeRESP w ++ tail = b) := by
  have h1 : parseRESP (serializeRESP v ++ rest) = .ok (v, rest) := by
    unfold parseRESP
    exact parseF_serializeRESP _ v rest hv (by simp)
  refine ⟨h1, ?_⟩
  intro b hb
  subst hb
  have h2 : parseRESP (serializeRESP v ++ []) = .ok (v, []) := by
    unfold parseRESP
    exact parseF_serializeRESP _ v [] hv (by simp)
  rw [List.append_nil] at h2
  exact ⟨v, [], h2, List.append_nil _⟩

/-- Witness for C2: the amended round-trip at a concrete nested array value
with a trailing byte. -/
theorem C2_resp_roundtrip_witness :
    parseRESP (serializeRESP (RValue.mk '*' [] 0
        [RValue.mk '$' ['h', 'i'] 0 [] false, RValue.mk ':' [] (-7) [] false,
          RValue.mk '$' [] 0 [] true] false) ++ ['x']) =
      .ok (RValue.mk '*' [] 0
        [RValue.mk '$' ['h', 'i'] 0 [] false, RValue.mk ':' [] (-7) [] false,
          RValue.mk '$' [] 0 [] true] false, ['x']) :=
  (C2_resp_roundtrip _ (by decide) ['x']).1

/-! ## Go maps as association lists -/

/-- Go strings, modeled as character lists (as the RESP layer already does). -/
abbrev GoStr := List Char

/-- Go map read: the first binding of the key, if any. -/
def alookup {κ α : Type} [DecidableEq κ] : List (κ × α) → κ → Option α
  | [], _ => none
  | (k, v) :: rest, key => if k = key then some v else alookup rest key

/-- Go map write: replace the binding of the key, or append a new one. -/
def aset {κ α : Type} [DecidableEq κ] : List (κ × α) → κ → α → List (κ × α)
  | [], key, v => [(key, v)]
  | (k, w) :: rest, key, v =>
    if k = key then (k, v) :: rest else (k, w) :: aset rest key v

/-- Go map delete: drop every binding of the key. -/
def aerase {κ α : Type} [DecidableEq κ] : List (κ × α) → κ → List (κ × α)
  | [], _ => []
  | (k, w) :: rest, key =>
    if k = key then aerase rest key else (k, w) :: aerase rest key

/-- Reading a key just written returns the written value. -/
theorem alookup_aset {κ α : Type} [DecidableEq κ] (m : List (κ × α)) (k : κ) (v : α) :
    alookup (aset m k v) k = some v := by
  induction m with
  | nil => simp [aset, alookup]
  | cons kw rest ih =>
    obtain ⟨k0, w⟩ := kw
    by_cases h : k0 = k
    · simp [aset, alookup, h]
    · simp [aset, alookup, h, ih]

/-- Writing one key leaves reads of other keys unchanged. -/
theorem alookup_aset_ne {κ α : Type} [DecidableEq κ] (m : List (κ × α)) {k k2 : κ}
    (h : k2 ≠ k) (v : α) : alookup (aset m k v) k2 = alookup m k2 := by
  have h2k : k ≠ k2 := fun hh => h hh.symm
  induction m with
  | nil => simp [aset, alookup, h2k]
  | cons kw rest ih =>
    obtain ⟨k0, w⟩ := kw
    by_cases h0 : k0 = k
    · subst h0
      simp [aset, alookup, h2k]
    · simp only [aset, if_neg h0, alookup]
      by_cases h2 : k0 = k2
      · simp [h2]
      · simp [h2, ih]

/-- Reading a deleted key reports absence. -/
theorem alookup_aerase {κ α : Type} [DecidableEq κ] (m : List (κ × α)) (k : κ) :
    alookup (aerase m k) k = none := by
  induction m with
  | nil => rfl
  | cons kw rest ih =>
    obtain ⟨k0, w⟩ := kw
    by_cases h : k0 = k
    · simp [aerase, h, ih]
    · simp [aerase, alookup, h, ih]

/-- Deleting one key leaves reads of other keys unchanged. -/
theorem alookup_aerase_ne {κ α : Type} [DecidableEq κ] (m : List (κ × α)) {k k2 : κ}
    (h : k2 ≠ k) : alookup (aerase m k) k2 = alookup m k2 := by
  have h2k : k ≠ k2 := fun hh => h hh.symm
  induction m with
  | nil => rfl
  | cons kw rest ih =>
    obtain ⟨k0, w⟩ := kw
    by_cases h0 : k0 = k
    · subst h0
      simp [aerase, alookup, h2k, ih]
    · simp only [aerase, if_neg h0, alookup]
      by_cases h2 : k0 = k2
      · simp [h2]
      · simp [h2, ih]

/-! ## String store (internal/store/store.go, the memoryStore implementation) -/

/-- A string store entry: a value and an optional absolute expiry instant
(Go uses the zero time.Time for no expiry; the model uses none). -/
structure GoEntry where
  value : GoStr
  expiresAt : Option Int
deriving DecidableEq, Repr

/-- The string store map. -/
abbrev StrStore := List (GoStr × GoEntry)

/-- entry.isExpired: strictly past its expiry instant (time.Now().After). -/
def entryExpired (e : GoEntry) (now : Int) : Bool :=
  match e.expiresAt with
  | none => false
  | some t => t < now

/-- memoryStore.Get: absent, or lazily delete and report absent when expired,
or return the value. -/
def memGet (st : StrStore) (now : Int) (k : GoStr) : Option GoStr × StrStore :=
  match alookup st k with
  | none => (none, st)
  | some e => if entryExpired e now then (none, aerase st k) else (some e.value, st)

/-- memoryStore.Set: store with no expiration. -/
def memSet (st : StrStore) (k v : GoStr) : StrStore :=
  aset st k ⟨v, none⟩

/-- memoryStore.SetWithTTL: store with absolute expiry now + ttl. -/
def memSetWithTTL (st : StrStore) (now : Int) (k v : GoStr) (ttl : Int) : StrStore :=
  aset st k ⟨v, some (now + ttl)⟩

/-- memoryStore.Delete: report whether the key was bound and remove it. -/
def memDelete (st : StrStore) (k : GoStr) : Bool × StrStore :=
  match alookup st k with
  | none => (false, st)
  | some _ => (true, aerase st k)

/-! ## Go string literals used by the handlers -/

/-- Literal Go string: OK -/
def okStr : GoStr :=
  ['O', 'K']

/-- Literal Go string: QUEUED -/
def queuedStr : GoStr :=
  ['Q', 'U', 'E', 'U', 'E', 'D']

/-- Literal Go string: EX -/
def exStr : GoStr :=
  ['E', 'X']

/-- Literal Go string: WRONGTYPE Operation against a key holding the wrong kind of value -/
def wrongTypeError : GoStr :=
  ['W', 'R', 'O', 'N', 'G', 'T', 'Y', 'P', 'E', ' ', 'O', 'p', 'e', 'r', 'a', 't', 'i', 'o', 'n', ' ', 'a', 'g', 'a', 'i', 'n', 's', 't', ' ', 'a', ' ', 'k', 'e', 'y', ' ', 'h', 'o', 'l', 'd', 'i', 'n', 'g', ' ', 't', 'h', 'e', ' ', 'w', 'r', 'o', 'n', 'g', ' ', 'k', 'i', 'n', 'd', ' ', 'o', 'f', ' ', 'v', 'a', 'l', 'u', 'e']

/-- Literal Go string: ERR wrong number of arguments for ~set~ command -/
def errWrongArgsSet : GoStr :=
  ['E', 'R', 'R', ' ', 'w', 'r', 'o', 'n', 'g', ' ', 'n', 'u', 'm', 'b', 'e', 'r', ' ', 'o', 'f', ' ', 'a', 'r', 'g', 'u', 'm', 'e', 'n', 't', 's', ' ', 'f', 'o', 'r', ' ', Char.ofNat 39, 's', 'e', 't', Char.ofNat 39, ' ', 'c', 'o', 'm', 'm', 'a', 'n', 'd']

/-- Literal Go string: ERR wrong number of arguments for ~get~ command -/
def errWrongArgsGet : GoStr :=
  ['E', 'R', 'R', ' ', 'w', 'r', 'o', 'n', 'g', ' ', 'n', 'u', 'm', 'b', 'e', 'r', ' ', 'o', 'f', ' ', 'a', 'r', 'g', 'u', 'm', 'e', 'n', 't', 's', ' ', 'f', 'o', 'r', ' ', Char.ofNat 39, 'g', 'e', 't', Char.ofNat 39, ' ', 'c', 'o', 'm', 'm', 'a', 'n', 'd']

/-- Literal Go string: ERR wrong number of arguments for ~expire~ command -/
def errWrongArgsExpire : GoStr :=
  ['E', 'R', 'R', ' ', 'w', 'r', 'o', 'n', 'g', ' ', 'n', 'u', 'm', 'b', 'e', 'r', ' ', 'o', 'f', ' ', 'a', 'r', 'g', 'u', 'm', 'e', 'n', 't', 's', ' ', 'f', 'o', 'r', ' ', Char.ofNat 39, 'e', 'x', 'p', 'i', 'r', 'e', Char.ofNat 39, ' ', 'c', 'o', 'm', 'm', 'a', 'n', 'd']

/-- Literal Go string: ERR wrong number of arguments for ~hset~ command -/
def errWrongArgsHSet : GoStr :=
  ['E', 'R', 'R', ' ', 'w', 'r', 'o', 'n', 'g', ' ', 'n', 'u', 'm', 'b', 'e', 'r', ' ', 'o', 'f', ' ', 'a', 'r', 'g', 'u', 'm', 'e', 'n', 't', 's', ' ', 'f', 'o', 'r', ' ', Char.ofNat 39, 'h', 's', 'e', 't', Char.ofNat 39, ' ', 'c', 'o', 'm', 'm', 'a', 'n', 'd']

/-- Literal Go string: ERR wrong number of arguments for ~lpush~ command -/
def errWrongArgsLPush : GoStr :=
  ['E', 'R', 'R', ' ', 'w', 'r', 'o', 'n', 'g', ' ', 'n', 'u', 'm', 'b', 'e', 'r', ' ', 'o', 'f', ' ', 'a', 'r', 'g', 'u', 'm', 'e', 'n', 't', 's', ' ', 'f', 'o', 'r', ' ', Char.ofNat 39, 'l', 'p', 'u', 's', 'h', Char.ofNat 39, ' ', 'c', 'o', 'm', 'm', 'a', 'n', 'd']

/-- Literal Go string: ERR wrong number of arguments for ~sadd~ command -/
def errWrongArgsSAdd : GoStr :=
  ['E', 'R', 'R', ' ', 'w', 'r', 'o', 'n', 'g', ' ', 'n', 'u', 'm', 'b', 'e', 'r', ' ', 'o', 'f', ' ', 'a', 'r', 'g', 'u', 'm', 'e', 'n', 't', 's', ' ', 'f', 'o', 'r', ' ', Char.ofNat 39, 's', 'a', 'd', 'd', Char.ofNat 39, ' ', 'c', 'o', 'm', 'm', 'a', 'n', 'd']

/-- Literal Go string: ERR syntax error -/
def errSyntax : GoStr :=
  ['E', 'R', 'R', ' ', 's', 'y', 'n', 't', 'a', 'x', ' ', 'e', 'r', 'r', 'o', 'r']

/-- Literal Go string: ERR invalid expire time in ~set~ command -/
def errInvalidExpire : GoStr :=
  ['E', 'R', 'R', ' ', 'i', 'n', 'v', 'a', 'l', 'i', 'd', ' ', 'e', 'x', 'p', 'i', 'r', 'e', ' ', 't', 'i', 'm', 'e', ' ', 'i', 'n', ' ', Char.ofNat 39, 's', 'e', 't', Char.ofNat 39, ' ', 'c', 'o', 'm', 'm', 'a', 'n', 'd']

/-- Literal Go string: ERR value is not an integer or out of range -/
def errNotInteger : GoStr :=
  ['E', 'R', 'R', ' ', 'v', 'a', 'l', 'u', 'e', ' ', 'i', 's', ' ', 'n', 'o', 't', ' ', 'a', 'n', ' ', 'i', 'n', 't', 'e', 'g', 'e', 'r', ' ', 'o', 'r', ' ', 'o', 'u', 't', ' ', 'o', 'f', ' ', 'r', 'a', 'n', 'g', 'e']

/-! ## RESP construction helpers (internal/server/server.go) -/

/-- respSimpleString from server.go. -/
def respSimpleString (s : GoStr) : RValue := .mk '+' s 0 [] false

/-- respError from server.go. -/
def respError (s : GoStr) : RValue := .mk '-' s 0 [] false

/-- respInteger from server.go. -/
def respInteger (n : Int) : RValue := .mk ':' [] n [] false

/-- respBulkString from server.go. -/
def respBulkString (s : GoStr) : RValue := .mk '$' s 0 [] false

/-- respNullBulkString from server.go. -/
def respNullBulkString : RValue := .mk '$' [] 0 [] true

/-- ASCII upper-casing of one character, the relevant fragment of Go
strings.ToUpper for the command arguments the handlers compare. -/
def goToUpperChar (c : Char) : Char :=
  if 'a' ≤ c ∧ c ≤ 'z' then Char.ofNat (c.toNat - 32) else c

/-- strings.ToUpper over a Go string. -/
def goToUpper (s : GoStr) : GoStr := s.map goToUpperChar

/-! ## List store (internal/store/lists.go) -/

/-- The list store map. -/
abbrev ListStore := List (GoStr × List GoStr)

/-- memoryListStore.LPush: prepend the values so the rightmost argument ends
up at the head; returns the new length.  Note: with an empty value list on an
absent key this stores an empty list entry, exactly as the Go code does. -/
def lsLPush (st : ListStore) (key : GoStr) (values : List GoStr) : Nat × ListStore :=
  let list := (alookup st key).getD []
  let newList := values.reverse ++ list
  (newList.length, aset st key newList)

/-- memoryListStore.RPush: append the values in argument order; returns the
new length.  The same empty-values caveat as LPush applies. -/
def lsRPush (st : ListStore) (key : GoStr) (values : List GoStr) : Nat × ListStore :=
  let list := (alookup st key).getD []
  let newList := list ++ values
  (newList.length, aset st key newList)

/-- memoryListStore.LPop: remove and return the head; delete the key when the
list becomes empty. -/
def lsLPop (st : ListStore) (key : GoStr) : Option GoStr × ListStore :=
  match alookup st key with
  | none => (none, st)
  | some [] => (none, st)
  | some (x :: restL) =>
    if restL = [] then (some x, aerase st key) else (some x, aset st key restL)

/-- memoryListStore.RPop: remove and return the last element; delete the key
when the list becomes empty. -/
def lsRPop (st : ListStore) (key : GoStr) : Option GoStr × ListStore :=
  match alookup st key with
  | none => (none, st)
  | some [] => (none, st)
  | some (x :: restL) =>
    let v := (x :: restL).getLast (List.cons_ne_nil x restL)
    let l2 := (x :: restL).dropLast
    if l2 = [] then (some v, aerase st key) else (some v, aset st key l2)

/-- memoryListStore.LRange, transcribed clause for clause: convert negative
indices, clamp start below at zero and stop above at length minus one, return
empty when start exceeds stop or the length, else copy the inclusive slice. -/
def lsLRange (st : ListStore) (key : GoStr) (start stop : Int) : List GoStr :=
  match alookup st key with
  | none => []
  | some list =>
    let length : Int := list.length
    let start1 := if start < 0 then length + start else start
    let stop1 := if stop < 0 then length + stop else stop
    let start2 := if start1 < 0 then 0 else start1
    let stop2 := if stop1 ≥ length then length - 1 else stop1
    if start2 > stop2 ∨ start2 ≥ length then []
    else (list.drop start2.toNat).take (stop2 - start2 + 1).toNat

/-- memoryListStore.LLen. -/
def lsLLen (st : ListStore) (key : GoStr) : Nat :=
  ((alookup st key).getD []).length

/-- Literal Go string: list -/
def listStr : GoStr := ['l', 'i', 's', 't']

/-- Literal Go string: hash -/
def hashStr : GoStr := ['h', 'a', 's', 'h']

/-- Literal Go string: set -/
def setStr : GoStr := ['s', 'e', 't']

/-- Literal Go string: none -/
def noneStr : GoStr := ['n', 'o', 'n', 'e']

/-- memoryListStore.KeyType. -/
def lsKeyType (st : ListStore) (key : GoStr) : GoStr :=
  if (alookup st key).isSome then listStr else noneStr

/-! ## Set store (internal/store/sets.go) -/

/-- The set store map; a set is its member list in insertion order. -/
abbrev SetStore := List (GoStr × List GoStr)

/-- The member loop of SAdd: insert each missing member, counting insertions. -/
def saddLoop : List GoStr → List GoStr → Nat × List GoStr
  | set, [] => (0, set)
  | set, m :: ms =>
    if set.contains m then saddLoop set ms
    else
      let (n, s2) := saddLoop (set ++ [m]) ms
      (n + 1, s2)

/-- MemorySetStore.SAdd: ensure the key is bound (creating an empty set when
absent, exactly as the Go code does before inserting), then insert members. -/
def ssSAdd (st : SetStore) (key : GoStr) (members : List GoStr) : Nat × SetStore :=
  let set := (alookup st key).getD []
  let (added, set2) := saddLoop set members
  (added, aset st key set2)

/-- The member loop of SRem: delete each present member, counting deletions. -/
def sremLoop : List GoStr → List GoStr → Nat × List GoStr
  | set, [] => (0, set)
  | set, m :: ms =>
    if set.contains m then
      let (n, s2) := sremLoop (set.filter (fun x => x != m)) ms
      (n + 1, s2)
    else sremLoop set ms

/-- MemorySetStore.SRem: remove members and auto-delete the key when the set
becomes empty. -/
def ssSRem (st : SetStore) (key : GoStr) (members : List GoStr) : Nat × SetStore :=
  match alookup st key with
  | none => (0, st)
  | some set =>
    let (removed, set2) := sremLoop set members
    if set2 = [] then (removed, aerase st key) else (removed, aset st key set2)

/-- MemorySetStore.SMembers. -/
def ssSMembers (st : SetStore) (key : GoStr) : List GoStr :=
  (alookup st key).getD []

/-- MemorySetStore.SIsMember. -/
def ssSIsMember (st : SetStore) (key m : GoStr) : Bool :=
  ((alookup st key).getD []).contains m

/-- MemorySetStore.SCard. -/
def ssSCard (st : SetStore) (key : GoStr) : Nat :=
  ((alookup st key).getD []).length

/-- MemorySetStore.KeyType. -/
def ssKeyType (st : SetStore) (key : GoStr) : GoStr :=
  if (alookup st key).isSome then setStr else noneStr

/-! ## Hash store (the MemoryHashStore implementation in package store) -/

/-- The hash store map; a hash is an association list of fields to values. -/
abbrev HashStore := List (GoStr × List (GoStr × GoStr))

/-- The field-value loop of HSet: write each pair, counting new fields. -/
def hsetPairs : List (GoStr × GoStr) → List GoStr → Nat × List (GoStr × GoStr)
  | hash, f :: v :: rest =>
    let isNew := (alookup hash f).isNone
    let (n, hash2) := hsetPairs (aset hash f v) rest
    ((if isNew then 1 else 0) + n, hash2)
  | hash, _ => (0, hash)

/-- MemoryHashStore.HSet: reject an odd or too-short argument list with count
zero and no change, else create the hash on demand and write all pairs. -/
def hsHSet (st : HashStore) (key : GoStr) (fieldValues : List GoStr) : Nat × HashStore :=
  if fieldValues.length < 2 ∨ fieldValues.length % 2 ≠ 0 then (0, st)
  else
    let hash := (alookup st key).getD []
    let (newFields, hash2) := hsetPairs hash fieldValues
    (newFields, aset st key hash2)

/-- MemoryHashStore.HGet. -/
def hsHGet (st : HashStore) (key f : GoStr) : Option GoStr :=
  match alookup st key with
  | none => none
  | some hash => alookup hash f

/-- The field loop of HDel: delete each present field, counting deletions. -/
def hdelLoop : List (GoStr × GoStr) → List GoStr → Nat × List (GoStr × GoStr)
  | hash, [] => (0, hash)
  | hash, f :: fs =>
    if (alookup hash f).isSome then
      let (n, h2) := hdelLoop (aerase hash f) fs
      (n + 1, h2)
    else hdelLoop hash fs

/-- MemoryHashStore.HDel: delete fields and auto-delete the key when the hash
becomes empty. -/
def hsHDel (st : HashStore) (key : GoStr) (fields : List GoStr) : Nat × HashStore :=
  match alookup st key with
  | none => (0, st)
  | some hash =>
    let (deleted, hash2) := hdelLoop hash fields
    if hash2 = [] then (deleted, aerase st key) else (deleted, aset st key hash2)

/-- MemoryHashStore.HLen. -/
def hsHLen (st : HashStore) (key : GoStr) : Nat :=
  ((alookup st key).getD []).length

/-- MemoryHashStore.KeyType. -/
def hsKeyType (st : HashStore) (key : GoStr) : GoStr :=
  if (alookup st key).isSome then hashStr else noneStr
/-! ## String command handlers (internal/server/server.go) -/

/-- Server.handleSet: two mandatory arguments, then an option scan in which
the first option is either EX with a following positive integer, or a syntax
error; every branch of the Go option loop returns on its first iteration. -/
def handleSet (st : StrStore) (now : Int) (args : List RValue) : RValue × StrStore :=
  match args with
  | a0 :: a1 :: rest =>
    let key := a0.str
    let value := a1.str
    match rest with
    | [] => (respSimpleString okStr, memSet st key value)
    | opt :: rest2 =>
      if goToUpper opt.str = exStr then
        match rest2 with
        | [] => (respError errSyntax, st)
        | a3 :: _ =>
          match goAtoi a3.str with
          | none => (respError errInvalidExpire, st)
          | some seconds =>
            if seconds ≤ 0 then (respError errInvalidExpire, st)
            else (respSimpleString okStr, memSetWithTTL st now key value seconds)
      else (respError errSyntax, st)
  | _ => (respError errWrongArgsSet, st)

/-- Server.handleGet: absent keys answer a null bulk string; the read may
lazily delete an expired entry. -/
def handleGet (st : StrStore) (now : Int) (args : List RValue) : RValue × StrStore :=
  match args with
  | [a0] =>
    let (v, st2) := memGet st now a0.str
    match v with
    | none => (respNullBulkString, st2)
    | some value => (respBulkString value, st2)
  | _ => (respError errWrongArgsGet, st)

/-- Server.handleExpire: parse the seconds argument with Atoi (any integer is
accepted), answer 0 for an absent key, else re-store the current value with
absolute expiry now plus seconds and answer 1. -/
def handleExpire (st : StrStore) (now : Int) (args : List RValue) : RValue × StrStore :=
  match args with
  | [a0, a1] =>
    match goAtoi a1.str with
    | none => (respError errNotInteger, st)
    | some seconds =>
      let (v, st2) := memGet st now a0.str
      match v with
      | none => (respInteger 0, st2)
      | some value => (respInteger 1, memSetWithTTL st2 now a0.str value seconds)
  | _ => (respError errWrongArgsExpire, st)

/-! ## Collection command handlers with cross-type checks
(HashCommands in the hash handler file, ListCommandHandler in
internal/server/lists_cmds.go, and the set handlers file) -/

/-- HashCommands.HandleHSet with its checkKeyType consultation of the string
store: arity checks, then WRONGTYPE when the key reads as a string, else the
store-level HSet.  The string store is threaded because its Get performs lazy
expiry deletion. -/
def handleHSet (hs : HashStore) (st : StrStore) (now : Int) (args : List RValue) :
    RValue × HashStore × StrStore :=
  if args.length < 3 then (respError errWrongArgsHSet, hs, st)
  else if (args.length - 1) % 2 ≠ 0 then (respError errWrongArgsHSet, hs, st)
  else
    match args with
    | a0 :: restArgs =>
      let key := a0.str
      let (v, st2) := memGet st now key
      if v.isSome then (respError wrongTypeError, hs, st2)
      else
        let fieldValues := restArgs.map RValue.str
        let (count, hs2) := hsHSet hs key fieldValues
        (respInteger count, hs2, st2)
    | [] => (respError errWrongArgsHSet, hs, st)

/-- ListCommandHandler.HandleLPush with its checkType consultation of the
string store. -/
def handleLPush (ls : ListStore) (st : StrStore) (now : Int) (args : List RValue) :
    RValue × ListStore × StrStore :=
  match args with
  | a0 :: restArgs =>
    if restArgs = [] then (respError errWrongArgsLPush, ls, st)
    else
      let key := a0.str
      let (v, st2) := memGet st now key
      if v.isSome then (respError wrongTypeError, ls, st2)
      else
        let values := restArgs.map RValue.str
        let (length, ls2) := lsLPush ls key values
        (respInteger length, ls2, st2)
  | [] => (respError errWrongArgsLPush, ls, st)

/-- Server.handleSAdd with its type-conflict consultation of the string
store. -/
def handleSAdd (ss : SetStore) (st : StrStore) (now : Int) (args : List RValue) :
    RValue × SetStore × StrStore :=
  match args with
  | a0 :: restArgs =>
    if restArgs = [] then (respError errWrongArgsSAdd, ss, st)
    else
      let key := a0.str
      let (v, st2) := memGet st now key
      if v.isSome then (respError wrongTypeError, ss, st2)
      else
        let members := restArgs.map RValue.str
        let (added, ss2) := ssSAdd ss key members
        (respInteger added, ss2, st2)
  | [] => (respError errWrongArgsSAdd, ss, st)
/-- A present, unexpired key reads back its value and leaves the store
unchanged. -/
theorem memGet_present (st : StrStore) (now : Int) (k : GoStr) (e : GoEntry)
    (hk : alookup st k = some e) (hne : entryExpired e now = false) :
    memGet st now k = (some e.value, st) := by
  unfold memGet
  rw [hk]
  simp [hne]

/-- C1 (amended): writes into the hash, list, and set stores do consult the
string store and fail with WRONGTYPE, leaving every store untouched, whenever
the key currently reads as a string; but the string-store write performs no
symmetric check: a two-argument SET always succeeds and stores the key, so a
key already holding a hash entry afterwards resides in two stores at once. -/
theorem C1_wrong_type_enforcement (st : StrStore) (now : Int) (a0 : RValue) (e : GoEntry)
    (hk : alookup st a0.str = some e) (hne : entryExpired e now = false) :
    (∀ (hs : HashStore) (rest : List RValue), 2 ≤ rest.length → rest.length % 2 = 0 →
      handleHSet hs st now (a0 :: rest) = (respError wrongTypeError, hs, st)) ∧
    (∀ (ls : ListStore) (rest : List RValue), rest ≠ [] →
      handleLPush ls st now (a0 :: rest) = (respError wrongTypeError, ls, st)) ∧
    (∀ (ss : SetStore) (rest : List RValue), rest ≠ [] →
      handleSAdd ss st now (a0 :: rest) = (respError wrongTypeError, ss, st)) ∧
    (∀ (st2 : StrStore) (b0 b1 : RValue), handleSet st2 now [b0, b1] =
      (respSimpleString okStr, memSet st2 b0.str b1.str)) := by
  refine ⟨?_, ?_, ?_, ?_⟩
  · intro hs rest h2 h3
    simp only [handleHSet, List.length_cons]
    rw [if_neg (by omega), if_neg (by omega)]
    rw [memGet_present st now a0.str e hk hne]
    simp
  · intro ls rest hrest
    simp only [handleLPush]
    rw [if_neg hrest, memGet_present st now a0.str e hk hne]
    simp
  · intro ss rest hrest
    simp only [handleSAdd]
    rw [if_neg hrest, memGet_present st now a0.str e hk hne]
    simp
  · intro st2 b0 b1
    rfl

/-- C1 counterexample: starting from empty stores, HSET creates a hash at key
k, and a subsequent SET of the same key answers OK instead of a WRONGTYPE
error, leaving the key simultaneously bound in the hash store and the string
store — the claimed symmetric check and the exclusivity invariant both fail. -/
theorem C1_wrong_type_enforcement_cex :
    (handleHSet ([] : HashStore) ([] : StrStore) 0
        [respBulkString ['k'], respBulkString ['f'], respBulkString ['v']]).1 =
      respInteger 1 ∧
    (handleSet (handleHSet ([] : HashStore) ([] : StrStore) 0
        [respBulkString ['k'], respBulkString ['f'], respBulkString ['v']]).2.2 0
        [respBulkString ['k'], respBulkString ['w']]).1 = respSimpleString okStr ∧
    alookup (handleHSet ([] : HashStore) ([] : StrStore) 0
        [respBulkString ['k'], respBulkString ['f'], respBulkString ['v']]).2.1 ['k'] =
      some [(['f'], ['v'])] ∧
    alookup (handleSet (handleHSet ([] : HashStore) ([] : StrStore) 0
        [respBulkString ['k'], respBulkString ['f'], respBulkString ['v']]).2.2 0
        [respBulkString ['k'], respBulkString ['w']]).2 ['k'] =
      some ⟨['w'], none⟩ := by decide

/-- Witness for C1: with key s bound in the string store, HSET on s fails
with WRONGTYPE and changes nothing. -/
theorem C1_wrong_type_enforcement_witness :
    handleHSet ([] : HashStore) [(['s'], ⟨['x'], none⟩)] 5
        [respBulkString ['s'], respBulkString ['f'], respBulkString ['v']] =
      (respError wrongTypeError, ([] : HashStore), [(['s'], ⟨['x'], none⟩)]) :=
  (C1_wrong_type_enforcement [(['s'], ⟨['x'], none⟩)] 5 (respBulkString ['s'])
      ⟨['x'], none⟩ (by decide) (by decide)).1
    [] [respBulkString ['f'], respBulkString ['v']] (by decide) (by decide)
/-- C10: for a key present in the string store, EXPIRE accepts any integer
seconds argument — zero and negative included — answers integer 1, and stores
absolute expiry now plus seconds; after a non-positive seconds value, every
strictly later GET reports the key absent with a null bulk string and removes
the entry from the store (lazy expiry). -/
theorem C10_expire_nonpositive (st : StrStore) (now : Int) (k : GoStr) (e : GoEntry)
    (a1 : RValue) (secs : Int)
    (hk : alookup st k = some e) (hne : entryExpired e now = false)
    (hp : goAtoi a1.str = some secs) :
    handleExpire st now [respBulkString k, a1] =
      (respInteger 1, memSetWithTTL st now k e.value secs) ∧
    (secs ≤ 0 → ∀ t2 : Int, now < t2 →
      handleGet (memSetWithTTL st now k e.value secs) t2 [respBulkString k] =
        (respNullBulkString, aerase (memSetWithTTL st now k e.value secs) k) ∧
      alookup (aerase (memSetWithTTL st now k e.value secs) k) k = none) := by
  constructor
  · show (match goAtoi a1.str with
      | none => (respError errNotInteger, st)
      | some seconds =>
        let (v, st2) := memGet st now k
        match v with
        | none => (respInteger 0, st2)
        | some value => (respInteger 1, memSetWithTTL st2 now k value seconds)) = _
    rw [hp, memGet_present st now k e hk hne]
  · intro hs t2 ht
    have hget : memGet (memSetWithTTL st now k e.value secs) t2 k =
        (none, aerase (memSetWithTTL st now k e.value secs) k) := by
      unfold memGet memSetWithTTL
      rw [alookup_aset]
      have hexp : entryExpired ⟨e.value, some (now + secs)⟩ t2 = true := by
        unfold entryExpired
        simp only [decide_eq_true_eq]
        omega
      show (if entryExpired ⟨e.value, some (now + secs)⟩ t2 = true then
          ((none : Option GoStr), aerase (aset st k ⟨e.value, some (now + secs)⟩) k)
        else (some e.value, aset st k ⟨e.value, some (now + secs)⟩)) =
        (none, aerase (aset st k ⟨e.value, some (now + secs)⟩) k)
      rw [if_pos hexp]
    refine ⟨?_, ?_⟩
    · show (let (v, st2) := memGet (memSetWithTTL st now k e.value secs) t2 k
        match v with
        | none => (respNullBulkString, st2)
        | some value => (respBulkString value, st2)) = _
      rw [hget]
    · exact alookup_aerase _ _

/-- Witness for C10: EXPIRE k -1 on a live key answers 1, and a GET one tick
later answers a null bulk string and deletes the entry. -/
theorem C10_expire_nonpositive_witness :
    handleExpire [(['k'], ⟨['v'], none⟩)] 100
        [respBulkString ['k'], respBulkString ['-', '1']] =
      (respInteger 1, memSetWithTTL [(['k'], ⟨['v'], none⟩)] 100 ['k'] ['v'] (-1)) ∧
    handleGet (memSetWithTTL [(['k'], ⟨['v'], none⟩)] 100 ['k'] ['v'] (-1)) 101
        [respBulkString ['k']] =
      (respNullBulkString,
        aerase (memSetWithTTL [(['k'], ⟨['v'], none⟩)] 100 ['k'] ['v'] (-1)) ['k']) :=
  ⟨(C10_expire_nonpositive [(['k'], ⟨['v'], none⟩)] 100 ['k'] ⟨['v'], none⟩
      (respBulkString ['-', '1']) (-1) (by decide) (by decide) (by decide)).1,
    ((C10_expire_nonpositive [(['k'], ⟨['v'], none⟩)] 100 ['k'] ⟨['v'], none⟩
      (respBulkString ['-', '1']) (-1) (by decide) (by decide) (by decide)).2
      (by decide) 101 (by decide)).1⟩
/-! ## C8: LRange semantics -/

/-- The claim's range procedure taken at its word: normalize negative indices,
clamp BOTH bounds into the interval from 0 to length - 1, then apply the
emptiness test and take the inclusive slice. -/
def lrangeClaimed (st : ListStore) (key : GoStr) (start stop : Int) : List GoStr :=
  match alookup st key with
  | none => []
  | some list =>
    let len : Int := list.length
    let s1 := if start < 0 then len + start else start
    let e1 := if stop < 0 then len + stop else stop
    let s2 := min (max s1 0) (len - 1)
    let e2 := min (max e1 0) (len - 1)
    if s2 > e2 ∨ s2 ≥ len then []
    else (list.drop s2.toNat).take (e2 - s2 + 1).toNat

/-- C8 counterexample: on the three-element list a b c, LRANGE -5 -4
normalizes to bounds -2 and -1; the code never raises the stop bound to 0, so
the range is empty, while the claim's clamp-to-the-interval description first
lifts both bounds to 0 and yields the one-element slice a. -/
theorem C8_lrange_cex :
    lsLRange [(['k'], [['a'], ['b'], ['c']])] ['k'] (-5) (-4) = [] ∧
    lrangeClaimed [(['k'], [['a'], ['b'], ['c']])] ['k'] (-5) (-4) = [['a']] := by decide

/-- Normalization of one LRange index. -/
def lrNorm (len i : Int) : Int := if i < 0 then len + i else i

/-- C8 (amended): LRange treats both bounds as inclusive and normalizes a
negative index i to length + i; the start bound is then clamped below at 0 and
the stop bound clamped above at length - 1 (neither is clamped from the other
side); if the resulting start exceeds the resulting stop or the length, the
result is empty; otherwise the result is the snapshot of the elements at the
inclusive positions start..stop.  An absent key yields the empty list. -/
theorem C8_lrange (st : ListStore) (key : GoStr) (start stop : Int) :
    (alookup st key = none → lsLRange st key start stop = []) ∧
    (∀ list, alookup st key = some list →
      (max (lrNorm list.length start) 0 > min (lrNorm list.length stop) (list.length - 1) ∨
          max (lrNorm list.length start) 0 ≥ (list.length : Int) →
        lsLRange st key start stop = []) ∧
      (∀ hs2 : Int, hs2 = max (lrNorm list.length start) 0 →
        ∀ he2 : Int, he2 = min (lrNorm list.length stop) (list.length - 1) →
        ¬(hs2 > he2 ∨ hs2 ≥ (list.length : Int)) →
          (lsLRange st key start stop).length = (he2 - hs2 + 1).toNat ∧
          ∀ i : Nat, (i : Int) < he2 - hs2 + 1 →
            (lsLRange st key start stop).get? i = list.get? (hs2.toNat + i))) := by
  constructor
  · intro hnone
    unfold lsLRange
    rw [hnone]
  · intro list hsome
    have hcode : lsLRange st key start stop =
        (if max (lrNorm list.length start) 0 > min (lrNorm list.length stop)
              ((list.length : Int) - 1) ∨
            max (lrNorm list.length start) 0 ≥ (list.length : Int) then []
          else (list.drop (max (lrNorm list.length start) 0).toNat).take
            (min (lrNorm list.length stop) ((list.length : Int) - 1) -
              max (lrNorm list.length start) 0 + 1).toNat) := by
      simp only [lsLRange, hsome]
      have hstart : (if (if start < 0 then (list.length : Int) + start else start) < 0 then 0
            else if start < 0 then (list.length : Int) + start else start) =
          max (lrNorm list.length start) 0 := by
        unfold lrNorm
        split <;> omega
      have hstop : (if (if stop < 0 then (list.length : Int) + stop else stop) ≥
              (list.length : Int) then (list.length : Int) - 1
            else if stop < 0 then (list.length : Int) + stop else stop) =
          min (lrNorm list.length stop) ((list.length : Int) - 1) := by
        unfold lrNorm
        split <;> omega
      rw [hstart, hstop]
    constructor
    · intro hempty
      rw [hcode, if_pos hempty]
    · intro hs2 hs2def he2 he2def hne
      subst hs2def
      subst he2def
      rw [hcode, if_neg hne]
      push_neg at hne
      obtain ⟨hle, hlt⟩ := hne
      have hs2nn : 0 ≤ max (lrNorm list.length start) 0 := le_max_right _ _
      have he2lt : min (lrNorm list.length stop) ((list.length : Int) - 1) ≤
          (list.length : Int) - 1 := min_le_right _ _
      constructor
      · rw [List.length_take, List.length_drop]
        omega
      · intro i hi
        rw [List.get?_take (by omega), List.get?_drop]

/-- Witness for C8: LRANGE 1 -1 on the list a b c returns the slice b c, with
the length and element facts instantiated concretely. -/
theorem C8_lrange_witness :
    (lsLRange [(['k'], [['a'], ['b'], ['c']])] ['k'] 1 (-1)).length = 2 ∧
    (lsLRange [(['k'], [['a'], ['b'], ['c']])] ['k'] 1 (-1)).get? 0 = some ['b'] ∧
    (lsLRange [(['k'], [['a'], ['b'], ['c']])] ['k'] 1 (-1)).get? 1 = some ['c'] := by
  have h := ((C8_lrange [(['k'], [['a'], ['b'], ['c']])] ['k'] 1 (-1)).2
    [['a'], ['b'], ['c']] (by decide)).2 1 (by decide) 2 (by decide) (by decide)
  refine ⟨by rw [h.1]; decide, ?_, ?_⟩
  · rw [h.2 0 (by decide)]
    decide
  · rw [h.2 1 (by decide)]
    decide
/-! ## C4: empty collections are (almost) never observable -/

/-- One store-level mutating operation on the three collection stores. -/
inductive COp where
  | lpushOp (k : GoStr) (vs : List GoStr)
  | rpushOp (k : GoStr) (vs : List GoStr)
  | lpopOp (k : GoStr)
  | rpopOp (k : GoStr)
  | saddOp (k : GoStr) (ms : List GoStr)
  | sremOp (k : GoStr) (ms : List GoStr)
  | hsetOp (k : GoStr) (fvs : List GoStr)
  | hdelOp (k : GoStr) (fs : List GoStr)
deriving DecidableEq, Repr

/-- The three collection stores together. -/
structure CollStores where
  lists : ListStore
  hashes : HashStore
  sets : SetStore
deriving DecidableEq, Repr

/-- Apply one mutating operation, keeping only the store effects. -/
def collStep (st : CollStores) : COp → CollStores
  | .lpushOp k vs => { st with lists := (lsLPush st.lists k vs).2 }
  | .rpushOp k vs => { st with lists := (lsRPush st.lists k vs).2 }
  | .lpopOp k => { st with lists := (lsLPop st.lists k).2 }
  | .rpopOp k => { st with lists := (lsRPop st.lists k).2 }
  | .saddOp k ms => { st with sets := (ssSAdd st.sets k ms).2 }
  | .sremOp k ms => { st with sets := (ssSRem st.sets k ms).2 }
  | .hsetOp k fvs => { st with hashes := (hsHSet st.hashes k fvs).2 }
  | .hdelOp k fs => { st with hashes := (hsHDel st.hashes k fs).2 }

/-- Run a sequence of operations from a starting state. -/
def collRun (st : CollStores) (ops : List COp) : CollStores :=
  ops.foldl collStep st

/-- No list, hash, or set key is bound to an entry with zero elements. -/
def noEmptyEntries (st : CollStores) : Prop :=
  (∀ k l, alookup st.lists k = some l → l ≠ []) ∧
  (∀ k h, alookup st.hashes k = some h → h ≠ []) ∧
  (∀ k s, alookup st.sets k = some s → s ≠ [])

/-- An operation supplies at least one value when it is a push or add. -/
def opValuesNonempty : COp → Bool
  | .lpushOp _ vs => !vs.isEmpty
  | .rpushOp _ vs => !vs.isEmpty
  | .saddOp _ ms => !ms.isEmpty
  | _ => true

/-- C4 counterexample: SAdd with zero members (and LPush with zero values) on
an absent key stores an entry with zero elements, observable through KeyType
answering set while SCard answers zero — the start states these operations
produce refute the claim that no operation leaves an empty entry behind. -/
theorem C4_empty_collections_cex :
    alookup (collRun ⟨[], [], []⟩ [COp.saddOp ['k'] []]).sets ['k'] = some [] ∧
    ssKeyType (collRun ⟨[], [], []⟩ [COp.saddOp ['k'] []]).sets ['k'] = setStr ∧
    ssSCard (collRun ⟨[], [], []⟩ [COp.saddOp ['k'] []]).sets ['k'] = 0 ∧
    alookup (collRun ⟨[], [], []⟩ [COp.lpushOp ['k'] []]).lists ['k'] = some [] ∧
    lsKeyType (collRun ⟨[], [], []⟩ [COp.lpushOp ['k'] []]).lists ['k'] = listStr := by
  decide

/-- Setting one key preserves a per-entry predicate when the new value
satisfies it. -/
theorem inv_aset {α : Type} (P : α → Prop) (m : List (GoStr × α)) (k : GoStr) (v : α)
    (hm : ∀ k2 x, alookup m k2 = some x → P x) (hv : P v) :
    ∀ k2 x, alookup (aset m k v) k2 = some x → P x := by
  intro k2 x hx
  by_cases h : k2 = k
  · subst h
    rw [alookup_aset] at hx
    cases hx
    exact hv
  · rw [alookup_aset_ne _ h] at hx
    exact hm _ _ hx

/-- Deleting a key preserves a per-entry predicate. -/
theorem inv_aerase {α : Type} (P : α → Prop) (m : List (GoStr × α)) (k : GoStr)
    (hm : ∀ k2 x, alookup m k2 = some x → P x) :
    ∀ k2 x, alookup (aerase m k) k2 = some x → P x := by
  intro k2 x hx
  by_cases h : k2 = k
  · subst h
    rw [alookup_aerase] at hx
    cases hx
  · rw [alookup_aerase_ne _ h] at hx
    exact hm _ _ hx

/-- Unfolding of the SAdd loop on an already-present member. -/
theorem saddLoop_cons_mem (set : List GoStr) (m : GoStr) (ms : List GoStr)
    (h : set.contains m = true) :
    saddLoop set (m :: ms) = saddLoop set ms := by
  show (if set.contains m = true then saddLoop set ms
    else match saddLoop (set ++ [m]) ms with | (n, s2) => (n + 1, s2)) = saddLoop set ms
  rw [if_pos h]

/-- Unfolding of the SAdd loop on a missing member. -/
theorem saddLoop_cons_not_mem (set : List GoStr) (m : GoStr) (ms : List GoStr)
    (h : ¬set.contains m = true) :
    (saddLoop set (m :: ms)).2 = (saddLoop (set ++ [m]) ms).2 := by
  show (if set.contains m = true then saddLoop set ms
    else match saddLoop (set ++ [m]) ms with | (n, s2) => (n + 1, s2)).2 =
    (saddLoop (set ++ [m]) ms).2
  rw [if_neg h]

/-- The SAdd member loop never shrinks the set. -/
theorem saddLoop_length : ∀ (ms set : List GoStr), set.length ≤ (saddLoop set ms).2.length
  | [], _ => le_rfl
  | m :: ms, set => by
    by_cases h : set.contains m = true
    · rw [saddLoop_cons_mem set m ms h]
      exact saddLoop_length ms set
    · rw [saddLoop_cons_not_mem set m ms h]
      have h2 := saddLoop_length ms (set ++ [m])
      simp only [List.length_append, List.length_cons, List.length_nil] at h2
      omega

/-- Setting a key never shrinks a map. -/
theorem aset_length_le {α : Type} (m : List (GoStr × α)) (f : GoStr) (v : α) :
    m.length ≤ (aset m f v).length := by
  induction m with
  | nil => simp [aset]
  | cons kw rest ih =>
    obtain ⟨k0, w⟩ := kw
    by_cases h : k0 = f
    · simp [aset, h]
    · simp only [aset, if_neg h, List.length_cons]
      omega

/-- Unfolding of the HSet pair loop on one pair. -/
theorem hsetPairs_cons (hash : List (GoStr × GoStr)) (f v : GoStr) (rest : List GoStr) :
    (hsetPairs hash (f :: v :: rest)).2 = (hsetPairs (aset hash f v) rest).2 := by
  show (match hsetPairs (aset hash f v) rest with
    | (n, hash2) => ((if (alookup hash f).isNone then 1 else 0) + n, hash2)).2 =
    (hsetPairs (aset hash f v) rest).2
  rcases hh : hsetPairs (aset hash f v) rest with ⟨n, h2⟩
  rfl

/-- The HSet pair loop never shrinks the hash. -/
theorem hsetPairs_length :
    ∀ (fvs : List GoStr) (hash : List (GoStr × GoStr)),
      hash.length ≤ (hsetPairs hash fvs).2.length
  | [], _ => le_rfl
  | [_], _ => le_rfl
  | f :: v :: rest, hash => by
    rw [hsetPairs_cons]
    exact le_trans (aset_length_le hash f v) (hsetPairs_length rest (aset hash f v))
/-- Setting a key never produces the empty map. -/
theorem aset_ne_nil {α : Type} (m : List (GoStr × α)) (k : GoStr) (v : α) :
    aset m k v ≠ [] := by
  cases m with
  | nil => simp [aset]
  | cons kw rest =>
    obtain ⟨k0, w⟩ := kw
    by_cases h : k0 = k <;> simp [aset, h]

/-- One collection operation that supplies at least one value preserves the
absence of empty entries. -/
theorem collStep_preserves (st : CollStores) (op : COp)
    (hinv : noEmptyEntries st) (hop : opValuesNonempty op = true) :
    noEmptyEntries (collStep st op) := by
  obtain ⟨hl, hh, hs⟩ := hinv
  cases op with
  | lpushOp k vs =>
    refine ⟨?_, hh, hs⟩
    have hvs : vs ≠ [] := by simpa [opValuesNonempty] using hop
    show ∀ k2 l, alookup (aset st.lists k
      (vs.reverse ++ (alookup st.lists k).getD [])) k2 = some l → l ≠ []
    refine inv_aset _ _ _ _ hl ?_
    intro happ
    exact hvs (by simpa using (List.append_eq_nil.mp happ).1)
  | rpushOp k vs =>
    refine ⟨?_, hh, hs⟩
    have hvs : vs ≠ [] := by simpa [opValuesNonempty] using hop
    show ∀ k2 l, alookup (aset st.lists k
      ((alookup st.lists k).getD [] ++ vs)) k2 = some l → l ≠ []
    refine inv_aset _ _ _ _ hl ?_
    intro happ
    exact hvs (List.append_eq_nil.mp happ).2
  | lpopOp k =>
    refine ⟨?_, hh, hs⟩
    cases hkl : alookup st.lists k with
    | none =>
      have he : (lsLPop st.lists k).2 = st.lists := by simp [lsLPop, hkl]
      rw [collStep]
      rw [he]
      exact hl
    | some l =>
      cases l with
      | nil =>
        have he : (lsLPop st.lists k).2 = st.lists := by simp [lsLPop, hkl]
        rw [collStep, he]
        exact hl
      | cons x restL =>
        by_cases hr : restL = []
        · have he : (lsLPop st.lists k).2 = aerase st.lists k := by
            simp [lsLPop, hkl, hr]
          rw [collStep, he]
          exact inv_aerase _ _ _ hl
        · have he : (lsLPop st.lists k).2 = aset st.lists k restL := by
            simp [lsLPop, hkl, hr]
          rw [collStep, he]
          exact inv_aset _ _ _ _ hl hr
  | rpopOp k =>
    refine ⟨?_, hh, hs⟩
    cases hkl : alookup st.lists k with
    | none =>
      have he : (lsRPop st.lists k).2 = st.lists := by simp [lsRPop, hkl]
      rw [collStep, he]
      exact hl
    | some l =>
      cases l with
      | nil =>
        have he : (lsRPop st.lists k).2 = st.lists := by simp [lsRPop, hkl]
        rw [collStep, he]
        exact hl
      | cons x restL =>
        by_cases hr : (x :: restL).dropLast = []
        · have he : (lsRPop st.lists k).2 = aerase st.lists k := by
            simp [lsRPop, hkl, hr]
          rw [collStep, he]
          exact inv_aerase _ _ _ hl
        · have he : (lsRPop st.lists k).2 = aset st.lists k ((x :: restL).dropLast) := by
            simp [lsRPop, hkl, hr]
          rw [collStep, he]
          exact inv_aset _ _ _ _ hl hr
  | saddOp k ms =>
    refine ⟨hl, hh, ?_⟩
    have hms : ms ≠ [] := by simpa [opValuesNonempty] using hop
    have he : (ssSAdd st.sets k ms).2 =
        aset st.sets k (saddLoop ((alookup st.sets k).getD []) ms).2 := rfl
    rw [collStep, he]
    refine inv_aset _ _ _ _ hs ?_
    cases hkl : alookup st.sets k with
    | none =>
      match ms, hms with
      | m :: ms2, _ =>
        show (saddLoop [] (m :: ms2)).2 ≠ []
        rw [saddLoop_cons_not_mem [] m ms2 (by simp)]
        have hlen := saddLoop_length ms2 ([] ++ [m])
        intro hnil
        rw [hnil] at hlen
        simp at hlen
    | some set =>
      show (saddLoop set ms).2 ≠ []
      have hset : set ≠ [] := hs k set hkl
      have hlen := saddLoop_length ms set
      intro hnil
      rw [hnil] at hlen
      simp only [List.length_nil, Nat.le_zero, List.length_eq_zero] at hlen
      exact hset hlen
  | sremOp k ms =>
    refine ⟨hl, hh, ?_⟩
    cases hkl : alookup st.sets k with
    | none =>
      have he : (ssSRem st.sets k ms).2 = st.sets := by simp [ssSRem, hkl]
      rw [collStep, he]
      exact hs
    | some set =>
      rcases hloop : sremLoop set ms with ⟨removed, set2⟩
      by_cases h2 : set2 = []
      · have he : (ssSRem st.sets k ms).2 = aerase st.sets k := by
          simp [ssSRem, hkl, hloop, h2]
        rw [collStep, he]
        exact inv_aerase _ _ _ hs
      · have he : (ssSRem st.sets k ms).2 = aset st.sets k set2 := by
          simp [ssSRem, hkl, hloop, h2]
        rw [collStep, he]
        exact inv_aset _ _ _ _ hs h2
  | hsetOp k fvs =>
    refine ⟨hl, ?_, hs⟩
    by_cases hg : fvs.length < 2 ∨ fvs.length % 2 ≠ 0
    · have he : (hsHSet st.hashes k fvs).2 = st.hashes := by
        show (if fvs.length < 2 ∨ fvs.length % 2 ≠ 0 then ((0 : Nat), st.hashes)
          else ((hsetPairs ((alookup st.hashes k).getD []) fvs).1,
            aset st.hashes k (hsetPairs ((alookup st.hashes k).getD []) fvs).2)).2 = st.hashes
        rw [if_pos hg]
      rw [collStep, he]
      exact hh
    · have he : (hsHSet st.hashes k fvs).2 =
          aset st.hashes k (hsetPairs ((alookup st.hashes k).getD []) fvs).2 := by
        show (if fvs.length < 2 ∨ fvs.length % 2 ≠ 0 then ((0 : Nat), st.hashes)
          else ((hsetPairs ((alookup st.hashes k).getD []) fvs).1,
            aset st.hashes k (hsetPairs ((alookup st.hashes k).getD []) fvs).2)).2 = _
        rw [if_neg hg]
      rw [collStep, he]
      refine inv_aset _ _ _ _ hh ?_
      push_neg at hg
      match fvs, hg with
      | f :: v :: rest, _ =>
        rw [hsetPairs_cons]
        have hlen := hsetPairs_length rest (aset ((alookup st.hashes k).getD []) f v)
        have hne := aset_ne_nil ((alookup st.hashes k).getD []) f v
        intro hnil
        rw [hnil] at hlen
        simp only [List.length_nil, Nat.le_zero, List.length_eq_zero] at hlen
        exact hne hlen
  | hdelOp k fs =>
    refine ⟨hl, ?_, hs⟩
    cases hkl : alookup st.hashes k with
    | none =>
      have he : (hsHDel st.hashes k fs).2 = st.hashes := by simp [hsHDel, hkl]
      rw [collStep, he]
      exact hh
    | some hash =>
      rcases hloop : hdelLoop hash fs with ⟨deleted, hash2⟩
      by_cases h2 : hash2 = []
      · have he : (hsHDel st.hashes k fs).2 = aerase st.hashes k := by
          simp [hsHDel, hkl, hloop, h2]
        rw [collStep, he]
        exact inv_aerase _ _ _ hh
      · have he : (hsHDel st.hashes k fs).2 = aset st.hashes k hash2 := by
          simp [hsHDel, hkl, hloop, h2]
        rw [collStep, he]
        exact inv_aset _ _ _ _ hh h2

/-- Running many value-supplying operations preserves the invariant. -/
theorem collRun_preserves :
    ∀ (ops : List COp) (st : CollStores), noEmptyEntries st →
      (∀ op ∈ ops, opValuesNonempty op = true) → noEmptyEntries (collRun st ops)
  | [], _, hinv, _ => hinv
  | op :: ops, st, hinv, hops =>
    collRun_preserves ops (collStep st op)
      (collStep_preserves st op hinv (hops op (List.mem_cons_self op ops)))
      (fun o ho => hops o (List.mem_cons_of_mem op ho))

/-- C4 (amended): over every sequence of list, hash, and set store operations
in which each push or add supplies at least one value, no reachable state
binds a list, hash, or set key to an entry with zero elements — a collection
entry is destroyed the instant its last element, field, or member is removed;
LPush, RPush, and SAdd invoked with zero values, however, do store an
observable empty entry. -/
theorem C4_empty_collections (ops : List COp)
    (hops : ∀ op ∈ ops, opValuesNonempty op = true) :
    noEmptyEntries (collRun ⟨[], [], []⟩ ops) := by
  refine collRun_preserves ops ⟨[], [], []⟩ ⟨?_, ?_, ?_⟩ hops <;>
    intro k x hx <;> simp [alookup] at hx

/-- Witness for C4: a concrete sequence that adds and fully removes members,
elements, and fields leaves no empty entries behind. -/
theorem C4_empty_collections_witness :
    noEmptyEntries (collRun ⟨[], [], []⟩
      [COp.saddOp ['k'] [['m']], COp.sremOp ['k'] [['m']],
        COp.lpushOp ['q'] [['v']], COp.lpopOp ['q'],
        COp.hsetOp ['h'] [['f'], ['w']], COp.hdelOp ['h'] [['f']]]) :=
  C4_empty_collections _ (by decide)
/-! ## C5: version tracker (MemoryVersionTracker in package transaction) -/

/-- The version map; Go reads a missing key as 0. -/
abbrev VersionMap := List (GoStr × Int)

/-- MemoryVersionTracker.GetVersion. -/
def vtGetVersion (m : VersionMap) (k : GoStr) : Int :=
  (alookup m k).getD 0

/-- MemoryVersionTracker.IncrementVersion. -/
def vtIncrementVersion (m : VersionMap) (k : GoStr) : VersionMap :=
  aset m k ((alookup m k).getD 0 + 1)

/-- MemoryVersionTracker.DeleteVersion: removes the entry, so the key reads
as 0 again. -/
def vtDeleteVersion (m : VersionMap) (k : GoStr) : VersionMap :=
  aerase m k

/-- A mutating operation of the tracker interface. -/
inductive VOp where
  | incr (k : GoStr)
  | del (k : GoStr)
deriving DecidableEq, Repr

/-- Apply one tracker operation. -/
def vtStep (m : VersionMap) : VOp → VersionMap
  | .incr k => vtIncrementVersion m k
  | .del k => vtDeleteVersion m k

/-- Run a sequence of tracker operations. -/
def vtRun (m : VersionMap) (ops : List VOp) : VersionMap :=
  ops.foldl vtStep m

/-- C5 counterexample: IncrementVersion k then DeleteVersion k drops
GetVersion k from 1 back to 0, so a later read returns a smaller value than
an earlier one — versions are not monotone across deletion. -/
theorem C5_version_monotonic_cex :
    vtGetVersion (vtRun [] [VOp.incr ['k']]) ['k'] = 1 ∧
    vtGetVersion (vtRun [] ([VOp.incr ['k']] ++ [VOp.del ['k']])) ['k'] = 0 ∧
    ¬(vtGetVersion (vtRun [] [VOp.incr ['k']]) ['k'] ≤
      vtGetVersion (vtRun [] ([VOp.incr ['k']] ++ [VOp.del ['k']])) ['k']) := by decide

/-- Versions reachable from the empty tracker are non-negative. -/
theorem vtRun_nonneg :
    ∀ (ops : List VOp) (m : VersionMap), (∀ k, 0 ≤ vtGetVersion m k) →
      ∀ k, 0 ≤ vtGetVersion (vtRun m ops) k
  | [], _, h => h
  | op :: ops, m, h => by
    refine vtRun_nonneg ops (vtStep m op) ?_
    intro k
    cases op with
    | incr k0 =>
      by_cases hk : k = k0
      · subst hk
        show 0 ≤ (alookup (aset m k ((alookup m k).getD 0 + 1)) k).getD 0
        rw [alookup_aset]
        have := h k
        unfold vtGetVersion at this
        simp only [Option.getD_some]
        omega
      · show 0 ≤ (alookup (aset m k0 ((alookup m k0).getD 0 + 1)) k).getD 0
        rw [alookup_aset_ne _ hk]
        exact h k
    | del k0 =>
      by_cases hk : k = k0
      · subst hk
        show 0 ≤ (alookup (aerase m k) k).getD 0
        rw [alookup_aerase]
        simp
      · show 0 ≤ (alookup (aerase m k0) k).getD 0
        rw [alookup_aerase_ne _ hk]
        exact h k

/-- Without a deletion of k, a run never decreases the version of k. -/
theorem vtRun_mono :
    ∀ (ops : List VOp) (m : VersionMap) (k : GoStr), (∀ op ∈ ops, op ≠ VOp.del k) →
      vtGetVersion m k ≤ vtGetVersion (vtRun m ops) k
  | [], _, _, _ => le_rfl
  | op :: ops, m, k, hops => by
    have hstep : vtGetVersion m k ≤ vtGetVersion (vtStep m op) k := by
      cases op with
      | incr k0 =>
        by_cases hk : k = k0
        · subst hk
          show vtGetVersion m k ≤ (alookup (aset m k ((alookup m k).getD 0 + 1)) k).getD 0
          rw [alookup_aset]
          unfold vtGetVersion
          simp only [Option.getD_some]
          omega
        · show vtGetVersion m k ≤ (alookup (aset m k0 ((alookup m k0).getD 0 + 1)) k).getD 0
          rw [alookup_aset_ne _ hk]
          exact le_rfl
      | del k0 =>
        have hk : k ≠ k0 := by
          intro hh
          exact hops (VOp.del k0) (List.mem_cons_self _ _) (by rw [hh])
        show vtGetVersion m k ≤ (alookup (aerase m k0) k).getD 0
        rw [alookup_aerase_ne _ hk]
        exact le_rfl
    exact le_trans hstep
      (vtRun_mono ops (vtStep m op) k (fun o ho => hops o (List.mem_cons_of_mem op ho)))

/-- C5 (amended): GetVersion is a pure read; every version reachable from the
fresh tracker is non-negative; IncrementVersion raises the key version by
exactly one and leaves other keys unchanged; DeleteVersion resets the key
version to zero (the entry is removed and a missing key reads as zero) and
leaves other keys unchanged; and over any operation sequence that contains no
DeleteVersion of the key, a later GetVersion never returns a smaller value
than an earlier one. -/
theorem C5_version_monotonic :
    (∀ (ops : List VOp) (k : GoStr), 0 ≤ vtGetVersion (vtRun [] ops) k) ∧
    (∀ (m : VersionMap) (k : GoStr),
      vtGetVersion (vtIncrementVersion m k) k = vtGetVersion m k + 1) ∧
    (∀ (m : VersionMap) (k k2 : GoStr), k2 ≠ k →
      vtGetVersion (vtIncrementVersion m k) k2 = vtGetVersion m k2 ∧
      vtGetVersion (vtDeleteVersion m k) k2 = vtGetVersion m k2) ∧
    (∀ (m : VersionMap) (k : GoStr), vtGetVersion (vtDeleteVersion m k) k = 0) ∧
    (∀ (m : VersionMap) (ops : List VOp) (k : GoStr), (∀ op ∈ ops, op ≠ VOp.del k) →
      vtGetVersion m k ≤ vtGetVersion (vtRun m ops) k) := by
  refine ⟨?_, ?_, ?_, ?_, ?_⟩
  · intro ops k
    exact vtRun_nonneg ops [] (fun _ => le_rfl) k
  · intro m k
    show (alookup (aset m k ((alookup m k).getD 0 + 1)) k).getD 0 = _
    rw [alookup_aset]
    rfl
  · intro m k k2 hne
    constructor
    · show (alookup (aset m k ((alookup m k).getD 0 + 1)) k2).getD 0 = _
      rw [alookup_aset_ne _ hne]
      rfl
    · show (alookup (aerase m k) k2).getD 0 = _
      rw [alookup_aerase_ne _ hne]
      rfl
  · intro m k
    show (alookup (aerase m k) k).getD 0 = 0
    rw [alookup_aerase]
    rfl
  · exact fun m ops k h => vtRun_mono ops m k h

/-- Witness for C5: increment semantics and deletion-free monotonicity at
concrete inputs. -/
theorem C5_version_monotonic_witness :
    vtGetVersion (vtIncrementVersion [] ['k']) ['k'] = vtGetVersion [] ['k'] + 1 ∧
    vtGetVersion [] ['k'] ≤
      vtGetVersion (vtRun [] [VOp.incr ['k'], VOp.incr ['q']]) ['k'] :=
  ⟨C5_version_monotonic.2.1 [] ['k'],
    C5_version_monotonic.2.2.2.2 [] [VOp.incr ['k'], VOp.incr ['q']] ['k'] (by decide)⟩
/-! ## C3: the transaction engine (internal/transaction/transaction.go and
the TransactionHandler in package server) -/

/-- Literal Go string: ERR MULTI calls can not be nested -/
def errNestedMultiStr : GoStr :=
  ['E', 'R', 'R', ' ', 'M', 'U', 'L', 'T', 'I', ' ', 'c', 'a', 'l', 'l', 's', ' ', 'c', 'a', 'n', ' ', 'n', 'o', 't', ' ', 'b', 'e', ' ', 'n', 'e', 's', 't', 'e', 'd']

/-- Literal Go string: ERR EXEC without MULTI -/
def errExecWithoutMultiStr : GoStr :=
  ['E', 'R', 'R', ' ', 'E', 'X', 'E', 'C', ' ', 'w', 'i', 't', 'h', 'o', 'u', 't', ' ', 'M', 'U', 'L', 'T', 'I']

/-- Literal Go string: ERR DISCARD without MULTI -/
def errDiscardWithoutMultiStr : GoStr :=
  ['E', 'R', 'R', ' ', 'D', 'I', 'S', 'C', 'A', 'R', 'D', ' ', 'w', 'i', 't', 'h', 'o', 'u', 't', ' ', 'M', 'U', 'L', 'T', 'I']

/-- Literal Go string: ERR WATCH inside MULTI is not allowed -/
def errWatchInsideMultiStr : GoStr :=
  ['E', 'R', 'R', ' ', 'W', 'A', 'T', 'C', 'H', ' ', 'i', 'n', 's', 'i', 'd', 'e', ' ', 'M', 'U', 'L', 'T', 'I', ' ', 'i', 's', ' ', 'n', 'o', 't', ' ', 'a', 'l', 'l', 'o', 'w', 'e', 'd']

/-- Literal Go string: ERR not in MULTI -/
def errNotInMultiStr : GoStr :=
  ['E', 'R', 'R', ' ', 'n', 'o', 't', ' ', 'i', 'n', ' ', 'M', 'U', 'L', 'T', 'I']

/-- Literal Go string: ERR wrong number of arguments for ~exec~ command -/
def errWrongArgsExec : GoStr :=
  ['E', 'R', 'R', ' ', 'w', 'r', 'o', 'n', 'g', ' ', 'n', 'u', 'm', 'b', 'e', 'r', ' ', 'o', 'f', ' ', 'a', 'r', 'g', 'u', 'm', 'e', 'n', 't', 's', ' ', 'f', 'o', 'r', ' ', Char.ofNat 39, 'e', 'x', 'e', 'c', Char.ofNat 39, ' ', 'c', 'o', 'm', 'm', 'a', 'n', 'd']


/-- The transaction error values of the transaction package. -/
inductive TxErr where
  | nestedMulti
  | execWithoutMulti
  | discardWithoutMulti
  | watchInsideMulti
  | notInMulti
deriving DecidableEq, Repr

/-- The Error() string of each transaction error. -/
def txErrStr : TxErr → GoStr
  | .nestedMulti => errNestedMultiStr
  | .execWithoutMulti => errExecWithoutMultiStr
  | .discardWithoutMulti => errDiscardWithoutMultiStr
  | .watchInsideMulti => errWatchInsideMultiStr
  | .notInMulti => errNotInMultiStr

/-- Transaction state: the MULTI flag, the command queue, and the watched
key-version map. -/
structure Txn where
  inMulti : Bool
  queue : List (GoStr × List GoStr)
  watching : List (GoStr × Int)
deriving DecidableEq, Repr

/-- resetLocked: leave MULTI, clear the queue and the watch set. -/
def resetTxn : Txn := ⟨false, [], []⟩

/-- checkWatchLocked: true when no version getter is supplied, else every
watched key must still have its recorded version. -/
def checkWatchLocked (t : Txn) (getVersion : Option (GoStr → Int)) : Bool :=
  match getVersion with
  | none => true
  | some g => t.watching.all (fun kv => g kv.1 == kv.2)

/-- An individual command error becomes an error value in the result array. -/
def errToVal : Except GoStr RValue → RValue
  | .error e => .mk '-' e 0 [] false
  | .ok v => v

/-- The EXEC loop: run every queued command in order through the executor,
threading the executor state; errors become error values in place. -/
def runQueue {σ : Type} (executor : σ → GoStr → List GoStr → σ × Except GoStr RValue) :
    σ → List (GoStr × List GoStr) → σ × List RValue
  | s, [] => (s, [])
  | s, (cmd, cargs) :: rest =>
    let (s2, r) := executor s cmd cargs
    let (s3, rs) := runQueue executor s2 rest
    (s3, errToVal r :: rs)

/-- Transaction.Exec: refuse outside MULTI; on a watch mismatch reset and
report nil results; otherwise run the queue and reset.  The executor state σ
makes the side effects of queued commands explicit. -/
def txExec {σ : Type} (t : Txn)
    (executor : σ → GoStr → List GoStr → σ × Except GoStr RValue)
    (getVersion : Option (GoStr → Int)) (s : σ) :
    Except TxErr (Option (List RValue)) × Txn × σ :=
  if !t.inMulti then (.error .execWithoutMulti, t, s)
  else if !(checkWatchLocked t getVersion) then (.ok none, resetTxn, s)
  else
    let (s2, results) := runQueue executor s t.queue
    (.ok (some results), resetTxn, s2)

/-- TransactionHandler.HandleExec: arity check, then Exec; nil results render
as the null array, successful results as an array of the per-command
values. -/
def handleExec {σ : Type} (t : Txn) (getVersion : Option (GoStr → Int))
    (executor : σ → GoStr → List GoStr → σ × Except GoStr RValue) (s : σ)
    (args : List RValue) : RValue × Txn × σ :=
  if args.length ≠ 0 then (respError errWrongArgsExec, t, s)
  else
    match txExec t executor getVersion s with
    | (.error e, t2, s2) => (respError (txErrStr e), t2, s2)
    | (.ok none, t2, s2) => (RValue.mk '*' [] 0 [] true, t2, s2)
    | (.ok (some results), t2, s2) => (RValue.mk '*' [] 0 results false, t2, s2)

/-- The EXEC loop produces one result per queued command. -/
theorem runQueue_length {σ : Type}
    (executor : σ → GoStr → List GoStr → σ × Except GoStr RValue) :
    ∀ (q : List (GoStr × List GoStr)) (s : σ), (runQueue executor s q).2.length = q.length
  | [], _ => rfl
  | (cmd, cargs) :: rest, s => by
    show (errToVal (executor s cmd cargs).2 ::
      (runQueue executor (executor s cmd cargs).1 rest).2).length = _
    simp only [List.length_cons, runQueue_length executor rest]

/-- The i-th EXEC result is the executor outcome of the i-th queued command,
run in the state produced by the first i commands; an earlier error does not
disturb later positions. -/
theorem runQueue_get {σ : Type}
    (executor : σ → GoStr → List GoStr → σ × Except GoStr RValue) :
    ∀ (q : List (GoStr × List GoStr)) (s : σ) (i : Nat), i < q.length →
      ∃ cmd cargs, q.get? i = some (cmd, cargs) ∧
        (runQueue executor s q).2.get? i =
          some (errToVal (executor (runQueue executor s (q.take i)).1 cmd cargs).2)
  | [], _, i, hi => absurd hi (by simp)
  | (cmd, cargs) :: rest, s, 0, _ =>
    ⟨cmd, cargs, rfl, by
      show some (errToVal (executor s cmd cargs).2) = _
      rfl⟩
  | (cmd, cargs) :: rest, s, i + 1, hi => by
    obtain ⟨c2, a2, hq, hr⟩ :=
      runQueue_get executor rest (executor s cmd cargs).1 i (by simpa using hi)
    refine ⟨c2, a2, hq, ?_⟩
    show (errToVal (executor s cmd cargs).2 ::
      (runQueue executor (executor s cmd cargs).1 rest).2).get? (i + 1) = _
    simpa using hr

/-- C3: when EXEC runs in MULTI state, a watched key whose current version
differs aborts — the queue is discarded, no command executes (the executor
state is untouched), Exec reports nil results, and HandleExec renders the
null array; otherwise every queued command runs in queue order, an individual
error becoming an error value at its position without stopping later
commands, and HandleExec renders the result array; in both cases the MULTI
flag, queue, and watch set are cleared. -/
theorem C3_exec_semantics {σ : Type} (t : Txn)
    (executor : σ → GoStr → List GoStr → σ × Except GoStr RValue)
    (g : GoStr → Int) (s : σ) (ht : t.inMulti = true) :
    ((∃ kv ∈ t.watching, g kv.1 ≠ kv.2) →
      txExec t executor (some g) s = (.ok none, resetTxn, s) ∧
      handleExec t (some g) executor s [] = (RValue.mk '*' [] 0 [] true, resetTxn, s)) ∧
    ((∀ kv ∈ t.watching, g kv.1 = kv.2) →
      txExec t executor (some g) s =
        (.ok (some (runQueue executor s t.queue).2), resetTxn,
          (runQueue executor s t.queue).1) ∧
      handleExec t (some g) executor s [] =
        (RValue.mk '*' [] 0 (runQueue executor s t.queue).2 false, resetTxn,
          (runQueue executor s t.queue).1) ∧
      (runQueue executor s t.queue).2.length = t.queue.length ∧
      (∀ i, i < t.queue.length →
        ∃ cmd cargs, t.queue.get? i = some (cmd, cargs) ∧
          (runQueue executor s t.queue).2.get? i =
            some (errToVal (executor (runQueue executor s (t.queue.take i)).1
              cmd cargs).2))) := by
  have hwatch_t : ∀ (b : Bool), checkWatchLocked t (some g) = b →
      (b = true ↔ ∀ kv ∈ t.watching, g kv.1 = kv.2) := by
    intro b hb
    subst hb
    unfold checkWatchLocked
    simp [List.all_eq_true, beq_iff_eq]
  constructor
  · intro hmm
    have hcw : checkWatchLocked t (some g) = false := by
      rcases hmm with ⟨kv, hkv, hne⟩
      cases hcw2 : checkWatchLocked t (some g) with
      | false => rfl
      | true => exact absurd (((hwatch_t true hcw2).mp rfl) kv hkv) hne
    have hx : txExec t executor (some g) s = (.ok none, resetTxn, s) := by
      unfold txExec
      rw [ht, hcw]
      rfl
    refine ⟨hx, ?_⟩
    unfold handleExec
    rw [if_neg (by simp)]
    rw [hx]
  · intro hall
    have hcw : checkWatchLocked t (some g) = true := by
      cases hcw2 : checkWatchLocked t (some g) with
      | true => rfl
      | false => exact Bool.noConfusion ((hwatch_t false hcw2).mpr hall)
    have hx : txExec t executor (some g) s =
        (.ok (some (runQueue executor s t.queue).2), resetTxn,
          (runQueue executor s t.queue).1) := by
      unfold txExec
      rw [ht, hcw]
      rfl
    refine ⟨hx, ?_, runQueue_length executor t.queue s, runQueue_get executor t.queue s⟩
    unfold handleExec
    rw [if_neg (by simp)]
    rw [hx]

/-- Witness for C3: a three-command queue in which the middle command errors;
EXEC returns all three results with the error value in the middle, and a
mismatched watch on the same transaction aborts with the null array. -/
theorem C3_exec_semantics_witness :
    txExec (⟨true, [(['A'], []), (['E'], []), (['B'], [])], [(['w'], 3)]⟩ : Txn)
        (fun (s : Nat) cmd _ =>
          (s + 1, if cmd = ['E'] then Except.error ['b', 'a', 'd']
            else Except.ok (respInteger s)))
        (some (fun _ => 3)) 0 =
      (.ok (some [respInteger 0, RValue.mk '-' ['b', 'a', 'd'] 0 [] false,
        respInteger 2]), resetTxn, 3) ∧
    handleExec (⟨true, [(['A'], [])], [(['w'], 3)]⟩ : Txn) (some (fun _ => 4))
        (fun (s : Nat) _ _ => (s + 1, Except.ok (respInteger s))) 0 [] =
      (RValue.mk '*' [] 0 [] true, resetTxn, 0) := by
  constructor
  · have h := (C3_exec_semantics (⟨true, [(['A'], []), (['E'], []), (['B'], [])],
      [(['w'], 3)]⟩ : Txn)
      (fun (s : Nat) cmd _ =>
        (s + 1, if cmd = ['E'] then Except.error ['b', 'a', 'd']
          else Except.ok (respInteger s)))
      (fun _ => 3) 0 rfl).2 (by decide)
    rw [h.1]
    rfl
  · have h := (C3_exec_semantics (⟨true, [(['A'], [])], [(['w'], 3)]⟩ : Txn)
      (fun (s : Nat) _ _ => (s + 1, Except.ok (respInteger s)))
      (fun _ => 4) 0 rfl).1 (by decide)
    exact h.2
/-! ## C9: snapshot persistence (internal/persistence/snapshot.go and
internal/store/snapshot.go) -/

/-- store.StringEntry: an exported string entry; ExpiresAt is a Unix
instant, 0 meaning no expiration. -/
structure StringEntry where
  Value : GoStr
  ExpiresAt : Int
deriving DecidableEq, Repr

/-- persistence.Snapshot: the four exported submaps. -/
structure GoSnapshot where
  Strings : List (GoStr × StringEntry)
  Lists : List (GoStr × List GoStr)
  Hashes : List (GoStr × List (GoStr × GoStr))
  Sets : List (GoStr × List GoStr)
deriving DecidableEq, Repr

/-- The four stores the persistence manager restores into. -/
structure Stores4 where
  strings : StrStore
  lists : ListStore
  hashes : HashStore
  sets : SetStore
deriving DecidableEq, Repr

/-- persistence.LoadResult: per-type key counts reported by Load. -/
structure LoadResult where
  StringKeys : Nat
  ListKeys : Nat
  HashKeys : Nat
  SetKeys : Nat
deriving DecidableEq, Repr

/-- The errors Load can report: the distinct missing-file error and a
decode failure. -/
inductive LoadErr where
  | noSnapshot
  | decodeFailed
deriving DecidableEq, Repr

/-- memoryStore.ImportData: install each snapshot string entry, skipping an
entry whose positive expiry instant is already strictly past. -/
def importStrings (now : Int) : StrStore → List (GoStr × StringEntry) → StrStore
  | st, [] => st
  | st, (k, e) :: rest =>
    if 0 < e.ExpiresAt then
      if e.ExpiresAt < now then importStrings now st rest
      else importStrings now (aset st k ⟨e.Value, some e.ExpiresAt⟩) rest
    else importStrings now (aset st k ⟨e.Value, none⟩) rest

/-- memoryListStore.ImportData: install every snapshot list. -/
def importLists : ListStore → List (GoStr × List GoStr) → ListStore
  | st, [] => st
  | st, (k, l) :: rest => importLists (aset st k l) rest

/-- MemoryHashStore.ImportData: install every snapshot hash. -/
def importHashes : HashStore → List (GoStr × List (GoStr × GoStr)) → HashStore
  | st, [] => st
  | st, (k, h) :: rest => importHashes (aset st k h) rest

/-- MemorySetStore.ImportData: install every snapshot set. -/
def importSets : SetStore → List (GoStr × List GoStr) → SetStore
  | st, [] => st
  | st, (k, m) :: rest => importSets (aset st k m) rest

/-- Manager.LoadFrom: decode, import every submap, and report the size of
each decoded submap as the per-type key count. -/
def loadFrom (stores : Stores4) (now : Int) :
    Except Unit GoSnapshot → Except LoadErr (LoadResult × Stores4)
  | .error _ => .error .decodeFailed
  | .ok snap =>
    .ok (⟨snap.Strings.length, snap.Lists.length, snap.Hashes.length, snap.Sets.length⟩,
      ⟨importStrings now stores.strings snap.Strings,
        importLists stores.lists snap.Lists,
        importHashes stores.hashes snap.Hashes,
        importSets stores.sets snap.Sets⟩)

/-- Manager.Load: a missing snapshot file is the distinct ErrNoSnapshot;
otherwise defer to LoadFrom on the file contents. -/
def load (stores : Stores4) (now : Int) :
    Option (Except Unit GoSnapshot) → Except LoadErr (LoadResult × Stores4)
  | none => .error .noSnapshot
  | some f => loadFrom stores now f

/-- Keys whose every snapshot string entry is expired keep their original
binding: the import skips them. -/
theorem importStrings_skipped (now : Int) (k : GoStr) :
    ∀ (entries : List (GoStr × StringEntry)) (st : StrStore),
      (∀ p ∈ entries, p.1 = k → 0 < p.2.ExpiresAt ∧ p.2.ExpiresAt < now) →
      alookup (importStrings now st entries) k = alookup st k
  | [], _, _ => rfl
  | (k2, e) :: rest, st, hall => by
    by_cases hk : k2 = k
    · obtain ⟨hpos, hlt⟩ := hall (k2, e) (List.mem_cons_self _ _) hk
      show alookup (importStrings now st ((k2, e) :: rest)) k = _
      unfold importStrings
      rw [if_pos hpos, if_pos hlt]
      exact importStrings_skipped now k rest st
        (fun p hp hpk => hall p (List.mem_cons_of_mem _ hp) hpk)
    · have step : ∀ st2, alookup (importStrings now st2 rest) k = alookup st2 k :=
        fun st2 => importStrings_skipped now k rest st2
          (fun p hp hpk => hall p (List.mem_cons_of_mem _ hp) hpk)
      show alookup (importStrings now st ((k2, e) :: rest)) k = _
      unfold importStrings
      by_cases hpos : 0 < e.ExpiresAt
      · rw [if_pos hpos]
        by_cases hlt : e.ExpiresAt < now
        · rw [if_pos hlt]; exact step st
        · rw [if_neg hlt, step (aset st k2 ⟨e.Value, some e.ExpiresAt⟩),
            alookup_aset_ne st (fun hh => hk hh.symm) ⟨e.Value, some e.ExpiresAt⟩]
      · rw [if_neg hpos, step (aset st k2 ⟨e.Value, none⟩),
          alookup_aset_ne st (fun hh => hk hh.symm) ⟨e.Value, none⟩]

/-- Every binding readable after the import is either the original binding
or an entry that is not yet expired at the load instant. -/
theorem importStrings_not_expired (now : Int) (k : GoStr) :
    ∀ (entries : List (GoStr × StringEntry)) (st : StrStore) (e : GoEntry),
      alookup (importStrings now st entries) k = some e →
      alookup st k = some e ∨ entryExpired e now = false
  | [], _, _, h => .inl h
  | (k2, e2) :: rest, st, e, h => by
    have h2 : ∀ (st2 : StrStore), alookup (importStrings now st2 rest) k = some e →
        alookup st2 k = some e ∨ entryExpired e now = false :=
      fun st2 => importStrings_not_expired now k rest st2 e
    rw [show importStrings now st ((k2, e2) :: rest) =
        (if 0 < e2.ExpiresAt then
          if e2.ExpiresAt < now then importStrings now st rest
          else importStrings now (aset st k2 ⟨e2.Value, some e2.ExpiresAt⟩) rest
        else importStrings now (aset st k2 ⟨e2.Value, none⟩) rest) from rfl] at h
    by_cases hpos : 0 < e2.ExpiresAt
    · rw [if_pos hpos] at h
      by_cases hlt : e2.ExpiresAt < now
      · rw [if_pos hlt] at h
        exact h2 st h
      · rw [if_neg hlt] at h
        rcases h2 _ h with hl | hr
        · by_cases hk : k2 = k
          · subst hk
            rw [alookup_aset] at hl
            refine .inr ?_
            rw [← Option.some_inj.mp hl]
            show decide (e2.ExpiresAt < now) = false
            simpa using hlt
          · rw [alookup_aset_ne st (fun hh => hk hh.symm) _] at hl
            exact .inl hl
        · exact .inr hr
    · rw [if_neg hpos] at h
      rcases h2 _ h with hl | hr
      · by_cases hk : k2 = k
        · subst hk
          rw [alookup_aset] at hl
          refine .inr ?_
          rw [← Option.some_inj.mp hl]
          rfl
        · rw [alookup_aset_ne st (fun hh => hk hh.symm) _] at hl
          exact .inl hl
      · exact .inr hr
/-- C9 counterexample: a snapshot holding a single string entry already
expired at load time restores nothing, yet LoadResult reports one string
key — the reported counts are decoded-submap sizes, not restored-key
counts. -/
theorem C9_snapshot_load_cex :
    load ⟨[], [], [], []⟩ 10 (some (.ok ⟨[(['k'], ⟨['v'], 5⟩)], [], [], []⟩)) =
      .ok (⟨1, 0, 0, 0⟩, ⟨[], [], [], []⟩) := by
  decide

/-- C9: Load on a missing file fails with the distinct ErrNoSnapshot and a
decode failure is reported as such; a decoded snapshot is imported submap by
submap, with every string entry whose positive expiry is already past
skipped (such keys keep their pre-load binding, and every binding readable
after the import is either the pre-load one or unexpired at load time); the
reported per-type counts are the decoded submap sizes, which include the
skipped expired string entries rather than counting only restored keys. -/
theorem C9_snapshot_load (stores : Stores4) (now : Int) (snap : GoSnapshot)
    (k : GoStr) :
    load stores now none = .error .noSnapshot ∧
    load stores now (some (.error ())) = .error .decodeFailed ∧
    load stores now (some (.ok snap)) =
      .ok (⟨snap.Strings.length, snap.Lists.length, snap.Hashes.length,
          snap.Sets.length⟩,
        ⟨importStrings now stores.strings snap.Strings,
          importLists stores.lists snap.Lists,
          importHashes stores.hashes snap.Hashes,
          importSets stores.sets snap.Sets⟩) ∧
    ((∀ p ∈ snap.Strings, p.1 = k → 0 < p.2.ExpiresAt ∧ p.2.ExpiresAt < now) →
      alookup (importStrings now stores.strings snap.Strings) k =
        alookup stores.strings k) ∧
    (∀ e, alookup (importStrings now stores.strings snap.Strings) k = some e →
      alookup stores.strings k = some e ∨ entryExpired e now = false) :=
  ⟨rfl, rfl, rfl,
    importStrings_skipped now k snap.Strings stores.strings,
    fun e => importStrings_not_expired now k snap.Strings stores.strings e⟩

/-- Witness for C9: loading a snapshot with one live and one expired string
entry at instant 10 restores only the live entry while reporting two string
keys. -/
theorem C9_snapshot_load_witness :
    load (⟨[], [], [], []⟩ : Stores4) 10
        (some (.ok ⟨[(['a'], ⟨['x'], 20⟩), (['b'], ⟨['y'], 5⟩)], [], [], []⟩)) =
      .ok (⟨2, 0, 0, 0⟩, ⟨[(['a'], ⟨['x'], some 20⟩)], [], [], []⟩) ∧
    alookup (importStrings 10 ([] : StrStore)
        [(['a'], ⟨['x'], 20⟩), (['b'], ⟨['y'], 5⟩)]) ['b'] = none := by
  have h := C9_snapshot_load (⟨[], [], [], []⟩ : Stores4) 10
    ⟨[(['a'], ⟨['x'], 20⟩), (['b'], ⟨['y'], 5⟩)], [], [], []⟩ ['b']
  refine ⟨?_, ?_⟩
  · rw [h.2.2.1]
    decide
  · rw [h.2.2.2.1 (by decide)]
    rfl
/-! ## Go path.Match (the standard library matcher behind matchPattern in
the pubsub package).  Go strings are modelled as char lists; the repository
uses ASCII channel names and patterns, where Go bytes and runes coincide. -/

/-- path.getEsc: one possibly escaped character of a character class; a
leading dash, closing bracket, dangling escape, or class-final position is a
bad pattern. -/
def getEsc : GoStr → Except Unit (Char × GoStr)
  | [] => .error ()
  | c :: rest =>
    if c = '-' ∨ c = ']' then .error ()
    else if c = '\\' then
      match rest with
      | [] => .error ()
      | r :: rest2 => if rest2.isEmpty then .error () else .ok (r, rest2)
    else if rest.isEmpty then .error () else .ok (c, rest)

/-- The range loop of matchChunk's character-class case: consume ranges
until the closing bracket, recording whether r fell in any range.  The fuel
only bounds the iteration count; every call supplies enough. -/
def classRangesF (r : Char) : Nat → GoStr → Bool → Nat → Except Unit (GoStr × Bool)
  | 0, _, _, _ => .error ()
  | fuel + 1, chunk, m, nrange =>
    if chunk.headD ' ' = ']' ∧ ¬chunk.isEmpty ∧ 0 < nrange then .ok (chunk.tail, m)
    else
      match getEsc chunk with
      | .error () => .error ()
      | .ok (lo, chunk2) =>
        if chunk2.headD ' ' = '-' then
          match getEsc chunk2.tail with
          | .error () => .error ()
          | .ok (hi, chunk3) =>
            classRangesF r fuel chunk3 (m || decide (lo ≤ r ∧ r ≤ hi)) (nrange + 1)
        else classRangesF r fuel chunk2 (m || decide (lo ≤ r ∧ r ≤ lo)) (nrange + 1)

/-- path.matchChunk: match a star-free chunk against the front of s,
threading Go's failed flag (set but still scanning so syntax errors are
reported); ok none is a failed match, ok (some t) the unmatched remainder. -/
def matchChunkF : Nat → GoStr → GoStr → Bool → Except Unit (Option GoStr)
  | 0, _, _, _ => .error ()
  | fuel + 1, chunk, s, failed =>
    match chunk with
    | [] => if failed then .ok none else .ok (some s)
    | c :: chunkRest =>
      let failed2 := failed || s.isEmpty
      if c = '[' then
        let r := if failed2 then Char.ofNat 0 else s.headD (Char.ofNat 0)
        let s2 := if failed2 then s else s.tail
        let negated : Bool := !chunkRest.isEmpty && chunkRest.headD ' ' == '^'
        let chunk2 := if negated then chunkRest.tail else chunkRest
        match classRangesF r fuel chunk2 false 0 with
        | .error () => .error ()
        | .ok (chunk3, matched) =>
          matchChunkF fuel chunk3 s2 (failed2 || (matched == negated))
      else if c = '?' then
        if failed2 then matchChunkF fuel chunkRest s true
        else matchChunkF fuel chunkRest s.tail (decide (s.headD ' ' = '/'))
      else if c = '\\' then
        match chunkRest with
        | [] => .error ()
        | c2 :: chunkRest2 =>
          if failed2 then matchChunkF fuel chunkRest2 s true
          else matchChunkF fuel chunkRest2 s.tail (decide (c2 ≠ s.headD ' '))
      else
        if failed2 then matchChunkF fuel chunkRest s true
        else matchChunkF fuel chunkRest s.tail (decide (c ≠ s.headD ' '))

/-- path.matchChunk at its natural fuel. -/
def matchChunk (chunk s : GoStr) : Except Unit (Option GoStr) :=
  matchChunkF (chunk.length + 1) chunk s false

/-- The leading-star loop of scanChunk: strip the stars, remembering whether
there was one. -/
def scanStars : GoStr → Bool × GoStr
  | [] => (false, [])
  | c :: rest => if c = '*' then (true, (scanStars rest).2) else (false, c :: rest)

/-- The chunk scan of scanChunk: take characters up to the next star that is
not inside a bracket range, an escape consuming the following character. -/
def scanBody : Bool → GoStr → GoStr × GoStr
  | _, [] => ([], [])
  | inrange, c :: rest =>
    if c = '\\' then
      match rest with
      | [] => ([c], [])
      | c2 :: rest2 =>
        let p := scanBody inrange rest2
        (c :: c2 :: p.1, p.2)
    else if c = '[' then
      let p := scanBody true rest
      (c :: p.1, p.2)
    else if c = ']' then
      let p := scanBody false rest
      (c :: p.1, p.2)
    else if c = '*' then
      if inrange then
        let p := scanBody inrange rest
        (c :: p.1, p.2)
      else ([], c :: rest)
    else
      let p := scanBody inrange rest
      (c :: p.1, p.2)

/-- path.scanChunk: the next star-free segment of the pattern, preceded or
not by a star, plus the rest of the pattern. -/
def scanChunk (pattern : GoStr) : Bool × GoStr × GoStr :=
  let sp := scanStars pattern
  let cr := scanBody false sp.2
  (sp.1, cr.1, cr.2)

/-- The star-skip loop of path.Match: try the chunk at every later position
of name, stopping at a slash; when the pattern is exhausted the chunk must
also exhaust the name. -/
def starSkipF (mc : GoStr → Except Unit (Option GoStr)) (patEmpty : Bool) :
    GoStr → Except Unit (Option GoStr)
  | [] => .ok none
  | c :: rest =>
    if c = '/' then .ok none
    else
      match mc rest with
      | .ok (some t) =>
        if patEmpty ∧ ¬t.isEmpty then starSkipF mc patEmpty rest else .ok (some t)
      | .ok none => starSkipF mc patEmpty rest
      | .error () => .error ()

/-- The trailing validation loop of path.Match: after a failed match the
rest of the pattern must still be syntactically valid. -/
def validChunksF : Nat → GoStr → Bool
  | 0, _ => false
  | fuel + 1, pattern =>
    match pattern with
    | [] => true
    | _ :: _ =>
      let sc := scanChunk pattern
      match matchChunkF (sc.2.1.length + 1) sc.2.1 [] false with
      | .error () => false
      | .ok _ => validChunksF fuel sc.2.2

/-- The final return false path of path.Match: validate the rest of the
pattern first. -/
def goValidPart (rest : GoStr) : Except Unit Bool :=
  if validChunksF (rest.length + 1) rest then .ok false else .error ()

/-- The star branch of path.Match: skip forward through the name retrying
the chunk, resuming the main loop on a hit; go stands for the main loop. -/
def goStarPart (go : GoStr → GoStr → Except Unit Bool) (chunk rest name : GoStr) :
    Except Unit Bool :=
  match starSkipF (fun s => matchChunkF (chunk.length + 1) chunk s false)
      rest.isEmpty name with
  | .error () => .error ()
  | .ok (some t) => go rest t
  | .ok none => goValidPart rest

/-- What follows the per-chunk matchChunk call in path.Match: commit and
continue when the chunk matched and either the name is exhausted or pattern
remains, else try the star skip, else validate and report no match. -/
def goAfter (go : GoStr → GoStr → Except Unit Bool) (star : Bool)
    (chunk rest name : GoStr) : Option GoStr → Except Unit Bool
  | some t =>
    if t.isEmpty ∨ ¬rest.isEmpty then go rest t
    else if star then goStarPart go chunk rest name else goValidPart rest
  | none => if star then goStarPart go chunk rest name else goValidPart rest

/-- path.Match: chunk by chunk, a star chunk retrying at every slash-free
skip of the name.  The fuel only bounds the chunk count; matchPattern
supplies enough. -/
def goMatchF : Nat → GoStr → GoStr → Except Unit Bool
  | 0, _, _ => .error ()
  | fuel + 1, pattern, name =>
    match pattern with
    | [] => .ok name.isEmpty
    | _ :: _ =>
      let sc := scanChunk pattern
      if sc.1 ∧ sc.2.1.isEmpty then .ok (!name.contains '/')
      else
        match matchChunkF (sc.2.1.length + 1) sc.2.1 name false with
        | .error () => .error ()
        | .ok r => goAfter (goMatchF fuel) sc.1 sc.2.1 sc.2.2 name r

/-- pubsub.matchPattern: path.Match with a bad pattern reported as no
match. -/
def matchPattern (pattern channel : GoStr) : Bool :=
  match goMatchF (pattern.length + 1) pattern channel with
  | .ok b => b
  | .error () => false

example : matchPattern ['n', 'e', 'w', 's', '.', '*'] ['n', 'e', 'w', 's', '.', 't', 'e', 'c', 'h'] = true := by decide
example : matchPattern ['*'] ['a', '/', 'b'] = false := by decide
example : matchPattern ['?'] ['/'] = false := by decide
example : matchPattern ['[', 'a', 'b', ']'] ['b'] = true := by decide
example : matchPattern ['a', '*', 'c'] ['a', 'b', 'b', 'c'] = true := by decide
/-! ## C6: PubSub.Publish (src/unnamed/part_009).  Subscribers are named by
numeric ids standing in for the Go pointers; each subscriber's buffered
Messages channel is modelled by the list of messages it currently holds.
Every live Go subscriber has a channel, so an absent queue entry stands for
an empty buffer. -/

/-- pubsub.MessageBufferSize. -/
def MessageBufferSize : Nat := 100

/-- A subscriber identity. -/
abbrev SubId := Nat

/-- pubsub.Message (the Type field is renamed MType; Type is reserved in
Lean). -/
structure Message where
  MType : GoStr
  Channel : GoStr
  Pattern : GoStr
  Payload : GoStr
  Count : Int
deriving DecidableEq, Repr

/-- Literal Go string: message -/
def messageStr : GoStr := ['m', 'e', 's', 's', 'a', 'g', 'e']

/-- Literal Go string: pmessage -/
def pmessageStr : GoStr := ['p', 'm', 'e', 's', 's', 'a', 'g', 'e']

/-- The buffered channels of all subscribers. -/
abbrev Queues := List (SubId × List Message)

/-- PubSub.sendMessage: the non-blocking select offer on the subscriber's
buffered channel — append when below capacity, report a drop otherwise. -/
def sendMessage (queues : Queues) (sub : SubId) (msg : Message) : Bool × Queues :=
  let q := (alookup queues sub).getD []
  if q.length < MessageBufferSize then (true, aset queues sub (q ++ [msg]))
  else (false, queues)

/-- The subscriber loop of Publish for one group: offer the record to each
subscriber, counting the successes. -/
def sendToSubs (msg : Message) : Queues → List SubId → Nat × Queues
  | qs, [] => (0, qs)
  | qs, sub :: rest =>
    let (ok2, qs2) := sendMessage qs sub msg
    let (n, qs3) := sendToSubs msg qs2 rest
    ((if ok2 then 1 else 0) + n, qs3)

/-- The pattern loop of Publish: every pattern whose glob matches the
channel delivers a pmessage record to its subscribers. -/
def publishPatterns (channel payload : GoStr) :
    Queues → List (GoStr × List SubId) → Nat × Queues
  | qs, [] => (0, qs)
  | qs, (pat, subs) :: rest =>
    if matchPattern pat channel then
      let (n1, qs2) := sendToSubs ⟨pmessageStr, channel, pat, payload, 0⟩ qs subs
      let (n2, qs3) := publishPatterns channel payload qs2 rest
      (n1 + n2, qs3)
    else publishPatterns channel payload qs rest

/-- The pub/sub registry as Publish reads it: channel subscribers, pattern
subscribers, and every subscriber's buffered channel. -/
structure PubSubSt where
  channels : List (GoStr × List SubId)
  patterns : List (GoStr × List SubId)
  queues : Queues
deriving DecidableEq, Repr

/-- PubSub.Publish: offer a message record to each direct subscriber and a
pmessage record to each subscriber of each matching pattern, returning the
number of successful offers. -/
def publish (st : PubSubSt) (channel payload : GoStr) : Nat × PubSubSt :=
  let direct := (alookup st.channels channel).getD []
  let (n1, qs2) := sendToSubs ⟨messageStr, channel, [], payload, 0⟩ st.queues direct
  let (n2, qs3) := publishPatterns channel payload qs2 st.patterns
  (n1 + n2, ⟨st.channels, st.patterns, qs3⟩)

/-- Modelled from the spec: the pmessage offers of the matching patterns, a
record per subscriber of each pattern whose glob matches the channel. -/
def patternOffers (channel payload : GoStr) : List (GoStr × List SubId) → List (SubId × Message)
  | [] => []
  | (pat, subs) :: rest =>
    if matchPattern pat channel then
      subs.map (fun s => (s, ⟨pmessageStr, channel, pat, payload, 0⟩)) ++
        patternOffers channel payload rest
    else patternOffers channel payload rest

/-- Modelled from the spec: the full list of offers a publish makes — a
message record per direct subscriber, then a pmessage record per subscriber
of each pattern matching the channel. -/
def offers (st : PubSubSt) (channel payload : GoStr) : List (SubId × Message) :=
  ((alookup st.channels channel).getD []).map
    (fun s => (s, ⟨messageStr, channel, [], payload, 0⟩)) ++
  patternOffers channel payload st.patterns

/-- Modelled from the spec: process the offers in order; an offer to a
subscriber whose queue is below capacity appends the record and counts, a
full queue drops the record uncounted and unchanged. -/
def applyOffers : Queues → List (SubId × Message) → Nat × Queues
  | qs, [] => (0, qs)
  | qs, (sub, msg) :: rest =>
    let q := (alookup qs sub).getD []
    if q.length < MessageBufferSize then
      let (n, qs2) := applyOffers (aset qs sub (q ++ [msg])) rest
      (n + 1, qs2)
    else applyOffers qs rest

/-- applyOffers splits over list append. -/
theorem applyOffers_append :
    ∀ (l1 l2 : List (SubId × Message)) (qs : Queues),
      applyOffers qs (l1 ++ l2) =
        ((applyOffers qs l1).1 + (applyOffers (applyOffers qs l1).2 l2).1,
          (applyOffers (applyOffers qs l1).2 l2).2)
  | [], l2, qs => by
    show applyOffers qs l2 = ((0 : Nat) + (applyOffers qs l2).1, (applyOffers qs l2).2)
    rw [Nat.zero_add]
  | (sub, msg) :: rest, l2, qs => by
    show applyOffers qs ((sub, msg) :: (rest ++ l2)) = _
    by_cases hq : ((alookup qs sub).getD []).length < MessageBufferSize
    · have h1 : applyOffers qs ((sub, msg) :: (rest ++ l2)) =
          ((applyOffers (aset qs sub (((alookup qs sub).getD []) ++ [msg])) (rest ++ l2)).1 + 1,
            (applyOffers (aset qs sub (((alookup qs sub).getD []) ++ [msg])) (rest ++ l2)).2) := by
        show (if ((alookup qs sub).getD []).length < MessageBufferSize then _ else _) = _
        rw [if_pos hq]
      have h2 : applyOffers qs ((sub, msg) :: rest) =
          ((applyOffers (aset qs sub (((alookup qs sub).getD []) ++ [msg])) rest).1 + 1,
            (applyOffers (aset qs sub (((alookup qs sub).getD []) ++ [msg])) rest).2) := by
        show (if ((alookup qs sub).getD []).length < MessageBufferSize then _ else _) = _
        rw [if_pos hq]
      rw [h1, h2, applyOffers_append rest l2]
      dsimp only []
      rw [Prod.mk.injEq]
      exact ⟨by omega, rfl⟩
    · have h1 : applyOffers qs ((sub, msg) :: (rest ++ l2)) =
          applyOffers qs (rest ++ l2) := by
        show (if ((alookup qs sub).getD []).length < MessageBufferSize then _ else _) = _
        rw [if_neg hq]
      have h2 : applyOffers qs ((sub, msg) :: rest) = applyOffers qs rest := by
        show (if ((alookup qs sub).getD []).length < MessageBufferSize then _ else _) = _
        rw [if_neg hq]
      rw [h1, h2, applyOffers_append rest l2]

/-- The per-group subscriber loop is the offer fold on the mapped group. -/
theorem sendToSubs_eq_applyOffers (msg : Message) :
    ∀ (subs : List SubId) (qs : Queues),
      sendToSubs msg qs subs = applyOffers qs (subs.map (fun s => (s, msg)))
  | [], _ => rfl
  | sub :: rest, qs => by
    show (let p := sendMessage qs sub msg
      let p2 := sendToSubs msg p.2 rest
      ((if p.1 then 1 else 0) + p2.1, p2.2)) = _
    unfold sendMessage
    by_cases hq : ((alookup qs sub).getD []).length < MessageBufferSize
    · rw [if_pos hq]
      show (1 + (sendToSubs msg (aset qs sub (((alookup qs sub).getD []) ++ [msg])) rest).1,
          (sendToSubs msg (aset qs sub (((alookup qs sub).getD []) ++ [msg])) rest).2) = _
      rw [sendToSubs_eq_applyOffers msg rest]
      show _ = applyOffers qs ((sub, msg) :: rest.map (fun s => (s, msg)))
      have h2 : applyOffers qs ((sub, msg) :: rest.map (fun s => (s, msg))) =
          ((applyOffers (aset qs sub (((alookup qs sub).getD []) ++ [msg]))
              (rest.map (fun s => (s, msg)))).1 + 1,
            (applyOffers (aset qs sub (((alookup qs sub).getD []) ++ [msg]))
              (rest.map (fun s => (s, msg)))).2) := by
        show (if ((alookup qs sub).getD []).length < MessageBufferSize then _ else _) = _
        rw [if_pos hq]
      rw [h2]
      rw [Prod.mk.injEq]
      exact ⟨by omega, rfl⟩
    · rw [if_neg hq]
      show ((0 : Nat) + (sendToSubs msg qs rest).1, (sendToSubs msg qs rest).2) = _
      rw [sendToSubs_eq_applyOffers msg rest]
      show _ = applyOffers qs ((sub, msg) :: rest.map (fun s => (s, msg)))
      have h2 : applyOffers qs ((sub, msg) :: rest.map (fun s => (s, msg))) =
          applyOffers qs (rest.map (fun s => (s, msg))) := by
        show (if ((alookup qs sub).getD []).length < MessageBufferSize then _ else _) = _
        rw [if_neg hq]
      rw [h2, Nat.zero_add]

/-- The pattern loop is the offer fold on the flattened matching groups. -/
theorem publishPatterns_eq_applyOffers (channel payload : GoStr) :
    ∀ (pats : List (GoStr × List SubId)) (qs : Queues),
      publishPatterns channel payload qs pats =
        applyOffers qs (patternOffers channel payload pats)
  | [], _ => rfl
  | (pat, subs) :: rest, qs => by
    by_cases hm : matchPattern pat channel
    · have h1 : publishPatterns channel payload qs ((pat, subs) :: rest) =
          ((sendToSubs ⟨pmessageStr, channel, pat, payload, 0⟩ qs subs).1 +
            (publishPatterns channel payload
              (sendToSubs ⟨pmessageStr, channel, pat, payload, 0⟩ qs subs).2 rest).1,
            (publishPatterns channel payload
              (sendToSubs ⟨pmessageStr, channel, pat, payload, 0⟩ qs subs).2 rest).2) := by
        show (if matchPattern pat channel then _ else _) = _
        rw [if_pos hm]
      have h2 : patternOffers channel payload ((pat, subs) :: rest) =
          subs.map (fun s => (s, ⟨pmessageStr, channel, pat, payload, 0⟩)) ++
            patternOffers channel payload rest := by
        show (if matchPattern pat channel then _ else _) = _
        rw [if_pos hm]
      rw [h1, h2, applyOffers_append, ← sendToSubs_eq_applyOffers,
        publishPatterns_eq_applyOffers channel payload rest]
    · have h1 : publishPatterns channel payload qs ((pat, subs) :: rest) =
          publishPatterns channel payload qs rest := by
        show (if matchPattern pat channel then _ else _) = _
        rw [if_neg hm]
      have h2 : patternOffers channel payload ((pat, subs) :: rest) =
          patternOffers channel payload rest := by
        show (if matchPattern pat channel then _ else _) = _
        rw [if_neg hm]
      rw [h1, h2, publishPatterns_eq_applyOffers channel payload rest]
/-- Publish is exactly the in-order offer fold over the offer list, leaving
the subscription registries untouched. -/
theorem publish_eq_applyOffers (st : PubSubSt) (channel payload : GoStr) :
    publish st channel payload =
      ((applyOffers st.queues (offers st channel payload)).1,
        ⟨st.channels, st.patterns,
          (applyOffers st.queues (offers st channel payload)).2⟩) := by
  show ((sendToSubs ⟨messageStr, channel, [], payload, 0⟩ st.queues
        ((alookup st.channels channel).getD [])).1 +
      (publishPatterns channel payload
        (sendToSubs ⟨messageStr, channel, [], payload, 0⟩ st.queues
          ((alookup st.channels channel).getD [])).2 st.patterns).1,
    PubSubSt.mk st.channels st.patterns
      (publishPatterns channel payload
        (sendToSubs ⟨messageStr, channel, [], payload, 0⟩ st.queues
          ((alookup st.channels channel).getD [])).2 st.patterns).2) = _
  rw [sendToSubs_eq_applyOffers, publishPatterns_eq_applyOffers]
  show _ = ((applyOffers st.queues
      ((((alookup st.channels channel).getD []).map
        (fun s => (s, ⟨messageStr, channel, [], payload, 0⟩))) ++
        patternOffers channel payload st.patterns)).1,
    PubSubSt.mk st.channels st.patterns
      (applyOffers st.queues
        ((((alookup st.channels channel).getD []).map
          (fun s => (s, ⟨messageStr, channel, [], payload, 0⟩))) ++
          patternOffers channel payload st.patterns)).2)
  rw [applyOffers_append]

/-- The fold counts at most one per offer. -/
theorem applyOffers_le :
    ∀ (offs : List (SubId × Message)) (qs : Queues),
      (applyOffers qs offs).1 ≤ offs.length
  | [], _ => Nat.le_refl 0
  | (sub, msg) :: rest, qs => by
    show (if ((alookup qs sub).getD []).length < MessageBufferSize then
        ((applyOffers (aset qs sub (((alookup qs sub).getD []) ++ [msg])) rest).1 + 1,
          (applyOffers (aset qs sub (((alookup qs sub).getD []) ++ [msg])) rest).2)
      else applyOffers qs rest).1 ≤ rest.length + 1
    by_cases hq : ((alookup qs sub).getD []).length < MessageBufferSize
    · rw [if_pos hq]
      have := applyOffers_le rest (aset qs sub (((alookup qs sub).getD []) ++ [msg]))
      show (applyOffers (aset qs sub (((alookup qs sub).getD []) ++ [msg])) rest).1 + 1 ≤
        rest.length + 1
      omega
    · rw [if_neg hq]
      have := applyOffers_le rest qs
      show (applyOffers qs rest).1 ≤ rest.length + 1
      omega

/-- A subscriber that receives no offer keeps its buffer untouched. -/
theorem applyOffers_untouched :
    ∀ (offs : List (SubId × Message)) (qs : Queues) (s : SubId),
      (∀ p ∈ offs, p.1 ≠ s) →
      alookup (applyOffers qs offs).2 s = alookup qs s
  | [], _, _, _ => rfl
  | (sub, msg) :: rest, qs, s, hall => by
    have hs : sub ≠ s := hall (sub, msg) (List.mem_cons_self _ _)
    have hrest : ∀ p ∈ rest, p.1 ≠ s :=
      fun p hp => hall p (List.mem_cons_of_mem _ hp)
    show alookup (if ((alookup qs sub).getD []).length < MessageBufferSize then
        ((applyOffers (aset qs sub (((alookup qs sub).getD []) ++ [msg])) rest).1 + 1,
          (applyOffers (aset qs sub (((alookup qs sub).getD []) ++ [msg])) rest).2)
      else applyOffers qs rest).2 s = alookup qs s
    by_cases hq : ((alookup qs sub).getD []).length < MessageBufferSize
    · rw [if_pos hq]
      show alookup (applyOffers (aset qs sub (((alookup qs sub).getD []) ++ [msg])) rest).2 s = _
      rw [applyOffers_untouched rest _ s hrest,
        alookup_aset_ne qs (fun hh => hs hh.symm) (((alookup qs sub).getD []) ++ [msg])]
    · rw [if_neg hq]
      exact applyOffers_untouched rest qs s hrest

/-- C6: Publish offers a message record to every direct subscriber of the
channel and a pmessage record to every subscriber of every pattern whose
glob matches the channel, in order, by a non-blocking offer: a buffer below
the 100-message capacity gains the record at its tail and is counted, a full
buffer drops the record uncounted and unchanged; the returned value is the
number of successful offers, at most the number of offers, and a subscriber
receiving no offer keeps its buffer untouched. -/
theorem C6_publish_counts (st : PubSubSt) (channel payload : GoStr) (s : SubId) :
    publish st channel payload =
      ((applyOffers st.queues (offers st channel payload)).1,
        ⟨st.channels, st.patterns,
          (applyOffers st.queues (offers st channel payload)).2⟩) ∧
    (applyOffers st.queues (offers st channel payload)).1 ≤
      (offers st channel payload).length ∧
    ((∀ p ∈ offers st channel payload, p.1 ≠ s) →
      alookup (publish st channel payload).2.queues s = alookup st.queues s) ∧
    (∀ (qs : Queues) (sub : SubId) (msg : Message) (rest : List (SubId × Message)),
      applyOffers qs ((sub, msg) :: rest) =
        if ((alookup qs sub).getD []).length < MessageBufferSize then
          ((applyOffers (aset qs sub (((alookup qs sub).getD []) ++ [msg])) rest).1 + 1,
            (applyOffers (aset qs sub (((alookup qs sub).getD []) ++ [msg])) rest).2)
        else applyOffers qs rest) := by
  refine ⟨publish_eq_applyOffers st channel payload,
    applyOffers_le (offers st channel payload) st.queues, ?_, ?_⟩
  · intro hall
    rw [publish_eq_applyOffers st channel payload]
    exact applyOffers_untouched (offers st channel payload) st.queues s hall
  · intro qs sub msg rest
    show (if ((alookup qs sub).getD []).length < MessageBufferSize then _ else _) = _
    by_cases hq : ((alookup qs sub).getD []).length < MessageBufferSize
    · rw [if_pos hq]
    · rw [if_neg hq]
/-- Witness for C6: channel c has direct subscribers 1 and 2, pattern c* has
subscriber 3, subscriber 2's buffer is already at capacity; Publish returns
2, appends the message record to subscriber 1, drops subscriber 2's record,
and appends the pmessage record to subscriber 3. -/
theorem C6_publish_counts_witness :
    publish
        ⟨[(['c'], [1, 2])], [(['c', '*'], [3])],
          [(2, List.replicate 100 ⟨messageStr, ['c'], [], ['o'], 0⟩)]⟩ ['c'] ['p'] =
      (2,
        ⟨[(['c'], [1, 2])], [(['c', '*'], [3])],
          [(2, List.replicate 100 ⟨messageStr, ['c'], [], ['o'], 0⟩),
            (1, [⟨messageStr, ['c'], [], ['p'], 0⟩]),
            (3, [⟨pmessageStr, ['c'], ['c', '*'], ['p'], 0⟩])]⟩) ∧
    alookup (publish
        ⟨[(['c'], [1, 2])], [(['c', '*'], [3])],
          [(2, List.replicate 100 ⟨messageStr, ['c'], [], ['o'], 0⟩)]⟩ ['c'] ['p']).2.queues
        4 = none := by
  have h := C6_publish_counts
    ⟨[(['c'], [1, 2])], [(['c', '*'], [3])],
      [(2, List.replicate 100 ⟨messageStr, ['c'], [], ['o'], 0⟩)]⟩ ['c'] ['p'] 4
  refine ⟨?_, ?_⟩
  · rw [h.1]
    decide
  · rw [h.2.2.1 (by decide)]
    rfl
/-! ## C7: the pattern language.  Glob patterns are analysed through token
lists: a literal character, a single-character wildcard, or a run
wildcard.  render produces the concrete pattern text a client would send;
specMatch is the slash-aware glob semantics path.Match actually implements,
claimedMatch the unrestricted glob semantics of the claim. -/

/-- A glob pattern token. -/
inductive GlobTok where
  | lit (c : Char)
  | anyOne
  | anyRun
deriving DecidableEq, Repr

/-- The pattern text of one token. -/
def renderTok : GlobTok → List Char
  | .lit c => [c]
  | .anyOne => ['?']
  | .anyRun => ['*']

/-- The pattern text of a token list. -/
def render : List GlobTok → GoStr
  | [] => []
  | t :: ts => renderTok t ++ render ts

/-- The chunk character of a non-run token. -/
def tokChar : GlobTok → Char
  | .lit c => c
  | .anyOne => '?'
  | .anyRun => '*'

/-- The token fragment under study: literals are ordinary characters, not
wildcard or class or escape openers. -/
def fragTok : GlobTok → Bool
  | .lit c => decide (c ≠ '*' ∧ c ≠ '?' ∧ c ≠ '[' ∧ c ≠ '\\')
  | _ => true

/-- A pattern of ordinary literals and the two wildcards. -/
def fragOK (ts : List GlobTok) : Bool := ts.all fragTok

/-- Modelled from the spec (amended): a run wildcard consumes any number of
characters other than a slash before handing over to the continuation. -/
def specMatchRun (m : List Char → Bool) : List Char → Bool
  | [] => m []
  | x :: xs => m (x :: xs) || (decide (x ≠ '/') && specMatchRun m xs)

/-- Modelled from the spec (amended): slash-aware glob — a literal matches
itself, the single wildcard matches one non-slash character, the run
wildcard any run of non-slash characters, and the whole name must be
consumed. -/
def specMatch : List GlobTok → List Char → Bool
  | [], s => s.isEmpty
  | .lit _ :: _, [] => false
  | .lit c :: ts, x :: xs => decide (c = x) && specMatch ts xs
  | .anyOne :: _, [] => false
  | .anyOne :: ts, x :: xs => decide (x ≠ '/') && specMatch ts xs
  | .anyRun :: ts, s => specMatchRun (fun s2 => specMatch ts s2) s

/-- Modelled from the spec: the claimed semantics — the run wildcard matches
any run of characters including slashes, the single wildcard any single
character. -/
def claimedRun (m : List Char → Bool) : List Char → Bool
  | [] => m []
  | x :: xs => m (x :: xs) || claimedRun m xs

/-- Modelled from the spec: glob over the full channel name with
unrestricted wildcards. -/
def claimedMatch : List GlobTok → List Char → Bool
  | [], s => s.isEmpty
  | .lit _ :: _, [] => false
  | .lit c :: ts, x :: xs => decide (c = x) && claimedMatch ts xs
  | .anyOne :: _, [] => false
  | .anyOne :: ts, _ :: xs => claimedMatch ts xs
  | .anyRun :: ts, s => claimedRun (fun s2 => claimedMatch ts s2) s

/-- A chunk with no character class and no escape. -/
def simpleChunk (chunk : GoStr) : Bool :=
  chunk.all (fun c => decide (c ≠ '[' ∧ c ≠ '\\'))

/-- How a star-free simple chunk consumes the front of a name: a question
mark takes one non-slash character, anything else matches itself. -/
def chunkMatches : GoStr → GoStr → Bool
  | [], _ => true
  | _ :: _, [] => false
  | c :: cr, x :: xs =>
    (if c = '?' then decide (x ≠ '/') else decide (c = x)) && chunkMatches cr xs

/-- The longest run-free token prefix. -/
def chunkPre : List GlobTok → List GlobTok
  | [] => []
  | .anyRun :: _ => []
  | t :: ts => t :: chunkPre ts

/-- What follows the longest run-free token prefix. -/
def chunkSuf : List GlobTok → List GlobTok
  | [] => []
  | .anyRun :: ts => .anyRun :: ts
  | _ :: ts => chunkSuf ts

/-- Strip the leading run wildcards. -/
def stripRuns : List GlobTok → List GlobTok
  | .anyRun :: ts => stripRuns ts
  | ts => ts

/-- Whether the pattern starts with a run wildcard. -/
def leadRun : List GlobTok → Bool
  | .anyRun :: _ => true
  | _ => false

/-- C7 counterexample: the run wildcard does not cross a slash and the
single wildcard does not match one — path.Match semantics, refuting the
claimed unrestricted glob: the pattern * does not match a/b and ? does not
match /. -/
theorem C7_pattern_language_cex :
    claimedMatch [.anyRun] ['a', '/', 'b'] = true ∧
    render [.anyRun] = ['*'] ∧
    matchPattern (render [.anyRun]) ['a', '/', 'b'] = false ∧
    claimedMatch [.anyOne] ['/'] = true ∧
    render [.anyOne] = ['?'] ∧
    matchPattern (render [.anyOne]) ['/'] = false := by
  decide

/-- Every token renders to exactly one character. -/
theorem render_length : ∀ (ts : List GlobTok), (render ts).length = ts.length
  | [] => rfl
  | t :: ts => by
    show (renderTok t ++ render ts).length = ts.length + 1
    rw [List.length_append, render_length ts]
    cases t <;> simp [renderTok] <;> omega

/-- The token list splits at its first run wildcard. -/
theorem chunkPre_append_chunkSuf :
    ∀ (ts : List GlobTok), chunkPre ts ++ chunkSuf ts = ts
  | [] => rfl
  | .anyRun :: ts => rfl
  | .lit c :: ts => by
    show GlobTok.lit c :: (chunkPre ts ++ chunkSuf ts) = _
    rw [chunkPre_append_chunkSuf ts]
  | .anyOne :: ts => by
    show GlobTok.anyOne :: (chunkPre ts ++ chunkSuf ts) = _
    rw [chunkPre_append_chunkSuf ts]
/-- One step of matchChunkF on a nonempty chunk, spelled out. -/
theorem matchChunkF_cons (fuel : Nat) (c : Char) (cr s : GoStr) (failed : Bool) :
    matchChunkF (fuel + 1) (c :: cr) s failed =
      if c = '[' then
        match classRangesF (if failed || s.isEmpty then Char.ofNat 0
              else s.headD (Char.ofNat 0)) fuel
            (if (!cr.isEmpty && cr.headD ' ' == '^' : Bool) then cr.tail else cr)
            false 0 with
        | .error () => .error ()
        | .ok (chunk3, matched) =>
          matchChunkF fuel chunk3 (if failed || s.isEmpty then s else s.tail)
            ((failed || s.isEmpty) || (matched == (!cr.isEmpty && cr.headD ' ' == '^')))
      else if c = '?' then
        if failed || s.isEmpty then matchChunkF fuel cr s true
        else matchChunkF fuel cr s.tail (decide (s.headD ' ' = '/'))
      else if c = '\\' then
        match cr with
        | [] => .error ()
        | c2 :: cr2 =>
          if failed || s.isEmpty then matchChunkF fuel cr2 s true
          else matchChunkF fuel cr2 s.tail (decide (c2 ≠ s.headD ' '))
      else
        if failed || s.isEmpty then matchChunkF fuel cr s true
        else matchChunkF fuel cr s.tail (decide (c ≠ s.headD ' ')) := rfl

/-- On a simple chunk a failed match stays failed and reports no syntax
error. -/
theorem matchChunkF_failed :
    ∀ (chunk : GoStr) (fuel : Nat) (s : GoStr),
      simpleChunk chunk = true → chunk.length < fuel →
      matchChunkF fuel chunk s true = .ok none
  | [], fuel + 1, _, _, _ => rfl
  | c :: cr, fuel + 1, s, hsim, hlen => by
    have h1 : (decide (c ≠ '[' ∧ c ≠ '\\') && simpleChunk cr) = true := hsim
    rw [Bool.and_eq_true, decide_eq_true_eq] at h1
    have hcr : cr.length < fuel := by
      simp only [List.length_cons] at hlen
      omega
    rw [matchChunkF_cons, if_neg h1.1.1]
    by_cases hq : c = '?'
    · rw [if_pos hq]
      exact matchChunkF_failed cr fuel s h1.2 hcr
    · rw [if_neg hq, if_neg h1.1.2]
      exact matchChunkF_failed cr fuel s h1.2 hcr

/-- On a simple chunk matchChunkF is the straightforward front match:
success leaves the suffix after the chunk length, failure reports none, and
no syntax error arises. -/
theorem matchChunkF_simple :
    ∀ (chunk : GoStr) (fuel : Nat) (s : GoStr),
      simpleChunk chunk = true → chunk.length < fuel →
      matchChunkF fuel chunk s false =
        .ok (if chunkMatches chunk s then some (s.drop chunk.length) else none)
  | [], fuel + 1, s, _, _ => rfl
  | c :: cr, fuel + 1, s, hsim, hlen => by
    have h1 : (decide (c ≠ '[' ∧ c ≠ '\\') && simpleChunk cr) = true := hsim
    rw [Bool.and_eq_true, decide_eq_true_eq] at h1
    have hcr : cr.length < fuel := by
      simp only [List.length_cons] at hlen
      omega
    rw [matchChunkF_cons, if_neg h1.1.1]
    cases s with
    | nil =>
      by_cases hq : c = '?'
      · rw [if_pos hq]
        exact matchChunkF_failed cr fuel [] h1.2 hcr
      · rw [if_neg hq, if_neg h1.1.2]
        exact matchChunkF_failed cr fuel [] h1.2 hcr
    | cons x xs =>
      by_cases hq : c = '?'
      · subst hq
        rw [if_pos rfl]
        show matchChunkF fuel cr xs (decide (x = '/')) =
          .ok (if (decide (x ≠ '/') && chunkMatches cr xs) then
            some (xs.drop cr.length) else none)
        by_cases hx : x = '/'
        · rw [show (decide (x = '/')) = true from by simp [hx],
            show (decide (x ≠ '/')) = false from by simp [hx], Bool.false_and,
            if_neg (by simp)]
          exact matchChunkF_failed cr fuel xs h1.2 hcr
        · rw [show (decide (x = '/')) = false from by simp [hx],
            show (decide (x ≠ '/')) = true from by simp [hx], Bool.true_and]
          exact matchChunkF_simple cr fuel xs h1.2 hcr
      · rw [if_neg hq, if_neg h1.1.2]
        show matchChunkF fuel cr xs (decide (c ≠ x)) =
          .ok (if ((if c = '?' then decide (x ≠ '/') else decide (c = x)) &&
            chunkMatches cr xs) then some (xs.drop cr.length) else none)
        rw [if_neg hq]
        by_cases hcx : c = x
        · rw [show (decide (c ≠ x)) = false from by simp [hcx],
            show (decide (c = x)) = true from by simp [hcx], Bool.true_and]
          exact matchChunkF_simple cr fuel xs h1.2 hcr
        · rw [show (decide (c ≠ x)) = true from by simp [hcx],
            show (decide (c = x)) = false from by simp [hcx], Bool.false_and,
            if_neg (by simp)]
          exact matchChunkF_failed cr fuel xs h1.2 hcr

/-- A matching chunk never outruns the name. -/
theorem chunkMatches_length :
    ∀ (chunk s : GoStr), chunkMatches chunk s = true → chunk.length ≤ s.length
  | [], _, _ => Nat.zero_le _
  | _ :: _, [], h => Bool.noConfusion h
  | c :: cr, x :: xs, h => by
    have h2 : ((if c = '?' then decide (x ≠ '/') else decide (c = x)) &&
        chunkMatches cr xs) = true := h
    rw [Bool.and_eq_true] at h2
    show cr.length + 1 ≤ xs.length + 1
    exact Nat.succ_le_succ (chunkMatches_length cr xs h2.2)
/-- The fragment survives stripping leading runs. -/
theorem fragOK_stripRuns : ∀ (ts : List GlobTok),
    fragOK ts = true → fragOK (stripRuns ts) = true
  | [], h => h
  | .anyRun :: ts, h => fragOK_stripRuns ts h
  | .lit _ :: _, h => h
  | .anyOne :: _, h => h

/-- The fragment survives taking the run-free prefix. -/
theorem fragOK_chunkPre : ∀ (ts : List GlobTok),
    fragOK ts = true → fragOK (chunkPre ts) = true
  | [], h => h
  | .anyRun :: _, _ => rfl
  | .lit c :: ts, h => by
    have h1 : (fragTok (GlobTok.lit c) && fragOK ts) = true := h
    rw [Bool.and_eq_true] at h1
    show (fragTok (GlobTok.lit c) && fragOK (chunkPre ts)) = true
    rw [Bool.and_eq_true]
    exact ⟨h1.1, fragOK_chunkPre ts h1.2⟩
  | .anyOne :: ts, h => fragOK_chunkPre ts h
  

/-- The fragment survives dropping the run-free prefix. -/
theorem fragOK_chunkSuf : ∀ (ts : List GlobTok),
    fragOK ts = true → fragOK (chunkSuf ts) = true
  | [], h => h
  | .anyRun :: _, h => h
  | .lit c :: ts, h => by
    have h1 : (fragTok (GlobTok.lit c) && fragOK ts) = true := h
    rw [Bool.and_eq_true] at h1
    exact fragOK_chunkSuf ts h1.2
  | .anyOne :: ts, h => fragOK_chunkSuf ts h

/-- A rendered run-free fragment prefix is a simple chunk. -/
theorem simpleChunk_map_tokChar : ∀ (cts : List GlobTok),
    fragOK cts = true → simpleChunk (List.map tokChar cts) = true
  | [], _ => rfl
  | t :: cts, h => by
    have h1 : (fragTok t && fragOK cts) = true := h
    rw [Bool.and_eq_true] at h1
    show (decide (tokChar t ≠ '[' ∧ tokChar t ≠ '\\') &&
      simpleChunk (List.map tokChar cts)) = true
    rw [Bool.and_eq_true]
    refine ⟨?_, simpleChunk_map_tokChar cts h1.2⟩
    cases t with
    | lit c =>
      have h2 := h1.1
      rw [show fragTok (GlobTok.lit c) =
        decide (c ≠ '*' ∧ c ≠ '?' ∧ c ≠ '[' ∧ c ≠ '\\') from rfl,
        decide_eq_true_eq] at h2
      rw [decide_eq_true_eq]
      exact ⟨h2.2.2.1, h2.2.2.2⟩
    | anyOne => rfl
    | anyRun => rfl

/-- scanStars on a rendered pattern strips exactly the leading run
wildcards. -/
theorem scanStars_render : ∀ (ts : List GlobTok), fragOK ts = true →
    scanStars (render ts) = (leadRun ts, render (stripRuns ts))
  | [], _ => rfl
  | .anyRun :: ts, h => by
    show scanStars ('*' :: render ts) = (true, render (stripRuns ts))
    show (true, (scanStars (render ts)).2) = _
    rw [scanStars_render ts h]
  | .lit c :: ts, h => by
    have h1 : (decide (c ≠ '*' ∧ c ≠ '?' ∧ c ≠ '[' ∧ c ≠ '\\') && fragOK ts) = true := h
    rw [Bool.and_eq_true, decide_eq_true_eq] at h1
    show (if c = '*' then (true, (scanStars (render ts)).2)
      else (false, c :: render ts)) = (false, c :: render ts)
    rw [if_neg h1.1.1]
  | .anyOne :: _, _ => rfl

/-- One step of scanBody on a nonempty pattern, spelled out. -/
theorem scanBody_cons (inrange : Bool) (c : Char) (rest : GoStr) :
    scanBody inrange (c :: rest) =
      if c = '\\' then
        match rest with
        | [] => ([c], [])
        | c2 :: rest2 => (c :: c2 :: (scanBody inrange rest2).1, (scanBody inrange rest2).2)
      else if c = '[' then (c :: (scanBody true rest).1, (scanBody true rest).2)
      else if c = ']' then (c :: (scanBody false rest).1, (scanBody false rest).2)
      else if c = '*' then
        if inrange then (c :: (scanBody inrange rest).1, (scanBody inrange rest).2)
        else ([], c :: rest)
      else (c :: (scanBody inrange rest).1, (scanBody inrange rest).2) := by
  rw [scanBody.eq_def]
  rfl

/-- scanBody on a rendered pattern takes exactly the run-free token prefix
as the chunk. -/
theorem scanBody_render : ∀ (ts : List GlobTok), fragOK ts = true →
    scanBody false (render ts) =
      (List.map tokChar (chunkPre ts), render (chunkSuf ts))
  | [], _ => by
    rw [scanBody.eq_def]
    rfl
  | .anyRun :: ts, _ => by
    show scanBody false ('*' :: render ts) = ([], '*' :: render ts)
    rw [scanBody_cons]
    rfl
  | .lit c :: ts, h => by
    have h1 : (decide (c ≠ '*' ∧ c ≠ '?' ∧ c ≠ '[' ∧ c ≠ '\\') && fragOK ts) = true := h
    rw [Bool.and_eq_true, decide_eq_true_eq] at h1
    show scanBody false (c :: render ts) =
      (c :: List.map tokChar (chunkPre ts), render (chunkSuf ts))
    rw [scanBody_cons, if_neg h1.1.2.2.2, if_neg h1.1.2.2.1]
    by_cases hcb : c = ']'
    · rw [if_pos hcb, scanBody_render ts h1.2]
    · rw [if_neg hcb, if_neg h1.1.1, scanBody_render ts h1.2]
  | .anyOne :: ts, h => by
    show scanBody false ('?' :: render ts) =
      ('?' :: List.map tokChar (chunkPre ts), render (chunkSuf ts))
    rw [scanBody_cons]
    show ('?' :: (scanBody false (render ts)).1, (scanBody false (render ts)).2) = _
    rw [scanBody_render ts h]

/-- scanChunk on a rendered fragment pattern: the star flag is the leading
run, the chunk is the next run-free token prefix, the rest the remaining
pattern text. -/
theorem scanChunk_render (ts : List GlobTok) (h : fragOK ts = true) :
    scanChunk (render ts) =
      (leadRun ts, List.map tokChar (chunkPre (stripRuns ts)),
        render (chunkSuf (stripRuns ts))) := by
  show ((scanStars (render ts)).1,
    (scanBody false (scanStars (render ts)).2).1,
    (scanBody false (scanStars (render ts)).2).2) = _
  rw [scanStars_render ts h]
  show (leadRun ts, (scanBody false (render (stripRuns ts))).1,
    (scanBody false (render (stripRuns ts))).2) = _
  rw [scanBody_render (stripRuns ts) (fragOK_stripRuns ts h)]
/-- specMatch on the empty token list. -/
theorem specMatch_nil (s : GoStr) : specMatch [] s = s.isEmpty := rfl

/-- specMatch on a literal token and the empty name. -/
theorem specMatch_lit_nil (c : Char) (ts : List GlobTok) :
    specMatch (.lit c :: ts) [] = false := rfl

/-- specMatch on a literal token. -/
theorem specMatch_lit_cons (c : Char) (ts : List GlobTok) (x : Char) (xs : GoStr) :
    specMatch (.lit c :: ts) (x :: xs) = (decide (c = x) && specMatch ts xs) := rfl

/-- specMatch on the single wildcard and the empty name. -/
theorem specMatch_one_nil (ts : List GlobTok) :
    specMatch (.anyOne :: ts) [] = false := rfl

/-- specMatch on the single wildcard. -/
theorem specMatch_one_cons (ts : List GlobTok) (x : Char) (xs : GoStr) :
    specMatch (.anyOne :: ts) (x :: xs) = (decide (x ≠ '/') && specMatch ts xs) := rfl

/-- specMatch on the run wildcard. -/
theorem specMatch_run (ts : List GlobTok) (s : GoStr) :
    specMatch (.anyRun :: ts) s = specMatchRun (fun s2 => specMatch ts s2) s := rfl

/-- The run wildcard matches exactly a slash-free skip followed by the
continuation. -/
theorem specMatchRun_iff (m : GoStr → Bool) :
    ∀ (s : GoStr), specMatchRun m s = true ↔
      ∃ n, n ≤ s.length ∧ ((s.take n).all (fun c => decide (c ≠ '/'))) = true ∧
        m (s.drop n) = true
  | [] => by
    show m [] = true ↔ _
    constructor
    · intro h
      exact ⟨0, Nat.le_refl 0, rfl, h⟩
    · rintro ⟨n, hn, _, hm⟩
      have hn0 : n = 0 := Nat.le_zero.mp hn
      subst hn0
      exact hm
  | x :: xs => by
    show (m (x :: xs) || (decide (x ≠ '/') && specMatchRun m xs)) = true ↔ _
    rw [Bool.or_eq_true, Bool.and_eq_true]
    constructor
    · rintro (h | ⟨hx, hr⟩)
      · exact ⟨0, Nat.zero_le _, rfl, h⟩
      · obtain ⟨n, hn, hall, hm⟩ := (specMatchRun_iff m xs).mp hr
        refine ⟨n + 1, Nat.succ_le_succ hn, ?_, hm⟩
        show (x :: xs.take n).all (fun c => decide (c ≠ '/')) = true
        rw [List.all_cons, Bool.and_eq_true]
        exact ⟨hx, hall⟩
    · rintro ⟨n, hn, hall, hm⟩
      cases n with
      | zero => exact Or.inl hm
      | succ k =>
        refine Or.inr ⟨?_, ?_⟩
        · have : (x :: xs.take k).all (fun c => decide (c ≠ '/')) = true := hall
          rw [List.all_cons, Bool.and_eq_true] at this
          exact this.1
        · refine (specMatchRun_iff m xs).mpr ⟨k, Nat.le_of_succ_le_succ hn, ?_, hm⟩
          have : (x :: xs.take k).all (fun c => decide (c ≠ '/')) = true := hall
          rw [List.all_cons, Bool.and_eq_true] at this
          exact this.2

/-- A run match of a suffix extends across a slash-free skip. -/
theorem specMatchRun_skip (m : GoStr → Bool) (s : GoStr) (n : Nat)
    (hn : n ≤ s.length) (hall : ((s.take n).all (fun c => decide (c ≠ '/'))) = true)
    (hm : specMatchRun m (s.drop n) = true) : specMatchRun m s = true := by
  obtain ⟨k, hk, hkall, hkm⟩ := (specMatchRun_iff m (s.drop n)).mp hm
  refine (specMatchRun_iff m s).mpr ⟨n + k, ?_, ?_, ?_⟩
  · rw [List.length_drop] at hk
    omega
  · rw [List.take_add, List.all_append, Bool.and_eq_true]
    exact ⟨hall, hkall⟩
  · rw [List.drop_drop] at hkm
    exact hkm

/-- specMatchRun respects pointwise equal continuations. -/
theorem specMatchRun_congr (m m2 : GoStr → Bool) (h : ∀ s2, m s2 = m2 s2) :
    ∀ (s : GoStr), specMatchRun m s = specMatchRun m2 s
  | [] => h []
  | x :: xs => by
    show (m (x :: xs) || (decide (x ≠ '/') && specMatchRun m xs)) = _
    rw [h (x :: xs), specMatchRun_congr m m2 h xs]
    rfl

/-- Consecutive run wildcards collapse. -/
theorem specMatchRun_idem (m : GoStr → Bool) (s : GoStr) :
    specMatchRun (fun s2 => specMatchRun m s2) s = specMatchRun m s := by
  rw [Bool.eq_iff_iff]
  constructor
  · intro h
    obtain ⟨n, hn, hall, hm⟩ := (specMatchRun_iff (fun s2 => specMatchRun m s2) s).mp h
    exact specMatchRun_skip m s n hn hall hm
  · intro h
    exact (specMatchRun_iff (fun s2 => specMatchRun m s2) s).mpr
      ⟨0, Nat.zero_le _, rfl, h⟩

/-- A trailing run wildcard accepts exactly the slash-free names. -/
theorem specMatchRun_isEmpty :
    ∀ (name : GoStr), specMatchRun (fun s2 => s2.isEmpty) name = !name.contains '/'
  | [] => rfl
  | x :: xs => by
    show (false || (decide (x ≠ '/') && specMatchRun (fun s2 => s2.isEmpty) xs)) = _
    rw [Bool.false_or, specMatchRun_isEmpty xs]
    by_cases hx : x = '/'
    · simp [hx]
    · simp [hx]
      intro _
      exact fun hh => hx hh.symm

/-- A list with no leading run wildcard strips to itself. -/
theorem stripRuns_of_not_lead :
    ∀ (ts : List GlobTok), leadRun ts = false → stripRuns ts = ts
  | [], _ => rfl
  | .anyRun :: _, h => Bool.noConfusion h
  | .lit _ :: _, _ => rfl
  | .anyOne :: _, _ => rfl

/-- The stripped list has no leading run wildcard. -/
theorem leadRun_stripRuns : ∀ (ts : List GlobTok), leadRun (stripRuns ts) = false
  | [] => rfl
  | .anyRun :: ts => leadRun_stripRuns ts
  | .lit _ :: _ => rfl
  | .anyOne :: _ => rfl

/-- Leading run wildcards collapse to a single one over the stripped
pattern. -/
theorem specMatch_stripRuns :
    ∀ (ts : List GlobTok), leadRun ts = true → ∀ (s : GoStr),
      specMatch ts s = specMatchRun (fun s2 => specMatch (stripRuns ts) s2) s
  | .anyRun :: ts2, _, s => by
    rw [specMatch_run]
    cases hl : leadRun ts2 with
    | false =>
      rw [show stripRuns (GlobTok.anyRun :: ts2) = stripRuns ts2 from rfl,
        stripRuns_of_not_lead ts2 hl]
    | true =>
      rw [specMatchRun_congr (fun s2 => specMatch ts2 s2)
        (fun s2 => specMatchRun (fun s3 => specMatch (stripRuns ts2) s3) s2)
        (fun s2 => specMatch_stripRuns ts2 hl s2) s]
      rw [specMatchRun_idem]
      rfl
/-- A run-free token list. -/
def runFree (cts : List GlobTok) : Bool := cts.all (fun t => decide (t ≠ .anyRun))

/-- The run-free prefix is run-free. -/
theorem runFree_chunkPre : ∀ (ts : List GlobTok), runFree (chunkPre ts) = true
  | [] => rfl
  | .anyRun :: _ => rfl
  | .lit c :: ts => by
    show (decide (GlobTok.lit c ≠ .anyRun) && runFree (chunkPre ts)) = true
    rw [Bool.and_eq_true]
    exact ⟨by simp, runFree_chunkPre ts⟩
  | .anyOne :: ts => by
    show (decide (GlobTok.anyOne ≠ .anyRun) && runFree (chunkPre ts)) = true
    rw [Bool.and_eq_true]
    exact ⟨by simp, runFree_chunkPre ts⟩

/-- specMatch across a run-free fragment prefix is the chunk front match
followed by the remainder. -/
theorem specMatch_chunk :
    ∀ (cts : List GlobTok) (rest : List GlobTok) (s : GoStr),
      fragOK cts = true → runFree cts = true →
      specMatch (cts ++ rest) s =
        if chunkMatches (List.map tokChar cts) s then
          specMatch rest (s.drop cts.length)
        else false
  | [], rest, s, _, _ => rfl
  | .anyRun :: _, _, _, _, hr => Bool.noConfusion hr
  | .lit c :: cts, rest, s, hf, hr => by
    have hf1 : (decide (c ≠ '*' ∧ c ≠ '?' ∧ c ≠ '[' ∧ c ≠ '\\') && fragOK cts) = true := hf
    rw [Bool.and_eq_true, decide_eq_true_eq] at hf1
    have hr1 : runFree cts = true := by
      have h2 : (decide (GlobTok.lit c ≠ .anyRun) && runFree cts) = true := hr
      rw [Bool.and_eq_true] at h2
      exact h2.2
    cases s with
    | nil =>
      rw [show (GlobTok.lit c :: cts) ++ rest = GlobTok.lit c :: (cts ++ rest) from rfl,
        specMatch_lit_nil]
      rfl
    | cons x xs =>
      rw [show (GlobTok.lit c :: cts) ++ rest = GlobTok.lit c :: (cts ++ rest) from rfl,
        specMatch_lit_cons, specMatch_chunk cts rest xs hf1.2 hr1]
      show _ = if ((if c = '?' then decide (x ≠ '/') else decide (c = x)) &&
        chunkMatches (List.map tokChar cts) xs) = true then
        specMatch rest (xs.drop cts.length) else false
      rw [if_neg hf1.1.2.1]
      by_cases hcx : c = x
      · rw [show (decide (c = x)) = true from by simp [hcx], Bool.true_and, Bool.true_and]
      · rw [show (decide (c = x)) = false from by simp [hcx], Bool.false_and, Bool.false_and]
        rfl
  | .anyOne :: cts, rest, s, hf, hr => by
    have hf1 : fragOK cts = true := hf
    have hr1 : runFree cts = true := by
      have h2 : (decide (GlobTok.anyOne ≠ .anyRun) && runFree cts) = true := hr
      rw [Bool.and_eq_true] at h2
      exact h2.2
    cases s with
    | nil =>
      rw [show (GlobTok.anyOne :: cts) ++ rest = GlobTok.anyOne :: (cts ++ rest) from rfl,
        specMatch_one_nil]
      rfl
    | cons x xs =>
      rw [show (GlobTok.anyOne :: cts) ++ rest = GlobTok.anyOne :: (cts ++ rest) from rfl,
        specMatch_one_cons, specMatch_chunk cts rest xs hf1 hr1]
      show _ = if ((if ('?' : Char) = '?' then decide (x ≠ '/') else decide ('?' = x)) &&
        chunkMatches (List.map tokChar cts) xs) = true then
        specMatch rest (xs.drop cts.length) else false
      rw [if_pos rfl]
      by_cases hx : x = '/'
      · rw [show (decide (x ≠ '/')) = false from by simp [hx], Bool.false_and, Bool.false_and]
        rfl
      · rw [show (decide (x ≠ '/')) = true from by simp [hx], Bool.true_and, Bool.true_and]

/-- all over a take, phrased positionally. -/
theorem all_take_get? (p : Char → Bool) :
    ∀ (l : GoStr) (n : Nat),
      ((l.take n).all p = true ↔ ∀ i, i < n → ∀ a, l.get? i = some a → p a = true)
  | [], n => by
    constructor
    · intro _ i _ a ha
      rw [show (List.get? ([] : GoStr) i) = none from by cases i <;> rfl] at ha
      exact Option.noConfusion ha
    · intro _
      rw [show (List.take n ([] : GoStr)) = [] from by cases n <;> rfl]
      rfl
  | x :: xs, 0 => by
    constructor
    · intro _ i hi
      omega
    · intro _
      rfl
  | x :: xs, n + 1 => by
    rw [show (x :: xs).take (n + 1) = x :: xs.take n from rfl, List.all_cons,
      Bool.and_eq_true, all_take_get? p xs n]
    constructor
    · rintro ⟨hx, hrest⟩ i hi a ha
      cases i with
      | zero =>
        rw [show (x :: xs).get? 0 = some x from rfl] at ha
        rw [← Option.some_inj.mp ha]
        exact hx
      | succ k =>
        exact hrest k (by omega) a ha
    · intro h
      refine ⟨h 0 (by omega) x rfl, fun i hi a ha => h (i + 1) (by omega) a ha⟩

/-- A slash-free chunk only matches slash-free text. -/
theorem chunkMatches_region :
    ∀ (chunk s : GoStr),
      (chunk.all (fun c => decide (c ≠ '/'))) = true →
      chunkMatches chunk s = true →
      ((s.take chunk.length).all (fun c => decide (c ≠ '/'))) = true
  | [], _, _, _ => rfl
  | _ :: _, [], _, h => Bool.noConfusion h
  | c :: cr, x :: xs, hall, h => by
    have hall2 : (decide (c ≠ '/') && cr.all (fun c2 => decide (c2 ≠ '/'))) = true := hall
    rw [Bool.and_eq_true, decide_eq_true_eq] at hall2
    have h2 : ((if c = '?' then decide (x ≠ '/') else decide (c = x)) &&
        chunkMatches cr xs) = true := h
    rw [Bool.and_eq_true] at h2
    have hx : x ≠ '/' := by
      by_cases hq : c = '?'
      · rw [if_pos hq, decide_eq_true_eq] at h2
        exact h2.1
      · rw [if_neg hq, decide_eq_true_eq] at h2
        rw [← h2.1]
        exact hall2.1
    show ((x :: xs.take cr.length).all (fun c2 => decide (c2 ≠ '/'))) = true
    rw [List.all_cons, Bool.and_eq_true]
    exact ⟨by simp [hx], chunkMatches_region cr xs hall2.2 h2.2⟩

/-- A chunk that is not slash-free has a first slash. -/
theorem firstSlash :
    ∀ (chunk : GoStr), (chunk.all (fun c => decide (c ≠ '/'))) = false →
      ∃ j, j < chunk.length ∧ ((chunk.take j).all (fun c => decide (c ≠ '/'))) = true ∧
        chunk.get? j = some '/'
  | [], h => Bool.noConfusion h
  | c :: cr, h => by
    by_cases hc : c = '/'
    · exact ⟨0, by simp, rfl, by rw [hc]; rfl⟩
    · have h2 : (decide (c ≠ '/') && cr.all (fun c2 => decide (c2 ≠ '/'))) = false := h
      rw [show (decide (c ≠ '/')) = true from by simp [hc], Bool.true_and] at h2
      obtain ⟨j, hj, hjall, hjget⟩ := firstSlash cr h2
      refine ⟨j + 1, by simp; omega, ?_, hjget⟩
      show ((c :: cr.take j).all (fun c2 => decide (c2 ≠ '/'))) = true
      rw [List.all_cons, Bool.and_eq_true]
      exact ⟨by simp [hc], hjall⟩

/-- A chunk whose first slash sits at position j forces a slash at position
j of the name, after a slash-free stretch. -/
theorem chunkMatches_at_slash :
    ∀ (chunk s : GoStr) (j : Nat),
      ((chunk.take j).all (fun c => decide (c ≠ '/'))) = true →
      chunk.get? j = some '/' →
      chunkMatches chunk s = true →
      ((s.take j).all (fun c => decide (c ≠ '/'))) = true ∧ s.get? j = some '/'
  | [], _, j, _, hget, _ => by
    rw [show (List.get? ([] : GoStr) j) = none from by cases j <;> rfl] at hget
    exact Option.noConfusion hget
  | _ :: _, [], _, _, _, h => Bool.noConfusion h
  | c :: cr, x :: xs, 0, _, hget, h => by
    have hc : c = '/' := by
      rw [show (c :: cr).get? 0 = some c from rfl] at hget
      exact Option.some_inj.mp hget
    have h2 : ((if c = '?' then decide (x ≠ '/') else decide (c = x)) &&
        chunkMatches cr xs) = true := h
    rw [Bool.and_eq_true] at h2
    have hx : x = '/' := by
      rw [if_neg (by rw [hc]; decide), decide_eq_true_eq] at h2
      rw [← h2.1, hc]
    exact ⟨rfl, by rw [show (x :: xs).get? 0 = some x from rfl, hx]⟩
  | c :: cr, x :: xs, j + 1, hall, hget, h => by
    have hall2 : (decide (c ≠ '/') && (cr.take j).all (fun c2 => decide (c2 ≠ '/'))) = true := hall
    rw [Bool.and_eq_true, decide_eq_true_eq] at hall2
    have h2 : ((if c = '?' then decide (x ≠ '/') else decide (c = x)) &&
        chunkMatches cr xs) = true := h
    rw [Bool.and_eq_true] at h2
    have hx : x ≠ '/' := by
      by_cases hq : c = '?'
      · rw [if_pos hq, decide_eq_true_eq] at h2
        exact h2.1
      · rw [if_neg hq, decide_eq_true_eq] at h2
        rw [← h2.1]
        exact hall2.1
    obtain ⟨ih1, ih2⟩ := chunkMatches_at_slash cr xs j hall2.2 hget h2.2
    refine ⟨?_, ih2⟩
    show ((x :: xs.take j).all (fun c2 => decide (c2 ≠ '/'))) = true
    rw [List.all_cons, Bool.and_eq_true]
    exact ⟨by simp [hx], ih1⟩

/-- If the chunk contains a slash, it can match at only one slash-free
offset: a match at the front and a match after a nonempty slash-free skip
cannot coexist. -/
theorem slash_forces_zero (chunk s : GoStr) (k : Nat)
    (hnot : (chunk.all (fun c => decide (c ≠ '/'))) = false)
    (h0 : chunkMatches chunk s = true)
    (hk : k ≤ s.length)
    (hfree : ((s.take k).all (fun c => decide (c ≠ '/'))) = true)
    (hkm : chunkMatches chunk (s.drop k) = true) : k = 0 := by
  by_contra hk0
  obtain ⟨j, hjlen, hjall, hjget⟩ := firstSlash chunk hnot
  obtain ⟨hfree0, hget0⟩ := chunkMatches_at_slash chunk s j hjall hjget h0
  obtain ⟨hfreek, hgetk⟩ := chunkMatches_at_slash chunk (s.drop k) j hjall hjget hkm
  have hjk : k ≤ j := by
    by_contra hlt
    have := (all_take_get? (fun c => decide (c ≠ '/')) s k).mp hfree j (by omega) '/' hget0
    simp at this
  have hgetk2 : s.get? (k + j) = some '/' := by
    rw [List.get?_drop] at hgetk
    exact hgetk
  have hfreek2 := (all_take_get? (fun c => decide (c ≠ '/')) (s.drop k) j).mp hfreek
    (j - k) (by omega) '/'
  rw [List.get?_drop, show k + (j - k) = j from by omega, hget0] at hfreek2
  have := hfreek2 rfl
  simp at this
/-- If the chunk matches at the front and the commit condition holds, the
greedy commit loses no match: the run-then-chunk match equals the
continuation after the front chunk. -/
theorem runCommit (chunk : GoStr) (scont : GoStr → Bool) (pe : Bool)
    (hpe : pe = true → ∀ s, scont s = s.isEmpty)
    (hskip : pe = false → ∀ s n, n ≤ s.length →
      ((s.take n).all (fun c => decide (c ≠ '/'))) = true →
      scont (s.drop n) = true → scont s = true)
    (name : GoStr)
    (hcm : chunkMatches chunk name = true)
    (hcc : (name.drop chunk.length).isEmpty = true ∨ pe = false) :
    specMatchRun (fun s => if chunkMatches chunk s then
      scont (s.drop chunk.length) else false) name =
      scont (name.drop chunk.length) := by
  rw [Bool.eq_iff_iff]
  constructor
  · intro h
    obtain ⟨k, hk, hkfree, hkm⟩ := (specMatchRun_iff _ name).mp h
    have hkm2 : chunkMatches chunk (name.drop k) = true ∧
        scont ((name.drop k).drop chunk.length) = true := by
      by_cases hcmk : chunkMatches chunk (name.drop k) = true
      · rw [if_pos hcmk] at hkm
        exact ⟨hcmk, hkm⟩
      · rw [if_neg hcmk] at hkm
        exact Bool.noConfusion hkm
    cases hpe2 : pe with
    | true =>
      rw [hpe hpe2]
      rcases hcc with hcc1 | hcc2
      · exact hcc1
      · rw [hpe2] at hcc2
        exact Bool.noConfusion hcc2
    | false =>
      by_cases hk0 : k = 0
      · subst hk0
        exact hkm2.2
      · by_cases hsl : (chunk.all (fun c => decide (c ≠ '/'))) = true
        · have hregion := chunkMatches_region chunk (name.drop k) hsl hkm2.1
          have hLlen : chunk.length ≤ (name.drop k).length :=
            chunkMatches_length chunk (name.drop k) hkm2.1
          have hklen : k ≤ (name.drop chunk.length).length := by
            rw [List.length_drop] at hLlen ⊢
            omega
          have hfree2 : (((name.drop chunk.length).take k).all
              (fun c => decide (c ≠ '/'))) = true := by
            rw [all_take_get?]
            intro i hi a ha
            rw [List.get?_drop] at ha
            by_cases hik : chunk.length + i < k
            · exact (all_take_get? _ name k).mp hkfree (chunk.length + i) hik a ha
            · exact (all_take_get? _ (name.drop k) chunk.length).mp hregion
                ((chunk.length + i) - k) (by omega) a
                (by
                  rw [List.get?_drop,
                    show k + ((chunk.length + i) - k) = chunk.length + i from by omega]
                  exact ha)
          have hrest : scont ((name.drop chunk.length).drop k) = true := by
            rw [List.drop_drop]
            have h3 := hkm2.2
            rw [List.drop_drop] at h3
            rw [show chunk.length + k = k + chunk.length from by omega]
            exact h3
          exact hskip hpe2 (name.drop chunk.length) k hklen hfree2 hrest
        · exact absurd (slash_forces_zero chunk name k
            (by simpa using hsl) hcm hk hkfree hkm2.1) hk0
  · intro h
    refine (specMatchRun_iff _ name).mpr ⟨0, Nat.zero_le _, rfl, ?_⟩
    show (if chunkMatches chunk (name.drop 0) then
      scont ((name.drop 0).drop chunk.length) else false) = true
    rw [List.drop_zero, if_pos hcm]
    exact h

/-- starSkipF on the empty name. -/
theorem starSkipF_nil (mc : GoStr → Except Unit (Option GoStr)) (pe : Bool) :
    starSkipF mc pe [] = .ok none := rfl

/-- One step of starSkipF, spelled out. -/
theorem starSkipF_cons (mc : GoStr → Except Unit (Option GoStr)) (pe : Bool)
    (c : Char) (rest : GoStr) :
    starSkipF mc pe (c :: rest) =
      if c = '/' then .ok none
      else
        match mc rest with
        | .ok (some t) =>
          if pe ∧ ¬t.isEmpty then starSkipF mc pe rest else .ok (some t)
        | .ok none => starSkipF mc pe rest
        | .error () => .error () := rfl

/-- starSkipF stops at a slash. -/
theorem starSkipF_slash (mc : GoStr → Except Unit (Option GoStr)) (pe : Bool)
    (c : Char) (rest : GoStr) (hx : c = '/') :
    starSkipF mc pe (c :: rest) = .ok none := by
  rw [starSkipF_cons, if_pos hx]

/-- starSkipF when the chunk matches one position on. -/
theorem starSkipF_cons_ok_some (mc : GoStr → Except Unit (Option GoStr)) (pe : Bool)
    (c : Char) (rest t : GoStr) (hx : c ≠ '/') (hmc : mc rest = .ok (some t)) :
    starSkipF mc pe (c :: rest) =
      if pe = true ∧ ¬(t.isEmpty = true) then starSkipF mc pe rest
      else .ok (some t) := by
  rw [starSkipF_cons, if_neg hx, hmc]

/-- starSkipF when the chunk fails one position on. -/
theorem starSkipF_cons_ok_none (mc : GoStr → Except Unit (Option GoStr)) (pe : Bool)
    (c : Char) (rest : GoStr) (hx : c ≠ '/') (hmc : mc rest = .ok none) :
    starSkipF mc pe (c :: rest) = starSkipF mc pe rest := by
  rw [starSkipF_cons, if_neg hx, hmc]

/-- validChunksF on a nonempty pattern, spelled out. -/
theorem validChunksF_ne (fuel : Nat) (p : GoStr) (h : p ≠ []) :
    validChunksF (fuel + 1) p =
      match matchChunkF ((scanChunk p).2.1.length + 1) (scanChunk p).2.1 [] false with
      | .error () => false
      | .ok _ => validChunksF fuel (scanChunk p).2.2 := by
  cases p with
  | nil => exact absurd rfl h
  | cons c rest => rfl

/-- Dropping the run-free prefix never lengthens the list. -/
theorem chunkSuf_length_le : ∀ (ts : List GlobTok), (chunkSuf ts).length ≤ ts.length
  | [] => Nat.le_refl 0
  | .anyRun :: ts => Nat.le_refl _
  | .lit _ :: ts => Nat.le_trans (chunkSuf_length_le ts) (Nat.le_succ _)
  | .anyOne :: ts => Nat.le_trans (chunkSuf_length_le ts) (Nat.le_succ _)

/-- On a nonempty list with no leading run the suffix is strictly
shorter. -/
theorem chunkSuf_length_lt :
    ∀ (ts : List GlobTok), leadRun ts = false → ts ≠ [] →
      (chunkSuf ts).length < ts.length
  | [], _, h => absurd rfl h
  | .anyRun :: _, h, _ => Bool.noConfusion h
  | .lit _ :: ts, _, _ => Nat.lt_succ_of_le (chunkSuf_length_le ts)
  | .anyOne :: ts, _, _ => Nat.lt_succ_of_le (chunkSuf_length_le ts)

/-- Stripping leading runs never lengthens the list. -/
theorem stripRuns_length_le : ∀ (ts : List GlobTok), (stripRuns ts).length ≤ ts.length
  | [] => Nat.le_refl 0
  | .anyRun :: ts => Nat.le_trans (stripRuns_length_le ts) (Nat.le_succ _)
  | .lit _ :: _ => Nat.le_refl _
  | .anyOne :: _ => Nat.le_refl _

/-- A nonempty rendered pattern. -/
theorem render_ne_nil (ts : List GlobTok) (h : ts ≠ []) : render ts ≠ [] := by
  intro hr
  have := render_length ts
  rw [hr] at this
  cases ts with
  | nil => exact h rfl
  | cons t ts2 =>
    rw [List.length_cons] at this
    exact Nat.noConfusion this

/-- The trailing validation loop accepts every rendered fragment pattern. -/
theorem validChunks_render :
    ∀ (fuel : Nat) (ts : List GlobTok), fragOK ts = true → ts.length < fuel →
      validChunksF fuel (render ts) = true
  | fuel + 1, [], _, _ => rfl
  | fuel + 1, t :: ts2, h, hlen => by
    rw [validChunksF_ne fuel (render (t :: ts2))
      (render_ne_nil (t :: ts2) (by intro hh; exact List.noConfusion hh)),
      scanChunk_render (t :: ts2) h]
    rw [matchChunkF_simple (List.map tokChar (chunkPre (stripRuns (t :: ts2))))
      _ [] (simpleChunk_map_tokChar _ (fragOK_chunkPre _ (fragOK_stripRuns _ h)))
      (by rw [List.length_map]; omega)]
    show validChunksF fuel (render (chunkSuf (stripRuns (t :: ts2)))) = true
    refine validChunks_render fuel (chunkSuf (stripRuns (t :: ts2)))
      (fragOK_chunkSuf _ (fragOK_stripRuns _ h)) ?_
    have h1 := stripRuns_length_le (t :: ts2)
    have h2 := chunkSuf_length_le (stripRuns (t :: ts2))
    have h3 : (stripRuns (t :: ts2)).length ≤ ts2.length + 1 := by
      rw [List.length_cons] at h1
      exact h1
    by_cases hne : stripRuns (t :: ts2) = []
    · rw [hne]
      rw [List.length_cons] at hlen
      show (0 : Nat) < fuel
      omega
    · have h4 := chunkSuf_length_lt (stripRuns (t :: ts2))
        (leadRun_stripRuns (t :: ts2)) hne
      rw [List.length_cons] at hlen
      omega
/-- The star branch of path.Match — try the chunk here, else skip forward
through slash-free positions — computes exactly the run-then-chunk-then-rest
semantics. -/
theorem starBlock (fuel : Nat) (chunk rest : GoStr) (scont : GoStr → Bool)
    (hsimple : simpleChunk chunk = true) (hne : chunk ≠ [])
    (hcont : ∀ t, goMatchF fuel rest t = .ok (scont t))
    (hpe : rest.isEmpty = true → ∀ s, scont s = s.isEmpty)
    (hskip : rest.isEmpty = false → ∀ s n, n ≤ s.length →
      ((s.take n).all (fun c => decide (c ≠ '/'))) = true →
      scont (s.drop n) = true → scont s = true) :
    ∀ (name : GoStr),
      (if (chunkMatches chunk name &&
          ((name.drop chunk.length).isEmpty || !rest.isEmpty)) = true
       then goMatchF fuel rest (name.drop chunk.length)
       else
         match starSkipF (fun s => matchChunkF (chunk.length + 1) chunk s false)
             rest.isEmpty name with
         | .ok (some t) => goMatchF fuel rest t
         | .ok none => Except.ok false
         | .error () => Except.error ()) =
      Except.ok (specMatchRun (fun s => if chunkMatches chunk s then
        scont (s.drop chunk.length) else false) name) := by
  have hscont_false : ∀ (nm : GoStr),
      ¬((chunkMatches chunk nm &&
        ((nm.drop chunk.length).isEmpty || !rest.isEmpty)) = true) →
      (if chunkMatches chunk nm then scont (nm.drop chunk.length) else false) = false := by
    intro nm hnc
    by_cases hcm : chunkMatches chunk nm = true
    · rw [if_pos hcm]
      have hpe_t : rest.isEmpty = true := by
        cases hrr : rest.isEmpty with
        | true => rfl
        | false => exact absurd (by rw [hcm, hrr]; simp) hnc
      have hemp : (nm.drop chunk.length).isEmpty = false := by
        cases hee : (nm.drop chunk.length).isEmpty with
        | false => rfl
        | true => exact absurd (by rw [hcm, hee]; simp) hnc
      rw [hpe hpe_t]
      exact hemp
    · rw [if_neg hcm]
  have hccOf : ∀ (nm : GoStr),
      (chunkMatches chunk nm &&
        ((nm.drop chunk.length).isEmpty || !rest.isEmpty)) = true →
      ((nm.drop chunk.length).isEmpty = true ∨ rest.isEmpty = false) := by
    intro nm hc
    rw [Bool.and_eq_true, Bool.or_eq_true] at hc
    rcases hc.2 with h | h
    · exact Or.inl h
    · right
      cases hrr : rest.isEmpty with
      | false => rfl
      | true =>
        rw [hrr] at h
        exact Bool.noConfusion h
  intro name
  induction name with
  | nil =>
    have hcmn : chunkMatches chunk [] = false := by
      cases chunk with
      | nil => exact absurd rfl hne
      | cons c0 cr0 => rfl
    rw [if_neg (by rw [hcmn]; simp), starSkipF_nil]
    show Except.ok false = Except.ok (specMatchRun (fun s =>
      if chunkMatches chunk s then scont (s.drop chunk.length) else false) [])
    show Except.ok false = Except.ok (if chunkMatches chunk [] then
      scont (([] : GoStr).drop chunk.length) else false)
    rw [hcmn]
    rfl
  | cons x xs ih =>
    by_cases hcommit : (chunkMatches chunk (x :: xs) &&
        (((x :: xs).drop chunk.length).isEmpty || !rest.isEmpty)) = true
    · rw [if_pos hcommit, hcont]
      rw [Bool.and_eq_true] at hcommit
      rw [runCommit chunk scont rest.isEmpty hpe hskip (x :: xs) hcommit.1
        (hccOf (x :: xs) (by rw [Bool.and_eq_true]; exact hcommit))]
    · rw [if_neg hcommit]
      by_cases hx : x = '/'
      · rw [starSkipF_slash _ _ _ _ hx]
        show Except.ok false = Except.ok
          ((if chunkMatches chunk (x :: xs) then
            scont ((x :: xs).drop chunk.length) else false) ||
          (decide (x ≠ '/') && specMatchRun (fun s =>
            if chunkMatches chunk s then scont (s.drop chunk.length) else false) xs))
        rw [hscont_false (x :: xs) hcommit,
          show (decide (x ≠ '/')) = false from by simp [hx]]
        rfl
      · 
        have hstep : specMatchRun (fun s => if chunkMatches chunk s then
            scont (s.drop chunk.length) else false) (x :: xs) =
            specMatchRun (fun s => if chunkMatches chunk s then
              scont (s.drop chunk.length) else false) xs := by
          show ((if chunkMatches chunk (x :: xs) then
            scont ((x :: xs).drop chunk.length) else false) ||
            (decide (x ≠ '/') && specMatchRun (fun s =>
              if chunkMatches chunk s then scont (s.drop chunk.length) else false) xs)) = _
          rw [hscont_false (x :: xs) hcommit,
            show (decide (x ≠ '/')) = true from by simp [hx], Bool.false_or,
            Bool.true_and]
        have hmc2 : matchChunkF (chunk.length + 1) chunk xs false =
            Except.ok (if chunkMatches chunk xs then
              some (xs.drop chunk.length) else none) :=
          matchChunkF_simple chunk (chunk.length + 1) xs hsimple (Nat.lt_succ_self _)
        by_cases hcm2 : chunkMatches chunk xs = true
        · have hsome : (fun s => matchChunkF (chunk.length + 1) chunk s false) xs =
              Except.ok (some (xs.drop chunk.length)) := by
            show matchChunkF (chunk.length + 1) chunk xs false = _
            rw [hmc2, if_pos hcm2]
          rw [starSkipF_cons_ok_some _ _ _ _ _ hx hsome]
          by_cases hcommit2 : (chunkMatches chunk xs &&
              ((xs.drop chunk.length).isEmpty || !rest.isEmpty)) = true
          · have hnotif : ¬(rest.isEmpty = true ∧
                ¬((xs.drop chunk.length).isEmpty = true)) := by
              rw [Bool.and_eq_true, Bool.or_eq_true] at hcommit2
              rcases hcommit2.2 with h | h
              · exact fun hh => hh.2 h
              · intro hh
                rw [hh.1] at h
                exact Bool.noConfusion h
            rw [if_neg hnotif]
            show goMatchF fuel rest (xs.drop chunk.length) = _
            rw [hcont, hstep]
            rw [runCommit chunk scont rest.isEmpty hpe hskip xs hcm2
              (hccOf xs hcommit2)]
          · have hif : rest.isEmpty = true ∧
                ¬((xs.drop chunk.length).isEmpty = true) := by
              constructor
              · cases hrr : rest.isEmpty with
                | true => rfl
                | false => exact absurd (by rw [hcm2, hrr]; simp) hcommit2
              · intro hh
                exact hcommit2 (by rw [hcm2, hh]; simp)
            rw [if_pos hif]
            rw [if_neg hcommit2] at ih
            rw [hstep]
            exact ih
        · have hnone : (fun s => matchChunkF (chunk.length + 1) chunk s false) xs =
              Except.ok none := by
            show matchChunkF (chunk.length + 1) chunk xs false = _
            rw [hmc2, if_neg hcm2]
          rw [starSkipF_cons_ok_none _ _ _ _ hx hnone]
          have hcommit2 : ¬((chunkMatches chunk xs &&
              ((xs.drop chunk.length).isEmpty || !rest.isEmpty)) = true) := by
            rw [Bool.and_eq_true]
            intro hh
            exact hcm2 hh.1
          rw [if_neg hcommit2] at ih
          rw [hstep]
          exact ih
/-- goAfter on a successful chunk match, spelled out. -/
theorem goAfter_some (go : GoStr → GoStr → Except Unit Bool) (star : Bool)
    (chunk rest name t : GoStr) :
    goAfter go star chunk rest name (some t) =
      if t.isEmpty = true ∨ ¬(rest.isEmpty = true) then go rest t
      else if star = true then goStarPart go chunk rest name
      else goValidPart rest := rfl

/-- goAfter on a failed chunk match, spelled out. -/
theorem goAfter_none (go : GoStr → GoStr → Except Unit Bool) (star : Bool)
    (chunk rest name : GoStr) :
    goAfter go star chunk rest name none =
      if star = true then goStarPart go chunk rest name
      else goValidPart rest := rfl

/-- goStarPart, spelled out. -/
theorem goStarPart_eq (go : GoStr → GoStr → Except Unit Bool)
    (chunk rest name : GoStr) :
    goStarPart go chunk rest name =
      match starSkipF (fun s => matchChunkF (chunk.length + 1) chunk s false)
          rest.isEmpty name with
      | .error () => .error ()
      | .ok (some t) => go rest t
      | .ok none => goValidPart rest := rfl

/-- goValidPart, spelled out. -/
theorem goValidPart_eq (rest : GoStr) :
    goValidPart rest =
      if validChunksF (rest.length + 1) rest = true then .ok false
      else .error () := rfl

/-- One step of goMatchF on a nonempty pattern, through the scan
decomposition. -/
theorem goMatchF_scan (fuel : Nat) (p name : GoStr) (star : Bool)
    (chunk rest : GoStr) (hp : p ≠ []) (hsc : scanChunk p = (star, chunk, rest)) :
    goMatchF (fuel + 1) p name =
      if star = true ∧ chunk.isEmpty = true then Except.ok (!name.contains '/')
      else
        match matchChunkF (chunk.length + 1) chunk name false with
        | .error () => .error ()
        | .ok r => goAfter (goMatchF fuel) star chunk rest name r := by
  cases p with
  | nil => exact absurd rfl hp
  | cons c ps =>
    have h0 : goMatchF (fuel + 1) (c :: ps) name =
        (if (scanChunk (c :: ps)).1 = true ∧ (scanChunk (c :: ps)).2.1.isEmpty = true
        then Except.ok (!name.contains '/')
        else
          match matchChunkF ((scanChunk (c :: ps)).2.1.length + 1)
              (scanChunk (c :: ps)).2.1 name false with
          | .error () => .error ()
          | .ok r => goAfter (goMatchF fuel) (scanChunk (c :: ps)).1
              (scanChunk (c :: ps)).2.1 (scanChunk (c :: ps)).2.2 name r) := rfl
    rw [h0, hsc]

/-- The suffix after the run-free prefix is empty or starts with a run. -/
theorem chunkSuf_shape :
    ∀ (u : List GlobTok), chunkSuf u = [] ∨ ∃ v, chunkSuf u = .anyRun :: v
  | [] => Or.inl rfl
  | .anyRun :: v => Or.inr ⟨v, rfl⟩
  | .lit _ :: u2 => chunkSuf_shape u2
  | .anyOne :: u2 => chunkSuf_shape u2

/-- An empty run-free prefix of a run-headless list forces the empty
list. -/
theorem chunkPre_eq_nil :
    ∀ (u : List GlobTok), leadRun u = false → chunkPre u = [] → u = []
  | [], _, _ => rfl
  | .anyRun :: _, h, _ => Bool.noConfusion h
  | .lit _ :: _, _, hp => List.noConfusion hp
  | .anyOne :: _, _, hp => List.noConfusion hp
/-- path.Match on a rendered fragment pattern computes the slash-aware glob
semantics. -/
theorem goMatchF_render :
    ∀ (fuel : Nat) (ts : List GlobTok) (name : GoStr), fragOK ts = true →
      ts.length < fuel →
      goMatchF fuel (render ts) name = .ok (specMatch ts name) := by
  intro fuel
  induction fuel with
  | zero =>
    intro ts name _ hlen
    exact absurd hlen (by omega)
  | succ fuel ihf =>
    intro ts name h hlen
    cases ts with
    | nil => rfl
    | cons t ts2 =>
      have hfragStrip : fragOK (stripRuns (t :: ts2)) = true := fragOK_stripRuns _ h
      have hfragPre : fragOK (chunkPre (stripRuns (t :: ts2))) = true :=
        fragOK_chunkPre _ hfragStrip
      have hfragSuf : fragOK (chunkSuf (stripRuns (t :: ts2))) = true :=
        fragOK_chunkSuf _ hfragStrip
      have hsimple := simpleChunk_map_tokChar _ hfragPre
      have hlenSuf : (chunkSuf (stripRuns (t :: ts2))).length < fuel := by
        have h1 := stripRuns_length_le (t :: ts2)
        have h2 := chunkSuf_length_le (stripRuns (t :: ts2))
        rw [List.length_cons] at h1 hlen
        by_cases hne : stripRuns (t :: ts2) = []
        · rw [hne]
          show (List.length ([] : List GlobTok)) < fuel
          rw [List.length_nil]
          omega
        · have h4 := chunkSuf_length_lt (stripRuns (t :: ts2))
            (leadRun_stripRuns (t :: ts2)) hne
          omega
      have hvalid : validChunksF
          ((render (chunkSuf (stripRuns (t :: ts2)))).length + 1)
          (render (chunkSuf (stripRuns (t :: ts2)))) = true :=
        validChunks_render _ _ hfragSuf (by rw [render_length]; omega)
      have hcontS : ∀ s2, goMatchF fuel (render (chunkSuf (stripRuns (t :: ts2)))) s2 =
          .ok (specMatch (chunkSuf (stripRuns (t :: ts2))) s2) :=
        fun s2 => ihf _ s2 hfragSuf hlenSuf
      rw [goMatchF_scan fuel (render (t :: ts2)) name (leadRun (t :: ts2))
        (List.map tokChar (chunkPre (stripRuns (t :: ts2))))
        (render (chunkSuf (stripRuns (t :: ts2))))
        (render_ne_nil _ (fun hh => List.noConfusion hh))
        (scanChunk_render _ h)]
      cases hlead : leadRun (t :: ts2) with
      | false =>
        have hsplit : specMatch (t :: ts2) name =
            (if chunkMatches (List.map tokChar (chunkPre (stripRuns (t :: ts2)))) name
            then specMatch (chunkSuf (stripRuns (t :: ts2)))
              (name.drop (List.map tokChar (chunkPre (stripRuns (t :: ts2)))).length)
            else false) := by
          have h1 : specMatch (t :: ts2) name =
              specMatch (stripRuns (t :: ts2)) name := by
            rw [stripRuns_of_not_lead _ hlead]
          have h2 : specMatch (stripRuns (t :: ts2)) name =
              specMatch (chunkPre (stripRuns (t :: ts2)) ++
                chunkSuf (stripRuns (t :: ts2))) name := by
            rw [chunkPre_append_chunkSuf]
          rw [h1, h2, specMatch_chunk _ _ name hfragPre (runFree_chunkPre _),
            List.length_map]
        rw [if_neg (fun hh => Bool.noConfusion hh.1)]
        rw [matchChunkF_simple (List.map tokChar (chunkPre (stripRuns (t :: ts2))))
          ((List.map tokChar (chunkPre (stripRuns (t :: ts2)))).length + 1) name
          hsimple (Nat.lt_succ_self _)]
        show goAfter (goMatchF fuel) false
          (List.map tokChar (chunkPre (stripRuns (t :: ts2))))
          (render (chunkSuf (stripRuns (t :: ts2)))) name
          (if chunkMatches (List.map tokChar (chunkPre (stripRuns (t :: ts2)))) name
          then some (name.drop
            (List.map tokChar (chunkPre (stripRuns (t :: ts2)))).length)
          else none) = Except.ok (specMatch (t :: ts2) name)
        by_cases hcm : chunkMatches
            (List.map tokChar (chunkPre (stripRuns (t :: ts2)))) name = true
        · rw [if_pos hcm, goAfter_some]
          by_cases hcc : ((name.drop
              (List.map tokChar (chunkPre (stripRuns (t :: ts2)))).length).isEmpty = true ∨
              ¬((render (chunkSuf (stripRuns (t :: ts2)))).isEmpty = true))
          · rw [if_pos hcc, hcontS, hsplit, if_pos hcm]
          · rw [if_neg hcc, if_neg (fun hh => Bool.noConfusion hh),
              goValidPart_eq, if_pos hvalid, hsplit, if_pos hcm]
            rw [not_or] at hcc
            have hre : (render (chunkSuf (stripRuns (t :: ts2)))).isEmpty = true :=
              not_not.mp hcc.2
            have hsuf : chunkSuf (stripRuns (t :: ts2)) = [] := by
              cases hcs : chunkSuf (stripRuns (t :: ts2)) with
              | nil => rfl
              | cons a b =>
                rw [hcs] at hre
                exact absurd (List.isEmpty_iff.mp hre)
                  (render_ne_nil (a :: b) (fun hh => List.noConfusion hh))
            rw [hsuf, specMatch_nil]
            have hf2 : (name.drop
                (List.map tokChar (chunkPre (stripRuns (t :: ts2)))).length).isEmpty =
                false := by
              cases hdd : (name.drop
                  (List.map tokChar (chunkPre (stripRuns (t :: ts2)))).length).isEmpty with
              | false => rfl
              | true => exact absurd hdd hcc.1
            rw [hf2]
        · rw [if_neg hcm, goAfter_none, if_neg (fun hh => Bool.noConfusion hh),
            goValidPart_eq, if_pos hvalid, hsplit, if_neg hcm]
      | true =>
        by_cases hpre : chunkPre (stripRuns (t :: ts2)) = []
        · rw [hpre, if_pos ⟨rfl, rfl⟩]
          rw [specMatch_stripRuns (t :: ts2) hlead name,
            chunkPre_eq_nil _ (leadRun_stripRuns (t :: ts2)) hpre,
            specMatchRun_congr (fun s2 => specMatch [] s2) (fun s2 => s2.isEmpty)
              (fun s2 => rfl) name, specMatchRun_isEmpty]
        · have hchne : List.map tokChar (chunkPre (stripRuns (t :: ts2))) ≠ [] := by
            intro hh
            apply hpre
            cases hcp : chunkPre (stripRuns (t :: ts2)) with
            | nil => rfl
            | cons a b =>
              rw [hcp] at hh
              exact List.noConfusion hh
          have hchempty : (List.map tokChar (chunkPre (stripRuns (t :: ts2)))).isEmpty =
              false := by
            cases hmap : List.map tokChar (chunkPre (stripRuns (t :: ts2))) with
            | nil => exact absurd hmap hchne
            | cons a b => rfl
          rw [if_neg (fun hh => by rw [hchempty] at hh; exact Bool.noConfusion hh.2)]
          rw [matchChunkF_simple (List.map tokChar (chunkPre (stripRuns (t :: ts2))))
            ((List.map tokChar (chunkPre (stripRuns (t :: ts2)))).length + 1) name
            hsimple (Nat.lt_succ_self _)]
          show goAfter (goMatchF fuel) true
            (List.map tokChar (chunkPre (stripRuns (t :: ts2))))
            (render (chunkSuf (stripRuns (t :: ts2)))) name
            (if chunkMatches (List.map tokChar (chunkPre (stripRuns (t :: ts2)))) name
            then some (name.drop
              (List.map tokChar (chunkPre (stripRuns (t :: ts2)))).length)
            else none) = Except.ok (specMatch (t :: ts2) name)
          have hspec : specMatch (t :: ts2) name =
              specMatchRun (fun s =>
                if chunkMatches (List.map tokChar (chunkPre (stripRuns (t :: ts2)))) s
                then specMatch (chunkSuf (stripRuns (t :: ts2)))
                  (s.drop (List.map tokChar (chunkPre (stripRuns (t :: ts2)))).length)
                else false) name := by
            rw [specMatch_stripRuns (t :: ts2) hlead name]
            refine specMatchRun_congr _ _ (fun s2 => ?_) name
            have hX : specMatch (stripRuns (t :: ts2)) s2 =
                specMatch (chunkPre (stripRuns (t :: ts2)) ++
                  chunkSuf (stripRuns (t :: ts2))) s2 := by
              rw [chunkPre_append_chunkSuf]
            rw [hX, specMatch_chunk _ _ s2 hfragPre (runFree_chunkPre _),
              List.length_map]
          have hpe2 : (render (chunkSuf (stripRuns (t :: ts2)))).isEmpty = true →
              ∀ s2, specMatch (chunkSuf (stripRuns (t :: ts2))) s2 = s2.isEmpty := by
            intro hemp s2
            have hnil : chunkSuf (stripRuns (t :: ts2)) = [] := by
              cases hcs : chunkSuf (stripRuns (t :: ts2)) with
              | nil => rfl
              | cons a b =>
                rw [hcs] at hemp
                exact absurd (List.isEmpty_iff.mp hemp)
                  (render_ne_nil (a :: b) (fun hh => List.noConfusion hh))
            rw [hnil]
            rfl
          have hskip2 : (render (chunkSuf (stripRuns (t :: ts2)))).isEmpty = false →
              ∀ s2 n, n ≤ s2.length →
                ((s2.take n).all (fun c => decide (c ≠ '/'))) = true →
                specMatch (chunkSuf (stripRuns (t :: ts2))) (s2.drop n) = true →
                specMatch (chunkSuf (stripRuns (t :: ts2))) s2 = true := by
            intro hf2 s2 n hn hall hm
            rcases chunkSuf_shape (stripRuns (t :: ts2)) with hsh | ⟨v, hsh⟩
            · rw [hsh] at hf2
              exact Bool.noConfusion hf2
            · rw [hsh] at hm ⊢
              rw [specMatch_run] at hm ⊢
              exact specMatchRun_skip _ s2 n hn hall hm
          have hbl := starBlock fuel
            (List.map tokChar (chunkPre (stripRuns (t :: ts2))))
            (render (chunkSuf (stripRuns (t :: ts2))))
            (fun s2 => specMatch (chunkSuf (stripRuns (t :: ts2))) s2)
            hsimple hchne hcontS hpe2 hskip2 name
          have hgo : ¬((chunkMatches
                (List.map tokChar (chunkPre (stripRuns (t :: ts2)))) name &&
                ((name.drop
                  (List.map tokChar (chunkPre (stripRuns (t :: ts2)))).length).isEmpty ||
                !(render (chunkSuf (stripRuns (t :: ts2)))).isEmpty)) = true) →
              goStarPart (goMatchF fuel)
                (List.map tokChar (chunkPre (stripRuns (t :: ts2))))
                (render (chunkSuf (stripRuns (t :: ts2)))) name =
              Except.ok (specMatchRun (fun s =>
                if chunkMatches (List.map tokChar (chunkPre (stripRuns (t :: ts2)))) s
                then specMatch (chunkSuf (stripRuns (t :: ts2)))
                  (s.drop (List.map tokChar (chunkPre (stripRuns (t :: ts2)))).length)
                else false) name) := by
            intro hcb
            rw [if_neg hcb] at hbl
            rw [goStarPart_eq,
              show goValidPart (render (chunkSuf (stripRuns (t :: ts2)))) =
                Except.ok false from by rw [goValidPart_eq, if_pos hvalid]]
            cases hss : starSkipF (fun s => matchChunkF
                ((List.map tokChar (chunkPre (stripRuns (t :: ts2)))).length + 1)
                (List.map tokChar (chunkPre (stripRuns (t :: ts2)))) s false)
                (render (chunkSuf (stripRuns (t :: ts2)))).isEmpty name with
            | error e =>
              rw [hss] at hbl
              cases e
              exact Except.noConfusion hbl
            | ok o =>
              rw [hss] at hbl
              cases o with
              | some t2 => exact hbl
              | none => exact hbl
          by_cases hcm : chunkMatches
              (List.map tokChar (chunkPre (stripRuns (t :: ts2)))) name = true
          · rw [if_pos hcm, goAfter_some]
            by_cases hcc : ((name.drop
                (List.map tokChar (chunkPre (stripRuns (t :: ts2)))).length).isEmpty =
                true ∨
                ¬((render (chunkSuf (stripRuns (t :: ts2)))).isEmpty = true))
            · rw [if_pos hcc]
              have hcb : (chunkMatches
                  (List.map tokChar (chunkPre (stripRuns (t :: ts2)))) name &&
                  ((name.drop
                    (List.map tokChar (chunkPre (stripRuns (t :: ts2)))).length).isEmpty ||
                  !(render (chunkSuf (stripRuns (t :: ts2)))).isEmpty)) = true := by
                rw [Bool.and_eq_true, Bool.or_eq_true]
                refine ⟨hcm, ?_⟩
                rcases hcc with h2 | h2
                · exact Or.inl h2
                · right
                  cases hrr : (render (chunkSuf (stripRuns (t :: ts2)))).isEmpty with
                  | true => exact absurd hrr h2
                  | false => rfl
              rw [if_pos hcb] at hbl
              rw [hspec]
              exact hbl
            · rw [if_neg hcc, if_pos rfl, hspec]
              refine hgo ?_
              rw [Bool.and_eq_true, Bool.or_eq_true]
              intro hh
              apply hcc
              rcases hh.2 with h2 | h2
              · exact Or.inl h2
              · right
                intro hre
                rw [hre] at h2
                exact Bool.noConfusion h2
          · rw [if_neg hcm, goAfter_none, if_pos rfl, hspec]
            refine hgo ?_
            rw [Bool.and_eq_true]
            intro hh
            exact hcm hh.1
/-- C7: pub/sub pattern matching is not unrestricted glob — path.Match is
slash-aware.  For every pattern built from ordinary literal characters and
the two wildcards, and every channel name, matchPattern equals the
slash-aware glob semantics in which the run wildcard matches any run of
characters not containing a slash and the single-character wildcard matches
exactly one non-slash character, the whole name being consumed. -/
theorem C7_pattern_language (toks : List GlobTok) (name : GoStr)
    (h : fragOK toks = true) :
    matchPattern (render toks) name = specMatch toks name := by
  have hg := goMatchF_render ((render toks).length + 1) toks name h
    (by rw [render_length]; omega)
  show (match goMatchF ((render toks).length + 1) (render toks) name with
    | .ok b => b
    | .error () => false) = specMatch toks name
  rw [hg]

/-- Witness for C7: the pattern star-b matches ab under both the matcher and
the slash-aware semantics. -/
theorem C7_pattern_language_witness :
    fragOK [GlobTok.anyRun, GlobTok.lit 'b'] = true ∧
    matchPattern (render [GlobTok.anyRun, GlobTok.lit 'b']) ['a', 'b'] =
      specMatch [GlobTok.anyRun, GlobTok.lit 'b'] ['a', 'b'] ∧
    specMatch [GlobTok.anyRun, GlobTok.lit 'b'] ['a', 'b'] = true :=
  ⟨by decide,
    C7_pattern_language [GlobTok.anyRun, GlobTok.lit 'b'] ['a', 'b'] (by decide),
    by decide⟩

end MiniRedis
